import Mathlib

/-! The hashed wheel timer and the session registry of netio.

A shallow embedding of `include/HashedWheelTimer.hpp` and `netpack/Session.hpp`.

Objects held through `shared_ptr` live in explicit stores: a store is a list, a
pointer is an index into it, and allocation appends one cell.  Unsigned machine
integers are natural numbers reduced modulo `2^32` or `2^64` at the places
where the C++ code narrows or may wrap.  A `std::function<void()>` is data: the
closure it holds, so that an invocation can be recorded in a trace.
-/

namespace netio

/-! ## Machine words -/

/-- Number of values of a `uint32_t`. -/
def U32 : Nat := 2 ^ 32

/-- Number of values of a `uint64_t`. -/
def U64 : Nat := 2 ^ 64

/-! ## HashedWheelTimeout -/

/-- The target of a `std::function<void()>`: `empty` is a function object without a
target (it converts to `false`), `nop` is the lambda `[] () {}` that `cancel`
installs, `fn a` is any other callable, described by `a`. -/
inductive Task (α : Type) where
  | empty : Task α
  | nop : Task α
  | fn (a : α) : Task α
  deriving DecidableEq, Repr

/-- The conversion of a `std::function` to `bool`, as in `if(_task)`. -/
def Task.callable {α : Type} : Task α → Bool
  | Task.empty => false
  | _ => true

/-- A pointer to a timeout (`SpHashedWheelTimeout`): an index into the timeout store. -/
abbrev TimeoutPtr := Nat

/-- The class `HashedWheelTimeout`; `_spNext` and `_spPrev` are never read or
written by the code and are left out. -/
structure HashedWheelTimeout (α : Type) where
  state : Int
  remainingRounds : Nat
  deadline : Nat
  task : Task α
  deriving DecidableEq, Repr

namespace HashedWheelTimeout

def ST_INIT : Int := 0
def ST_CANCELLED : Int := 1
def ST_EXPIRED : Int := 2

/-- The constructor `HashedWheelTimeout(rounds, deadline, task)`. -/
def new {α : Type} (rounds deadline : Nat) (task : Task α) : HashedWheelTimeout α :=
  { state := ST_INIT, remainingRounds := rounds, deadline := deadline, task := task }

def isCancelled {α : Type} (t : HashedWheelTimeout α) : Bool :=
  decide (ST_CANCELLED = t.state)

def isExpired {α : Type} (t : HashedWheelTimeout α) : Bool :=
  decide (ST_EXPIRED = t.state)

/-- The method `cancel()`: two plain stores. -/
def cancel {α : Type} (t : HashedWheelTimeout α) : HashedWheelTimeout α :=
  { t with state := ST_CANCELLED, task := Task.nop }

/-- The method `expire()`: the timeout afterwards and the trace of the tasks it
invoked.  `compare_exchange_strong(expect, ST_EXPIRED)` stores `ST_EXPIRED` and
succeeds exactly when the state equals `expect = ST_INIT`. -/
def expire {α : Type} (t : HashedWheelTimeout α) : HashedWheelTimeout α × List (Task α) :=
  if t.state = ST_INIT then
    if t.task.callable then ({ t with state := ST_EXPIRED }, [t.task])
    else ({ t with state := ST_EXPIRED }, [])
  else (t, [])

def getRemainingRounds {α : Type} (t : HashedWheelTimeout α) : Nat :=
  t.remainingRounds

/-- The method `decreaseRounds()`: `-- _remainingRounds` on a `uint32_t`; the
`ASSERT(_remainingRounds > 0)` before it is the caller's obligation. -/
def decreaseRounds {α : Type} (t : HashedWheelTimeout α) : HashedWheelTimeout α :=
  { t with remainingRounds := (t.remainingRounds + U32 - 1) % U32 }

/-- Repeated calls of `expire()`, with the concatenated trace. -/
def expireN {α : Type} : Nat → HashedWheelTimeout α → HashedWheelTimeout α × List (Task α)
  | 0, t => (t, [])
  | n + 1, t => ((expireN n (expire t).1).1, (expire t).2 ++ (expireN n (expire t).1).2)

end HashedWheelTimeout

/-! ## HashedWheelBucket and HashedWheelTimer -/

/-- The store of the timeouts allocated so far. -/
abbrev TimeoutStore (α : Type) := List (HashedWheelTimeout α)

/-- The class `HashedWheelBucket`: a `list<SpHashedWheelTimeout>`. -/
structure HashedWheelBucket where
  timeoutList : List TimeoutPtr
  deriving DecidableEq, Repr

namespace HashedWheelBucket

/-- The method `addTimeout(timeout)`: `push_back`. -/
def addTimeout (b : HashedWheelBucket) (timeout : TimeoutPtr) : HashedWheelBucket :=
  { timeoutList := b.timeoutList ++ [timeout] }

def clearTimeouts (_b : HashedWheelBucket) : HashedWheelBucket :=
  { timeoutList := [] }

/-- The outcome of walking a bucket: the store afterwards, the pointers that stay in
the bucket, and the trace of the invoked tasks, each with the timeout it belongs to. -/
structure WalkResult (α : Type) where
  store : TimeoutStore α
  kept : List TimeoutPtr
  fired : List (TimeoutPtr × Task α)

/-- Modelled from the spec: the body of `HashedWheelBucket::expireTimeouts()` is not part
of the sources (the header only declares it).  Spec 4.5, `advance()`: walk the list
once; for each timeout, if CANCELLED or EXPIRED, remove; else if `remaining_rounds == 0`,
remove and attempt CAS INIT -> EXPIRED, on success invoke the task; else decrement
`remaining_rounds`.  The steps are the source's `isCancelled`, `isExpired`,
`getRemainingRounds`, `expire` and `decreaseRounds`.  A pointer outside the store
(which a `shared_ptr` cannot be) is stepped over. -/
def walkTimeouts {α : Type} (st : TimeoutStore α) : List TimeoutPtr → WalkResult α
  | [] => { store := st, kept := [], fired := [] }
  | p :: ps =>
    match st[p]? with
    | none =>
      let r := walkTimeouts st ps
      { store := r.store, kept := p :: r.kept, fired := r.fired }
    | some t =>
      if t.isCancelled || t.isExpired then walkTimeouts st ps
      else if t.getRemainingRounds = 0 then
        let r := walkTimeouts (st.set p t.expire.1) ps
        { store := r.store, kept := r.kept,
          fired := t.expire.2.map (fun k => (p, k)) ++ r.fired }
      else
        let r := walkTimeouts (st.set p t.decreaseRounds) ps
        { store := r.store, kept := p :: r.kept, fired := r.fired }

/-- The method `expireTimeouts()`: the walk over `_timeoutList`; the bucket keeps the
timeouts that were not removed. -/
def expireTimeouts {α : Type} (b : HashedWheelBucket) (st : TimeoutStore α) :
    TimeoutStore α × HashedWheelBucket × List (TimeoutPtr × Task α) :=
  ((walkTimeouts st b.timeoutList).store, { timeoutList := (walkTimeouts st b.timeoutList).kept },
    (walkTimeouts st b.timeoutList).fired)

end HashedWheelBucket

/-- The class `HashedWheelTimer`. -/
structure HashedWheelTimer where
  ticked : Nat
  normalizeShift : Nat
  ticksPerWheel : Nat
  msPerTick : Nat
  mask : Nat
  buckets : List HashedWheelBucket
  deriving DecidableEq, Repr

namespace HashedWheelTimer

/-- The method `convertExpireMsToTicks`: the sum and the quotient are taken in
`uint64_t`, the result is narrowed to the `uint32_t` return type. -/
def convertExpireMsToTicks (tm : HashedWheelTimer) (expireMs : Nat) : Nat :=
  ((expireMs + tm.msPerTick + U64 - 1) % U64 / tm.msPerTick) % U32

/-- The bucket index that `addTimeout` computes for a tick count. -/
def addIndex (tm : HashedWheelTimer) (ticks : Nat) : Nat :=
  let offTick := (tm.ticked &&& tm.mask) % U32
  ((ticks + offTick) % U32) &&& tm.mask

/-- The result of `addTimeout`: the store, the timer, and the returned pointer. -/
structure AddResult (α : Type) where
  store : TimeoutStore α
  timer : HashedWheelTimer
  timeout : TimeoutPtr

/-- The method `addTimeout(task, expireMs)`. -/
def addTimeout {α : Type} (st : TimeoutStore α) (tm : HashedWheelTimer)
    (task : Task α) (expireMs : Nat) : AddResult α :=
  let ticks := convertExpireMsToTicks tm expireMs
  let rounds := (ticks >>> tm.normalizeShift) % U32
  let index := addIndex tm ticks
  let timeout : TimeoutPtr := st.length
  let bucket := (tm.buckets.getD index ⟨[]⟩).addTimeout timeout
  { store := st ++ [HashedWheelTimeout.new rounds ticks task],
    timer := { tm with buckets := tm.buckets.set index bucket },
    timeout := timeout }

/-- Modelled from the spec: the constructor `HashedWheelTimer(msPerTick, ticksPerWheel)`
is declared in the header but its body is not part of the sources.  The spec (section 3)
gives what it establishes: the wheel size `W` is a power of two, `mask = W - 1`,
`shift = log2 W`, and there are `W` buckets; every field fits its C++ type. -/
def WF (tm : HashedWheelTimer) : Prop :=
  tm.ticked < U64 ∧ tm.msPerTick < U32 ∧ tm.ticksPerWheel < U32 ∧
  tm.ticksPerWheel = 2 ^ tm.normalizeShift ∧ tm.mask = tm.ticksPerWheel - 1 ∧
  tm.buckets.length = tm.ticksPerWheel

instance (tm : HashedWheelTimer) : Decidable (WF tm) := by
  unfold WF; infer_instance

/-- The bucket that `tick()` visits: `_ticked & _mask`. -/
def tickIndex (tm : HashedWheelTimer) : Nat :=
  tm.ticked &&& tm.mask

/-- The result of `tick()`: the store, the timer, and the trace of the invoked tasks. -/
structure TickResult (α : Type) where
  store : TimeoutStore α
  timer : HashedWheelTimer
  fired : List (TimeoutPtr × Task α)

/-- The method `tick()`: `_buckets[_ticked & _mask].expireTimeouts(); ++ _ticked;` with
`_ticked` a `uint64_t`. -/
def tick {α : Type} (st : TimeoutStore α) (tm : HashedWheelTimer) : TickResult α :=
  let r := (tm.buckets.getD (tickIndex tm) ⟨[]⟩).expireTimeouts st
  { store := r.1,
    timer := { tm with buckets := tm.buckets.set (tickIndex tm) r.2.1,
                       ticked := (tm.ticked + 1) % U64 },
    fired := r.2.2 }

/-- Every pointer held in a bucket points into the store. -/
def Covers {α : Type} (st : TimeoutStore α) (tm : HashedWheelTimer) : Prop :=
  ∀ b ∈ tm.buckets, ∀ p ∈ b.timeoutList, p < st.length

instance {α : Type} (st : TimeoutStore α) (tm : HashedWheelTimer) : Decidable (Covers st tm) := by
  unfold Covers; infer_instance

end HashedWheelTimer

/-! ## The wheel and its clients -/

/-- A timer together with the timeouts allocated from it. -/
structure Wheel (α : Type) where
  store : TimeoutStore α
  timer : HashedWheelTimer

/-- What the owner of a timer can do with it: `tick()`, `addTimeout(task, expireMs)`,
and `cancel()` on a timeout it was handed. -/
inductive TimerOp (α : Type) where
  | tick : TimerOp α
  | addTimeout (task : Task α) (expireMs : Nat) : TimerOp α
  | cancel (p : TimeoutPtr) : TimerOp α

namespace Wheel

/-- The call `p->cancel()` through a pointer. -/
def cancelAt {α : Type} (st : TimeoutStore α) (p : TimeoutPtr) : TimeoutStore α :=
  match st[p]? with
  | none => st
  | some t => st.set p t.cancel

/-- One operation on the wheel, with the trace of the tasks invoked during it.  The
invoked tasks are recorded, not run: what a task does to the wheel is a later operation. -/
def step {α : Type} (w : Wheel α) : TimerOp α → Wheel α × List (TimeoutPtr × Task α)
  | TimerOp.tick =>
    ({ store := (HashedWheelTimer.tick w.store w.timer).store,
       timer := (HashedWheelTimer.tick w.store w.timer).timer },
      (HashedWheelTimer.tick w.store w.timer).fired)
  | TimerOp.addTimeout task expireMs =>
    ({ store := (HashedWheelTimer.addTimeout w.store w.timer task expireMs).store,
       timer := (HashedWheelTimer.addTimeout w.store w.timer task expireMs).timer }, [])
  | TimerOp.cancel p => ({ store := cancelAt w.store p, timer := w.timer }, [])

/-- A sequence of operations, with the concatenated trace. -/
def run {α : Type} (w : Wheel α) : List (TimerOp α) → Wheel α × List (TimeoutPtr × Task α)
  | [] => (w, [])
  | op :: ops => ((run (w.step op).1 ops).1, (w.step op).2 ++ (run (w.step op).1 ops).2)

/-- The number of `tick()` calls in a sequence of operations. -/
def ticks {α : Type} : List (TimerOp α) → Nat
  | [] => 0
  | TimerOp.tick :: ops => ticks ops + 1
  | _ :: ops => ticks ops

/-- No operation of the sequence is `cancel()` on the timeout `p`. -/
def neverCancels {α : Type} (p : TimeoutPtr) : List (TimerOp α) → Bool
  | [] => true
  | TimerOp.cancel q :: ops => decide (q ≠ p) && neverCancels p ops
  | _ :: ops => neverCancels p ops

/-- The wheel after `addTimeout`. -/
def ofAdd {α : Type} (r : HashedWheelTimer.AddResult α) : Wheel α :=
  { store := r.store, timer := r.timer }

/-- The timeout `p` is pending on the wheel `w` and due in `d` ticks: the wheel is
well formed, `p` is in state INIT with the given task and deadline and with `d / W`
rounds to go, and `p` is held exactly once, in the bucket that `tick()` visits `d`
ticks from now. -/
def Pending {α : Type} (p : TimeoutPtr) (task : Task α) (deadline d : Nat) (w : Wheel α) : Prop :=
  HashedWheelTimer.WF w.timer ∧ d < U32 ∧
  w.store[p]? = some { state := HashedWheelTimeout.ST_INIT,
                       remainingRounds := d / 2 ^ w.timer.normalizeShift,
                       deadline := deadline, task := task } ∧
  ∀ j b, w.timer.buckets[j]? = some b →
    b.timeoutList.count p = if j = (w.timer.ticked + d) % 2 ^ w.timer.normalizeShift then 1 else 0

end Wheel

namespace HashedWheelTimer

/-- A wheel of two buckets with a tick of one millisecond, at tick 0. -/
def wheel2 : HashedWheelTimer :=
  { ticked := 0, normalizeShift := 1, ticksPerWheel := 2, msPerTick := 1, mask := 1,
    buckets := [⟨[]⟩, ⟨[]⟩] }

/-- A wheel of eight buckets with a tick of 100 ms, at tick 13, holding timeout 0 in
bucket 2. -/
def wheel8 : HashedWheelTimer :=
  { ticked := 13, normalizeShift := 3, ticksPerWheel := 8, msPerTick := 100, mask := 7,
    buckets := [⟨[]⟩, ⟨[]⟩, ⟨[0]⟩, ⟨[]⟩, ⟨[]⟩, ⟨[]⟩, ⟨[]⟩, ⟨[]⟩] }

/-- The store that goes with `wheel8`: its one timeout. -/
def store8 : TimeoutStore Nat :=
  [HashedWheelTimeout.new 0 2 (Task.fn 1)]

end HashedWheelTimer

/-! ## Session and SessionManager -/

/-- A pointer to a session (`SpSession`): an index into the session store. -/
abbrev SessionPtr := Nat

/-- The class `Session<SRCType>`; the source object `_source` takes no part in the
registry and is left out. -/
structure Session where
  cid : Nat
  uin : Nat
  sk : Nat
  tsCreate : Nat
  tsUpdate : Nat
  seq : Nat
  timeout : Option TimeoutPtr
  deriving DecidableEq, Repr

namespace Session

/-- The method `touch(updateTime)`; `touch()` is the same with the reading of the clock
(`TimeUtil::timestampMS()`) as the argument. -/
def touch (s : Session) (updateTime : Nat) : Session :=
  { s with tsUpdate := updateTime }

/-- The method `resetTimeout(timeout)`: cancel the timeout held so far, if there is one,
and hold the new one. -/
def resetTimeout {α : Type} (timeouts : TimeoutStore α) (s : Session)
    (timeout : Option TimeoutPtr) : TimeoutStore α × Session :=
  match s.timeout with
  | some old => (Wheel.cancelAt timeouts old, { s with timeout := timeout })
  | none => (timeouts, { s with timeout := timeout })

end Session

/-- A `std::map<K, V>` with natural-number keys: the entries in key order. -/
abbrev StdMap (V : Type) := List (Nat × V)

namespace StdMap

/-- The call `insert(pair(k, v))` on a `std::map`: no effect when the key is present. -/
def insert {V : Type} (k : Nat) (v : V) : StdMap V → StdMap V
  | [] => [(k, v)]
  | e :: rest =>
    if k < e.1 then (k, v) :: e :: rest
    else if k = e.1 then e :: rest
    else e :: insert k v rest

/-- The call `insert(pair(k, v))` on a `std::multimap`: always adds, behind the entries
with an equal key. -/
def insertMulti {V : Type} (k : Nat) (v : V) : StdMap V → StdMap V
  | [] => [(k, v)]
  | e :: rest =>
    if k < e.1 then (k, v) :: e :: rest
    else e :: insertMulti k v rest

/-- The call `erase(k)` by key, on a `std::map` or a `std::multimap`: removes every entry
with that key. -/
def erase {V : Type} (k : Nat) (m : StdMap V) : StdMap V :=
  m.filter (fun e => e.1 != k)

/-- The call `find(k)`: the value of the first entry with that key. -/
def find {V : Type} (k : Nat) (m : StdMap V) : Option V :=
  (List.find? (fun e => e.1 == k) m).map Prod.snd

/-- The values under a key (`equal_range(k)`), in order. -/
def equalRange {V : Type} (k : Nat) (m : StdMap V) : List V :=
  (m.filter (fun e => e.1 == k)).map Prod.snd

end StdMap

namespace HashedWheelTimer

/-- Modelled from the spec: `calculateNormalizeShift` is declared in the header but its
body is not part of the sources.  Spec section 3: `ticks_per_wheel` is rounded up to the
next power of two `W`, and the shift is `log2(W)`: the least `s` with
`ticksPerWheel <= 2^s`. -/
def calculateNormalizeShift (ticksPerWheel : Nat) : Nat :=
  ((List.range 32).find? (fun s => decide (ticksPerWheel ≤ 2 ^ s))).getD 32

/-- Modelled from the spec: the constructor `HashedWheelTimer(msPerTick, ticksPerWheel)`,
whose body is not part of the sources.  Spec section 3: `W` buckets, mask `W - 1`, shift
`log2(W)`, the tick counter starts at 0. -/
def new (msPerTick ticksPerWheel : Nat) : HashedWheelTimer :=
  { ticked := 0,
    normalizeShift := calculateNormalizeShift ticksPerWheel,
    ticksPerWheel := 2 ^ calculateNormalizeShift ticksPerWheel,
    msPerTick := msPerTick,
    mask := 2 ^ calculateNormalizeShift ticksPerWheel - 1,
    buckets := List.replicate (2 ^ calculateNormalizeShift ticksPerWheel) ⟨[]⟩ }

end HashedWheelTimer

namespace TimerWrap

/-- Modelled from the spec: `TimerWrap.hpp` is not part of the sources.  Spec 4.6: the
timer driver binds a timing wheel to a reactor and advances it on every period; it
schedules nothing itself, so `TimerWrap<HashedWheelTimer>::addTimeout` is `addTimeout`
of the wheel it wraps. -/
def addTimeout {α : Type} (st : TimeoutStore α) (tm : HashedWheelTimer)
    (task : Task α) (expireMs : Nat) : HashedWheelTimer.AddResult α :=
  HashedWheelTimer.addTimeout st tm task expireMs

end TimerWrap

/-- The class `SessionManager<SRCType>`; `_timer` is a `TimerWrap<HashedWheelTimer>`,
kept as the wheel it wraps. -/
structure SessionManager where
  expireMS : Nat
  uinMap : StdMap SessionPtr
  cidMap : StdMap SessionPtr
  timer : HashedWheelTimer
  deriving DecidableEq, Repr

/-- A session manager together with the objects its pointers lead to: the sessions and
the timeouts.  The task of a timeout is `std::bind(&removeSession, this, spSession)`,
described by the session pointer. -/
structure Registry where
  sessions : List Session
  timeouts : TimeoutStore SessionPtr
  mgr : SessionManager
  deriving DecidableEq, Repr

namespace SessionManager

def TimerInterval : Nat := 100

/-- The constructor `SessionManager(looper, expireMS)`: empty maps and a timer built from
`TimerInterval` and `expireMS / TimerInterval`. -/
def new (expireMS : Nat) : SessionManager :=
  { expireMS := expireMS, uinMap := [], cidMap := [],
    timer := HashedWheelTimer.new TimerInterval (expireMS / TimerInterval) }

/-- The method `touchSession(spSession)`, at clock reading `now`. -/
def touchSession (r : Registry) (spSession : SessionPtr) (now : Nat) : Registry :=
  match r.sessions[spSession]? with
  | none => r
  | some s =>
    let a := TimerWrap.addTimeout r.timeouts r.mgr.timer (Task.fn spSession) r.mgr.expireMS
    let reset := s.resetTimeout a.store (some a.timeout)
    { sessions := r.sessions.set spSession (reset.2.touch now),
      timeouts := reset.1,
      mgr := { r.mgr with timer := a.timer } }

/-- The method `addSession(spSession)`, at clock reading `now`. -/
def addSession (r : Registry) (spSession : SessionPtr) (now : Nat) : Registry :=
  match r.sessions[spSession]? with
  | none => r
  | some s =>
    touchSession
      { r with mgr := { r.mgr with cidMap := StdMap.insert s.cid spSession r.mgr.cidMap,
                                   uinMap := StdMap.insertMulti s.uin spSession r.mgr.uinMap } }
      spSession now

/-- The method `removeSession(spSession)`. -/
def removeSession (r : Registry) (spSession : SessionPtr) : Registry :=
  match r.sessions[spSession]? with
  | none => r
  | some s =>
    { r with mgr := { r.mgr with cidMap := StdMap.erase s.cid r.mgr.cidMap,
                                 uinMap := StdMap.erase s.uin r.mgr.uinMap } }

/-- The method `findSessionByCid(cid)`. -/
def findSessionByCid (r : Registry) (cid : Nat) : Option SessionPtr :=
  StdMap.find cid r.mgr.cidMap

/-- The sessions referenced from `_cidMap`. -/
def cidRefs (r : Registry) : List SessionPtr :=
  r.mgr.cidMap.map Prod.snd

/-- The sessions referenced from `_uinMap`. -/
def uinRefs (r : Registry) : List SessionPtr :=
  r.mgr.uinMap.map Prod.snd

/-- A session as its constructor leaves it: `_tsUpdate = _tsCreate`, `_seq = 0`, no
timeout. -/
def freshSession (cid uin sk createTime : Nat) : Session :=
  { cid := cid, uin := uin, sk := sk, tsCreate := createTime, tsUpdate := createTime,
    seq := 0, timeout := none }

/-- A new registry (`expireMS = 1000`) and three sessions not yet added: sessions 0 and
1 have the same uin 7 and the cids 1 and 2, session 2 has the cid 1 of session 0 and
the uin 8. -/
def registry0 : Registry :=
  { sessions := [freshSession 1 7 11 0, freshSession 2 7 12 0, freshSession 1 8 13 0],
    timeouts := [],
    mgr := SessionManager.new 1000 }

/-- The task of a session timeout, run on the registry: `fn sp` is
`std::bind(&removeSession, this, sp)`; `nop` and an empty function do nothing. -/
def runTask (r : Registry) : Task SessionPtr → Registry
  | Task.fn sp => removeSession r sp
  | _ => r

/-- The method `findSessionByCid(cid)` with the registry it leaves behind: its body is
`_cidMap.find(cid)`, a lookup that inserts nothing, so the registry is handed on as it
is. -/
def lookupByCid (r : Registry) (cid : Nat) : Registry × Option SessionPtr :=
  (r, findSessionByCid r cid)

/-- The calls a client of the session manager can make. -/
inductive Call where
  | addSession (spSession : SessionPtr) (now : Nat) : Call
  | touchSession (spSession : SessionPtr) (now : Nat) : Call
  | removeSession (spSession : SessionPtr) : Call
  deriving DecidableEq, Repr

/-- One call on the registry. -/
def call (r : Registry) : Call → Registry
  | Call.addSession sp now => addSession r sp now
  | Call.touchSession sp now => touchSession r sp now
  | Call.removeSession sp => removeSession r sp

/-- A sequence of calls on the registry. -/
def calls (r : Registry) (cs : List Call) : Registry :=
  cs.foldl call r

/-- Every timeout pointer held by a session points into the timeout store, and every
timeout in state INIT that is bound to a session is the one that session holds: no
session has a second timeout in state INIT. -/
def SingleInit (r : Registry) : Prop :=
  (∀ (sp : SessionPtr) (s : Session) (p : TimeoutPtr),
    r.sessions[sp]? = some s → s.timeout = some p → p < r.timeouts.length) ∧
  (∀ (sp : SessionPtr) (s : Session) (p : TimeoutPtr) (u : HashedWheelTimeout SessionPtr),
    r.sessions[sp]? = some s → r.timeouts[p]? = some u → u.task = Task.fn sp →
    u.state = HashedWheelTimeout.ST_INIT → s.timeout = some p)

end SessionManager

namespace Session

/-- The static method `genConnectId(src)`: `cid = src.getPeerIp();
cid = (cid << 32) | src.getPeerPort();` on a `uint64_t`.  The source classes are not part
of the sources; `ip` and `port` are what `getPeerIp()` and `getPeerPort()` return. -/
def genConnectId (ip port : Nat) : Nat :=
  (((ip % U64) <<< 32) % U64) ||| (port % U64)

/-- The constructors `Session(uin, sessKey, createTime, src)`: the three numbers are
`uint32_t` parameters, so each is narrowed to 32 bits before it is stored; `_tsUpdate`
is initialised from `_tsCreate`. -/
def new (uin sessKey createTime ip port : Nat) : Session :=
  { cid := genConnectId ip port, uin := uin % U32, sk := sessKey % U32,
    tsCreate := createTime % U32, tsUpdate := createTime % U32, seq := 0, timeout := none }

/-- The constructors `Session(uin, sessKey, src)`: `_tsCreate` is the reading `now` of the
clock (`TimeUtil::timestampMS()`), stored in a `uint64_t`. -/
def newNow (uin sessKey now ip port : Nat) : Session :=
  { cid := genConnectId ip port, uin := uin % U32, sk := sessKey % U32,
    tsCreate := now % U64, tsUpdate := now % U64, seq := 0, timeout := none }

def lastUpdateTime (s : Session) : Nat :=
  s.tsUpdate

def createTime (s : Session) : Nat :=
  s.tsCreate

/-- A sequence of `touch()` and `touch(updateTime)` calls, each given by its time: the
reading of the clock or the argument, as the `uint64_t` that the method stores. -/
def touchAll (s : Session) (times : List Nat) : Session :=
  times.foldl (fun s2 t => s2.touch (t % U64)) s

end Session

/-! ## VecBuffer -/

/-- Modelled from the spec: `VecBuffer.hpp` is not part of the sources.  Spec section 3,
ByteBuffer: a contiguous region with `read_pos <= write_pos <= capacity`, the readable
region `[read_pos, write_pos)` and the writable region `[write_pos, capacity)`.  The
region is the list `bytes`, whose length is the capacity. -/
structure VecBuffer where
  bytes : List Nat
  readPos : Nat
  writePos : Nat
  deriving DecidableEq, Repr

namespace VecBuffer

/-- Modelled from the spec: the constructor `VecBuffer(capacity)`, an empty buffer of the
given capacity. -/
def new (capacity : Nat) : VecBuffer :=
  { bytes := List.replicate capacity 0, readPos := 0, writePos := 0 }

def capacity (b : VecBuffer) : Nat :=
  b.bytes.length

/-- Modelled from the spec: `readableSize()`, the length of `[read_pos, write_pos)`. -/
def readableSize (b : VecBuffer) : Nat :=
  b.writePos - b.readPos

/-- Modelled from the spec: `writtableSize()`, the length of `[write_pos, capacity)`. -/
def writtableSize (b : VecBuffer) : Nat :=
  b.capacity - b.writePos

/-- The bytes of the readable region: what `readablePtr()` points to, for
`readableSize()` bytes. -/
def readable (b : VecBuffer) : List Nat :=
  (b.bytes.drop b.readPos).take b.readableSize

/-- Modelled from the spec: `markRead(n)` advances the read cursor by `n`. -/
def markRead (b : VecBuffer) (n : Nat) : VecBuffer :=
  { b with readPos := b.readPos + n }

/-- Modelled from the spec: `markWrite(n)` advances the write cursor by `n`. -/
def markWrite (b : VecBuffer) (n : Nat) : VecBuffer :=
  { b with writePos := b.writePos + n }

/-- Modelled from the spec: `enlarge(n)` grows the capacity by `n` ("by at least n"); the
cursors stay. -/
def enlarge (b : VecBuffer) (n : Nat) : VecBuffer :=
  { b with bytes := b.bytes ++ List.replicate n 0 }

/-- Modelled from the spec: `ensure(n)` grows the buffer so that the writable size is at
least `n`, compacting it by shifting the readable bytes to offset 0; nothing happens when
the writable size is already `n` or more. -/
def ensure (b : VecBuffer) (n : Nat) : VecBuffer :=
  if n ≤ b.writtableSize then b
  else { bytes := b.readable ++ List.replicate (max n (b.capacity - b.readableSize)) 0,
         readPos := 0, writePos := b.readableSize }

/-- Bytes stored at `writtablePtr()` (by the kernel in `readv`, or by `memcpy`): the
region changes from the write cursor on, the cursors do not move. -/
def fill (b : VecBuffer) (data : List Nat) : VecBuffer :=
  { b with bytes := b.bytes.take b.writePos ++ data ++ b.bytes.drop (b.writePos + data.length) }

/-- The invariant of spec section 3: `read_pos <= write_pos <= capacity`. -/
def WF (b : VecBuffer) : Prop :=
  b.readPos ≤ b.writePos ∧ b.writePos ≤ b.capacity

instance (b : VecBuffer) : Decidable (WF b) := by
  unfold WF; infer_instance

end VecBuffer

/-! ## TcpConnection -/

def EINTR : Int := 4

def EAGAIN : Int := 11

/-- The codec `NP`, a template parameter of `TcpConnection`: `readMessage(buffer)` returns
a message or null and may consume from the buffer; `peekMessageLen(buffer)` forecasts the
length of the current message, negative when it cannot. -/
structure Codec (Msg : Type) where
  readMessage : VecBuffer → Option Msg × VecBuffer
  peekMessageLen : VecBuffer → Int

/-- Modelled from the spec: `Channel.hpp` is not part of the sources.  Spec section 3,
Handle: attached or detached, with an event mask of the bits READ and WRITE. -/
structure Channel where
  attached : Bool
  readEnabled : Bool
  writeEnabled : Bool
  deriving DecidableEq, Repr

namespace Channel

/-- Modelled from the spec: `enableWrite(enable, update)` sets the WRITE bit of the event
mask. -/
def enableWrite (ch : Channel) (enable _update : Bool) : Channel :=
  { ch with writeEnabled := enable }

end Channel

/-- One `struct iovec` of a gather-write: `iov_base` is `readablePtr()` of the queued
buffer at position `buffer`, that is offset `base` of its region, and `iov_len`. -/
structure IoVec where
  buffer : Nat
  base : Nat
  len : Nat
  deriving DecidableEq, Repr

/-- What a connection does to the outside, in order: the two callbacks, the gather-write
it issues (with the `iovcnt` entries the kernel is given), and the close of the socket. -/
inductive ConnEvent (Msg : Type) where
  | newMessage (msg : Msg) : ConnEvent Msg
  | closed (err : Int) : ConnEvent Msg
  | writev (iovecs : List IoVec) : ConnEvent Msg
  | sockClose : ConnEvent Msg
  deriving DecidableEq, Repr

/-- The result of one `readv`: the return value, `errno` after the call, and the bytes
the kernel delivered (as many as the return value says, when that is positive). -/
structure ReadvResult where
  readed : Int
  errno : Int
  data : List Nat
  deriving DecidableEq, Repr

/-- The result of one `writev`: the return value and `errno` after the call. -/
structure WritevResult where
  ret : Int
  errno : Int
  deriving DecidableEq, Repr

/-- The class `TcpConnection<NP>`: the send queue, the receive buffer, the descriptor of
the socket and the channel.  The two handlers are callbacks of the owner; their
invocations are recorded as events. -/
structure TcpConnection where
  sndBufList : List VecBuffer
  rcvBuf : VecBuffer
  fd : Int
  channel : Channel
  deriving DecidableEq, Repr

namespace TcpConnection

/-- The constant `_predMsgLen = SIZE_K(1)`. -/
def predMsgLen : Nat := 1024

/-- The size of `_rcvPendingBuffer`, `SIZE_K(32)`. -/
def rcvPendingSize : Nat := 32768

/-- The constant `vecMax` of `sendInternal`, also `ARRAY_SIZE(iovecs)`. -/
def vecMax : Nat := 50

/-- The number of `closed` events of a trace: the invocations of `_closedHandler`. -/
def closes {Msg : Type} : List (ConnEvent Msg) → Nat
  | [] => 0
  | ConnEvent.closed _ :: tr => closes tr + 1
  | _ :: tr => closes tr

/-- The method `procRecvBuffer()`: the message, if the codec found one, and the receive
buffer afterwards. -/
def procRecvBuffer {Msg : Type} (codec : Codec Msg) (rcvBuf : VecBuffer) :
    Option Msg × VecBuffer :=
  match codec.readMessage rcvBuf with
  | (some message, buf) => (some message, buf)
  | (none, buf) =>
    if buf.readableSize = 0 ∧ buf.writtableSize < predMsgLen then
      (none, VecBuffer.new predMsgLen)
    else
      let expect := codec.peekMessageLen buf
      (none, buf.ensure (if expect < 0 then predMsgLen else expect.toNat))

/-- The inner loop of `handleRead`: `procRecvBuffer()` until it returns null, each
message handed to `_newMessageHandler`.  `fuel` bounds the number of messages of one
pass. -/
def procLoop {Msg : Type} (codec : Codec Msg) : Nat → VecBuffer → VecBuffer × List Msg
  | 0, buf => (buf, [])
  | fuel + 1, buf =>
    match procRecvBuffer codec buf with
    | (none, buf2) => (buf2, [])
    | (some message, buf2) => ((procLoop codec fuel buf2).1, message :: (procLoop codec fuel buf2).2)

/-- The merge step of `handleRead` for a positive `readed`: the kernel has stored the
first bytes in the writable region of `_rcvBuf` and the rest in `_rcvPendingBuffer`.
With `pending = readed - writtableSize() > 0` the code does `markWrite(writtableSize())`,
`enlarge(pending)` and `memcpy(writtablePtr(), _rcvPendingBuffer, pending)`; otherwise
`markWrite(readed)`. -/
def mergeRead (rcvBuf : VecBuffer) (readed : Nat) (data : List Nat) : VecBuffer :=
  let filled := rcvBuf.fill (data.take rcvBuf.writtableSize)
  let pending : Int := (readed : Int) - (rcvBuf.writtableSize : Int)
  if pending > 0 then
    ((filled.markWrite filled.writtableSize).enlarge pending.toNat).fill
      ((data.drop rcvBuf.writtableSize).take pending.toNat)
  else filled.markWrite readed

/-- The outcome of one pass of the loop of `handleRead`. -/
structure ReadPass (Msg : Type) where
  conn : TcpConnection
  events : List (ConnEvent Msg)
  again : Bool

/-- One pass of the `while(true)` loop of `handleRead()`, for one result of `readv`. -/
def handleReadPass {Msg : Type} (codec : Codec Msg) (fuel : Nat) (c : TcpConnection)
    (res : ReadvResult) : ReadPass Msg :=
  let readCap : Int := ((c.rcvBuf.writtableSize + rcvPendingSize : Nat) : Int)
  if res.readed > 0 then
    let merged := mergeRead c.rcvBuf res.readed.toNat res.data
    let r := procLoop codec fuel merged
    { conn := { c with rcvBuf := r.1 },
      events := r.2.map ConnEvent.newMessage,
      again := !decide (res.readed < readCap) }
  else if res.readed < 0 then
    if EAGAIN ≠ res.errno ∧ EINTR ≠ res.errno then
      { conn := c, events := [ConnEvent.closed res.errno], again := false }
    else { conn := c, events := [], again := false }
  else { conn := c, events := [ConnEvent.closed 0], again := false }

/-- The method `handleRead()`: passes until one breaks out of the loop, each with the
next result of `readv`; the list of results bounds the number of passes. -/
def handleRead {Msg : Type} (codec : Codec Msg) (fuel : Nat) (c : TcpConnection) :
    List ReadvResult → TcpConnection × List (ConnEvent Msg)
  | [] => (c, [])
  | res :: rest =>
    if (handleReadPass codec fuel c res).again then
      ((handleRead codec fuel (handleReadPass codec fuel c res).conn rest).1,
        (handleReadPass codec fuel c res).events
          ++ (handleRead codec fuel (handleReadPass codec fuel c res).conn rest).2)
    else ((handleReadPass codec fuel c res).conn, (handleReadPass codec fuel c res).events)

/-- The method `handleClose()`; `errno` is the value of the global at the call. -/
def handleClose {Msg : Type} (c : TcpConnection) (errno : Int) :
    TcpConnection × List (ConnEvent Msg) :=
  (c, [ConnEvent.closed errno])

/-- The method `markSended(size)` on the send queue.  `erase(itSpBuf++)` removes the
buffer and moves on, and the next statement reads `readableSize()` through the moved
iterator: of the next buffer, or of `end()` when there is none, which no program may do
(the result is then `none`).  The subtraction is on `size_t`. -/
def markSended : Nat → List VecBuffer → Option (List VecBuffer)
  | _, [] => some []
  | sended, [b] =>
    if sended ≥ b.readableSize then none
    else some [b.markRead sended]
  | sended, b :: next :: rest =>
    if sended ≥ b.readableSize then
      if (sended + U64 - next.readableSize % U64) % U64 = 0 then some (next :: rest)
      else markSended ((sended + U64 - next.readableSize % U64) % U64) (next :: rest)
    else some (b.markRead sended :: next :: rest)

/-- The entries of the array `iovecs` that the `for` loop of `sendInternal` fills: one for
each of the first `min(size, vecMax)` buffers of the queue. -/
def filledIovecs (sndBufList : List VecBuffer) : List IoVec :=
  (sndBufList.take vecMax).enum.map (fun e => { buffer := e.1, base := e.2.readPos, len := e.2.readableSize })

/-- The count that `sendInternal` hands to `writev`: the variable `vecCount` declared
before the block.  The block declares a second `vecCount` for `min(size, vecMax)`, which
ends with the block; the outer one is never assigned and stays 0. -/
def writevCount (_sndBufList : List VecBuffer) : Nat :=
  0

/-- The conversion of the `ssize_t` result of `writev` to `size_t sended`. -/
def toSize (ret : Int) : Nat :=
  (ret % (U64 : Int)).toNat

/-- The method `sendInternal()`: passes until one breaks out of the loop, each with the
next result of `writev`; the list of results bounds the number of passes.  The result is
`none` when `markSended` reads through `end()`. -/
def sendInternal {Msg : Type} (c : TcpConnection) :
    List WritevResult → Option (TcpConnection × List (ConnEvent Msg))
  | [] => some (c, [])
  | res :: rest =>
    if c.sndBufList.isEmpty then some (c, [])
    else
      let issued : ConnEvent Msg :=
        ConnEvent.writev ((filledIovecs c.sndBufList).take (writevCount c.sndBufList))
      if toSize res.ret > 0 then
        match markSended (toSize res.ret) c.sndBufList with
        | none => none
        | some l =>
          match sendInternal { c with sndBufList := l } rest with
          | none => none
          | some (c2, tr) => some (c2, issued :: tr)
      else if EAGAIN = res.errno ∨ EINTR = res.errno then
        some ({ c with channel := c.channel.enableWrite true true }, [issued])
      else
        some ({ c with fd := -1 }, [issued, ConnEvent.sockClose, ConnEvent.closed res.errno])

/-- The method `handleWrite()`. -/
def handleWrite {Msg : Type} (c : TcpConnection) (results : List WritevResult) :
    Option (TcpConnection × List (ConnEvent Msg)) :=
  sendInternal c results

end TcpConnection

/-- The events the reactor delivers to a connection, each with the results of the system
calls made while it is handled. -/
inductive ReactorEvent where
  | handleRead (fuel : Nat) (results : List ReadvResult) : ReactorEvent
  | handleWrite (results : List WritevResult) : ReactorEvent
  | handleClose (errno : Int) : ReactorEvent
  deriving DecidableEq, Repr

namespace TcpConnection

/-- One reactor event handled by the connection. -/
def deliver {Msg : Type} (codec : Codec Msg) (c : TcpConnection) :
    ReactorEvent → Option (TcpConnection × List (ConnEvent Msg))
  | ReactorEvent.handleRead fuel results => some (handleRead codec fuel c results)
  | ReactorEvent.handleWrite results => handleWrite c results
  | ReactorEvent.handleClose errno => some (handleClose c errno)

/-- A sequence of reactor events handled by the connection, with the concatenated trace. -/
def deliverAll {Msg : Type} (codec : Codec Msg) (c : TcpConnection) :
    List ReactorEvent → Option (TcpConnection × List (ConnEvent Msg))
  | [] => some (c, [])
  | ev :: evs =>
    match deliver codec c ev with
    | none => none
    | some (c2, tr) =>
      match deliverAll codec c2 evs with
      | none => none
      | some (c3, tr2) => some (c3, tr ++ tr2)

/-- A codec that never finds a message. -/
def silentCodec : Codec Unit :=
  { readMessage := fun buf => (none, buf), peekMessageLen := fun _ => -1 }

/-- A connection as the constructor leaves it, on descriptor 7: an empty send queue, a
receive buffer of `_predMsgLen` bytes, all events enabled. -/
def conn0 : TcpConnection :=
  { sndBufList := [], rcvBuf := VecBuffer.new predMsgLen, fd := 7,
    channel := { attached := true, readEnabled := true, writeEnabled := true } }

/-- A buffer whose readable region is the given bytes. -/
def bufferOf (data : List Nat) : VecBuffer :=
  { bytes := data, readPos := 0, writePos := data.length }

end TcpConnection

/-- A task handed to the looper of the connection:
`std::bind(&TcpConnection::sendInternal, this)`. -/
inductive Runnable where
  | sendInternal : Runnable
  deriving DecidableEq, Repr

namespace TcpConnection

/-- The method `sendInLoopThread()`: the tasks it hands to `postRunnable` of the looper,
in order. -/
def sendInLoopThread (_c : TcpConnection) : List Runnable :=
  [Runnable.sendInternal]

/-- The method `send(const SpVecBuffer& data)` (and the overload taking an rvalue): under
the lock, `push_back(data)`, then `sendInLoopThread()`.  The result is the connection and
the tasks posted. -/
def send (c : TcpConnection) (data : VecBuffer) : TcpConnection × List Runnable :=
  ({ c with sndBufList := c.sndBufList ++ [data] }, sendInLoopThread c)

/-- The method `sendMultiple(datas)`: under the lock, `splice(end(), datas)`, which moves
every element of `datas` behind the queue and leaves `datas` empty, then
`sendInLoopThread()`.  The result is the connection, the list `datas` afterwards and the
tasks posted. -/
def sendMultiple (c : TcpConnection) (datas : List VecBuffer) :
    TcpConnection × List VecBuffer × List Runnable :=
  ({ c with sndBufList := c.sndBufList ++ datas }, [], sendInLoopThread c)

/-- A connection with one buffer of the bytes `[1, 2, 3]` queued and the WRITE bit clear. -/
def connQueued : TcpConnection :=
  { sndBufList := [bufferOf [1, 2, 3]], rcvBuf := VecBuffer.new 8, fd := 7,
    channel := { attached := true, readEnabled := true, writeEnabled := false } }

/-- The connection `connQueued` after `_sock.close()`: the descriptor is -1. -/
def connClosed : TcpConnection :=
  { connQueued with fd := -1 }

/-- A receive buffer of capacity 1100 whose two cursors stand at 50: grown for a long
message and read to the end. -/
def drainedBuffer : VecBuffer :=
  { bytes := List.replicate 1100 0, readPos := 50, writePos := 50 }

/-- The looper runs a posted task, with the results of the system calls made meanwhile. -/
def runRunnable {Msg : Type} (c : TcpConnection) (results : List WritevResult) :
    Runnable → Option (TcpConnection × List (ConnEvent Msg))
  | Runnable.sendInternal => sendInternal c results

end TcpConnection

/-! ## PeerMessage: the message header -/

/-- The struct `PMInfo`; `_proto` is the value of the enum `PMProto`. -/
structure PMInfo where
  proto : Nat
  version : Nat
  cmd : Nat
  seq : Nat
  deriving DecidableEq, Repr

namespace PMInfo

/-- The method `majorCmd()`: `_cmd >> 16`, returned as `uint16_t`. -/
def majorCmd (info : PMInfo) : Nat :=
  (info.cmd >>> 16) % 65536

/-- The method `minorCmd()`: `_cmd & 0xFFFF`, returned as `uint16_t`. -/
def minorCmd (info : PMInfo) : Nat :=
  (info.cmd &&& 0xFFFF) % 65536

end PMInfo

namespace GenericLenFieldHeader

/-- The size of the header, `sizeof(GenericLenFieldHeader) == 12`: `_proto` at offset 0,
`_ver` at 1, `_len` at 2, `_seq` at 4, `_reserv` at 6, `_cmd` at 8. -/
def headerSize : Nat := 12

/-- Modelled from the spec: `Endian.hpp` is not part of the sources.  `hton16` turns a
value into network order, so a `uint16_t` field assigned `hton16(x)` holds, in memory,
the two bytes of `x` with the most significant first; these are the two bytes. -/
def hton16 (x : Nat) : Nat × Nat :=
  ((x / 256) % 256, x % 256)

/-- Modelled from the spec: `ntoh16` of a `uint16_t` field whose two bytes in memory are
`hi` and `lo`. -/
def ntoh16 (hi lo : Nat) : Nat :=
  hi * 256 + lo

/-- Modelled from the spec: `hton32`, the four bytes in memory of a `uint32_t` field
assigned `hton32(x)`, the most significant first. -/
def hton32 (x : Nat) : Nat × Nat × Nat × Nat :=
  ((x / 16777216) % 256, (x / 65536) % 256, (x / 256) % 256, x % 256)

/-- Modelled from the spec: `ntoh32` of a `uint32_t` field whose four bytes in memory are
`b3`, `b2`, `b1`, `b0`. -/
def ntoh32 (b3 b2 b1 b0 : Nat) : Nat :=
  b3 * 16777216 + b2 * 65536 + b1 * 256 + b0

/-- The static method `encode(info, conLen, buf, bufLen)`: the buffer afterwards.  The
casts narrow `_proto` and `_version` to 8 bits, `conLen + sizeof(header)` (a `size_t`) and
`_seq` to 16 bits and `_cmd` to 32 bits; `_reserv` is not written. -/
def encode (info : PMInfo) (conLen : Nat) (buf : List Nat) : List Nat :=
  let len := hton16 (((conLen + headerSize) % U64) % 65536)
  let seq := hton16 (info.seq % 65536)
  let cmd := hton32 (info.cmd % U32)
  ((((((((((buf.set 0 (info.proto % 256)).set 1 (info.version % 256)).set 2 len.1).set 3
    len.2).set 4 seq.1).set 5 seq.2).set 8 cmd.1).set 9 cmd.2.1).set 10 cmd.2.2.1).set 11
    cmd.2.2.2)

/-- The static method `decode(info, buf, bufLen)`: the `PMInfo` afterwards; all four
fields are assigned. -/
def decode (_info : PMInfo) (buf : List Nat) : PMInfo :=
  { proto := buf.getD 0 0,
    version := buf.getD 1 0,
    seq := ntoh16 (buf.getD 4 0) (buf.getD 5 0),
    cmd := ntoh32 (buf.getD 8 0) (buf.getD 9 0) (buf.getD 10 0) (buf.getD 11 0) }

/-- The static method `getPackLen(buf, len)`: `ntoh16(header->_len)` as `ssize_t`. -/
def getPackLen (buf : List Nat) : Int :=
  ((ntoh16 (buf.getD 2 0) (buf.getD 3 0) : Nat) : Int)

end GenericLenFieldHeader

/-! ## Logger -/

/-- The class `Logger<CON>`, as far as the level filter goes: `_levelMask`. -/
structure Logger where
  levelMask : Nat
  deriving DecidableEq, Repr

namespace Logger

def LEVEL_FATAL : Nat := 0
def LEVEL_ERROR : Nat := 1
def LEVEL_WARRING : Nat := 2
def LEVEL_INFO : Nat := 3
def LEVEL_DEBUG : Nat := 4
def LEVEL_VERBOSE : Nat := 5
def LEVEL_MAX : Nat := 6

/-- The method `setLogLevel(level)`: `_levelMask = (1 << (level + 1)) - 1`, stored in a
`uint32_t`; `ASSERT(level < LEVEL_MAX)` is the caller's obligation. -/
def setLogLevel (_lg : Logger) (level : Nat) : Logger :=
  { levelMask := ((1 <<< (level + 1)) - 1) % U32 }

/-- The constructor: `setLogLevel(LEVEL_VERBOSE)`. -/
def new : Logger :=
  setLogLevel { levelMask := 0 } LEVEL_VERBOSE

/-- The level filter of `printLogLn`: `0 == (_levelMask & (1 << logLevel))` is what makes
the method return before it writes anything. -/
def passesFilter (lg : Logger) (logLevel : Nat) : Bool :=
  !decide (0 = (lg.levelMask &&& (1 <<< logLevel)))

/-- What a call of `printLogLn` does. -/
inductive LogAction where
  | append : LogAction
  | nothing : LogAction
  | invalidLevel : LogAction
  deriving DecidableEq, Repr

/-- The method `printLogLn(logLevel, tag, format, ...)`, for a level that is not
negative: `ret` is what `vsnprintf` returns for the formatted text.  A level from
`LEVEL_MAX` on is reported on `stderr` and never appended. -/
def printLogLn (lg : Logger) (logLevel : Nat) (ret : Int) : LogAction :=
  if logLevel < LEVEL_MAX then
    if passesFilter lg logLevel = false then LogAction.nothing
    else if ret > 0 then LogAction.append
    else LogAction.nothing
  else LogAction.invalidLevel

end Logger

/-! ## TcpServer: the connection map -/

/-- A connection on the heap, named by its position in the store of the server. -/
abbrev ConnPtr := Nat

/-- The target of a `shared_ptr<TcpConnection>`, as far as removal goes: the descriptor
(`getFd()`), whether the channel is attached, the number of `shared_ptr`s that own the
object, and, once the destructor has run, whether the channel was attached at that
moment, which is what `ASSERT(!_channel.isAttached())` in `~TcpConnection` checks. -/
structure ConnObj where
  fd : Nat
  attached : Bool
  useCount : Nat
  destroyed : Option Bool
  deriving DecidableEq, Repr

/-- The class `TcpServer`, as far as removal goes: the connections on the heap and
`_connMap`, whose values are `shared_ptr`s, possibly null. -/
structure TcpServer where
  conns : List ConnObj
  connMap : StdMap (Option ConnPtr)
  deriving DecidableEq, Repr

/-- What a removal does, in order: `detach()` on a connection, the erasure of a key of
`_connMap`, the destructor of a connection (with `isAttached()` at that moment), and a
warning in the log. -/
inductive ServerEvent where
  | detach (p : ConnPtr) : ServerEvent
  | erase (key : Nat) : ServerEvent
  | destroy (p : ConnPtr) (attached : Bool) : ServerEvent
  | warn : ServerEvent
  deriving DecidableEq, Repr

/-- The outcome of a removal: the events, and the server afterwards, which is `none` when
the method goes on through a reference to an object that is gone. -/
structure Removal where
  server : Option TcpServer
  events : List ServerEvent
  deriving DecidableEq, Repr

namespace TcpServer

/-- The call `conn->detach()`: the channel of the connection is detached. -/
def detachConn (conns : List ConnObj) (p : ConnPtr) : List ConnObj :=
  match conns[p]? with
  | some o => conns.set p { o with attached := false }
  | none => conns

/-- One `shared_ptr` to the connection goes away: the use count drops, and at zero the
destructor runs. -/
def release (conns : List ConnObj) (p : ConnPtr) : List ConnObj × List ServerEvent :=
  match conns[p]? with
  | some o =>
    if o.useCount = 1 then
      (conns.set p { o with useCount := 0, destroyed := some o.attached },
        [ServerEvent.destroy p o.attached])
    else (conns.set p { o with useCount := o.useCount - 1 }, [])
  | none => (conns, [])

/-- The call `_connMap.erase(hashCode)`: the entry goes, and with it the `shared_ptr` it
holds; the number of entries erased is returned. -/
def eraseKey (s : TcpServer) (hashCode : Nat) : TcpServer × Nat × List ServerEvent :=
  match StdMap.find hashCode s.connMap with
  | none => (s, 0, [])
  | some none =>
    ({ s with connMap := StdMap.erase hashCode s.connMap }, 1, [ServerEvent.erase hashCode])
  | some (some p) =>
    ({ conns := (release s.conns p).1, connMap := StdMap.erase hashCode s.connMap }, 1,
      ServerEvent.erase hashCode :: (release s.conns p).2)

/-- The method `removeConnInLoop(conn)`: `conn` refers to a `shared_ptr` of the caller
(the copy bound into the posted task), which is counted in the use count.  The key is
`connectionHashCode(conn)`, the descriptor; `detach()` comes first, then `erase`. -/
def removeConnInLoop (s : TcpServer) (conn : ConnPtr) : Removal :=
  match s.conns[conn]? with
  | none => { server := none, events := [] }
  | some o =>
    let hashCode := o.fd
    let r := eraseKey { s with conns := detachConn s.conns conn } hashCode
    { server := some r.1,
      events := ServerEvent.detach conn :: r.2.2 ++ (if r.2.1 ≠ 1 then [ServerEvent.warn] else []) }

/-- The method `removeConnByKeyInLoop(hashCode)`.  `_connMap[hashCode]` inserts a null
entry when the key is absent.  For an entry that is not null, `erase` comes first; `conn`
is a reference to the `shared_ptr` inside the erased entry, so the call `conn->detach()`
that follows goes through a reference to an object that is gone. -/
def removeConnByKeyInLoop (s : TcpServer) (hashCode : Nat) : Removal :=
  match StdMap.find hashCode s.connMap with
  | none =>
    { server := some { s with connMap := StdMap.insert hashCode none s.connMap },
      events := [ServerEvent.warn] }
  | some none => { server := some s, events := [ServerEvent.warn] }
  | some (some _) => { server := none, events := (eraseKey s hashCode).2.2 }

/-- A server with one attached connection on descriptor 7, owned by the map alone. -/
def server1 : TcpServer :=
  { conns := [{ fd := 7, attached := true, useCount := 1, destroyed := none }],
    connMap := [(7, some 0)] }

/-- The same server while a posted `removeConnInLoop` task holds a second `shared_ptr` to
the connection. -/
def server2 : TcpServer :=
  { conns := [{ fd := 7, attached := true, useCount := 2, destroyed := none }],
    connMap := [(7, some 0)] }

end TcpServer

/-! # Properties -/

/-! ## Timeouts: cancellation and expiry -/

namespace HashedWheelTimeout

/-- Calling `expire()` on a timeout that is not in state `ST_INIT` does nothing. -/
theorem expire_of_ne_init {α : Type} (t : HashedWheelTimeout α) (h : t.state ≠ ST_INIT) :
    expire t = (t, []) := by
  simp [expire, h]

/-- Any number of `expire()` calls on a timeout that is not in state `ST_INIT` does nothing. -/
theorem expireN_of_ne_init {α : Type} (n : Nat) (t : HashedWheelTimeout α)
    (h : t.state ≠ ST_INIT) : expireN n t = (t, []) := by
  induction n with
  | zero => rfl
  | succ n ih => simp [expireN, expire_of_ne_init t h, ih]

/-- C4: for every timeout in state INIT, after `cancel()` any number `n` of later
`expire()` calls invoke no task at all (so the original task zero times) and leave
the state CANCELLED; the timeout is exactly as `cancel()` left it. -/
theorem cancel_then_expire_never_invokes {α : Type} (t : HashedWheelTimeout α)
    (_hinit : t.state = ST_INIT) (n : Nat) :
    (expireN n (cancel t)).2 = [] ∧ (expireN n (cancel t)).1.state = ST_CANCELLED ∧
      (expireN n (cancel t)).1 = cancel t := by
  have h : (cancel t).state ≠ ST_INIT := by simp [cancel, ST_CANCELLED, ST_INIT]
  rw [expireN_of_ne_init n (cancel t) h]
  simp [cancel]

/-- Witness for C4: a timeout in state INIT holding a callable, cancelled and then
expired three times. -/
theorem cancel_then_expire_never_invokes_witness :
    (new 2 9 (Task.fn 5) : HashedWheelTimeout Nat).state = ST_INIT ∧
      (expireN 3 (cancel (new 2 9 (Task.fn 5) : HashedWheelTimeout Nat))).2 = [] ∧
      (expireN 3 (cancel (new 2 9 (Task.fn 5) : HashedWheelTimeout Nat))).1.state
        = ST_CANCELLED ∧
      (expireN 3 (cancel (new 2 9 (Task.fn 5) : HashedWheelTimeout Nat))).1
        = cancel (new 2 9 (Task.fn 5)) :=
  ⟨rfl, cancel_then_expire_never_invokes (new 2 9 (Task.fn 5)) rfl 3⟩

/-- C5 (the code at the failing input): `cancel()` on a timeout that has expired
(state EXPIRED) stores CANCELLED: the state does not stay EXPIRED, and `isExpired()`
turns false. -/
theorem cancel_on_expired_stores_cancelled :
    (cancel (expire (new 0 4 (Task.fn 5) : HashedWheelTimeout Nat)).1).state = ST_CANCELLED ∧
      (expire (new 0 4 (Task.fn 5) : HashedWheelTimeout Nat)).1.state = ST_EXPIRED ∧
      (expire (new 0 4 (Task.fn 5) : HashedWheelTimeout Nat)).2 = [Task.fn 5] ∧
      isExpired (cancel (expire (new 0 4 (Task.fn 5) : HashedWheelTimeout Nat)).1) = false := by
  decide

/-- C6 as stated fails: a timeout in state INIT that holds an empty function object is
not invoked by `expire()`, although its state is INIT at the call. -/
theorem expire_invokes_iff_init_counterexample :
    ¬ ((expire (new 0 0 Task.empty : HashedWheelTimeout Nat)).2
          = [(new 0 0 Task.empty : HashedWheelTimeout Nat).task]
        ↔ (new 0 0 Task.empty : HashedWheelTimeout Nat).state = ST_INIT) := by
  decide

/-- C6 (amended): `expire()` invokes the task, once, if and only if the state is INIT at
the call and the task is a callable function object; otherwise it invokes nothing.  From
state INIT it leaves the state EXPIRED, from any other state it changes nothing, and a
second `expire()` invokes nothing and changes nothing. -/
theorem expire_at_most_once {α : Type} (t : HashedWheelTimeout α) :
    ((expire t).2 = [t.task] ↔ (t.state = ST_INIT ∧ t.task.callable = true)) ∧
      ((expire t).2 ≠ [t.task] → (expire t).2 = []) ∧
      (t.state = ST_INIT → (expire t).1 = { t with state := ST_EXPIRED }) ∧
      (t.state ≠ ST_INIT → (expire t).1 = t) ∧
      expire (expire t).1 = ((expire t).1, []) := by
  by_cases h : t.state = ST_INIT
  · by_cases hc : t.task.callable = true
    · simp [expire, h, hc, ST_EXPIRED, ST_INIT]
    · simp [expire, h, hc, ST_EXPIRED, ST_INIT]
  · simp [expire, h]

end HashedWheelTimeout

/-! ## Scheduling: `addTimeout` -/

namespace HashedWheelTimer

theorem U32_mul_U32 : U32 * U32 = U64 := by norm_num [U32, U64]

/-- A well-formed wheel has a shift below 32. -/
theorem WF.shift_lt {tm : HashedWheelTimer} (hwf : WF tm) : tm.normalizeShift < 32 := by
  obtain ⟨_, _, h3, h4, _, _⟩ := hwf
  rw [h4, U32] at h3
  exact (Nat.pow_lt_pow_iff_right (by norm_num)).1 h3

/-- On a well-formed wheel, masking is reduction modulo the wheel size. -/
theorem WF.and_mask {tm : HashedWheelTimer} (hwf : WF tm) (x : Nat) :
    x &&& tm.mask = x % 2 ^ tm.normalizeShift := by
  obtain ⟨_, _, _, h4, h5, _⟩ := hwf
  rw [h5, h4, Nat.and_pow_two_sub_one_eq_mod]

theorem WF.pow_shift_dvd {tm : HashedWheelTimer} (hwf : WF tm) : 2 ^ tm.normalizeShift ∣ U32 := by
  rw [U32]
  exact Nat.pow_dvd_pow 2 hwf.shift_lt.le

/-- The tick count is the exact ceiling whenever the ceiling fits 32 bits. -/
theorem convertExpireMsToTicks_eq_ceilDiv (tm : HashedWheelTimer) (expireMs : Nat)
    (hms : 0 < tm.msPerTick) (hm32 : tm.msPerTick < U32)
    (hticks : expireMs ⌈/⌉ tm.msPerTick < U32) :
    convertExpireMsToTicks tm expireMs = expireMs ⌈/⌉ tm.msPerTick := by
  rw [Nat.ceilDiv_eq_add_pred_div] at *
  unfold convertExpireMsToTicks
  have h1 : expireMs + tm.msPerTick - 1 < U32 * tm.msPerTick :=
    (Nat.div_lt_iff_lt_mul hms).1 hticks
  have h2 : U32 * tm.msPerTick ≤ U32 * U32 := Nat.mul_le_mul_left _ hm32.le
  have h3 : (expireMs + tm.msPerTick + U64 - 1) % U64 = expireMs + tm.msPerTick - 1 := by
    have h4 : expireMs + tm.msPerTick + U64 - 1 = (expireMs + tm.msPerTick - 1) + U64 := by
      omega
    rw [h4, Nat.add_mod_right, Nat.mod_eq_of_lt]
    rw [U32_mul_U32] at h2
    omega
  rw [h3, Nat.mod_eq_of_lt hticks]

/-- The index computed in 32-bit arithmetic is the index of the schedule formula, and
it is the arrival tick modulo the wheel size. -/
theorem addIndex_eq (tm : HashedWheelTimer) (hwf : WF tm) (ticks : Nat) :
    addIndex tm ticks = (ticks + (tm.ticked &&& tm.mask)) &&& tm.mask ∧
      addIndex tm ticks = (tm.ticked + ticks) % 2 ^ tm.normalizeShift ∧
      addIndex tm ticks < tm.buckets.length := by
  have hlt : 2 ^ tm.normalizeShift < U32 := by
    obtain ⟨_, _, h3, h4, _, _⟩ := hwf
    omega
  have hpos : 0 < 2 ^ tm.normalizeShift := Nat.pow_pos (by norm_num)
  have hlen : tm.buckets.length = 2 ^ tm.normalizeShift := by
    obtain ⟨_, _, _, h4, _, h6⟩ := hwf
    omega
  have ho : (tm.ticked % 2 ^ tm.normalizeShift) % U32 = tm.ticked % 2 ^ tm.normalizeShift :=
    Nat.mod_eq_of_lt (lt_trans (Nat.mod_lt _ hpos) hlt)
  have e1 : addIndex tm ticks = (ticks + tm.ticked % 2 ^ tm.normalizeShift) % 2 ^ tm.normalizeShift := by
    simp only [addIndex, hwf.and_mask, ho]
    exact Nat.mod_mod_of_dvd _ hwf.pow_shift_dvd
  refine ⟨?_, ?_, ?_⟩
  · rw [e1, hwf.and_mask, hwf.and_mask]
  · rw [e1, Nat.add_mod_mod, Nat.add_comm]
  · rw [e1, hlen]
    exact Nat.mod_lt _ hpos

/-- The shift computed for a wheel of at most `2^31` ticks is at most 31 and covers the
requested size. -/
theorem calculateNormalizeShift_spec (ticksPerWheel : Nat) (h : ticksPerWheel ≤ 2 ^ 31) :
    calculateNormalizeShift ticksPerWheel < 32 ∧
      ticksPerWheel ≤ 2 ^ calculateNormalizeShift ticksPerWheel := by
  unfold calculateNormalizeShift
  cases hf : (List.range 32).find? (fun s => decide (ticksPerWheel ≤ 2 ^ s)) with
  | none =>
    have h31 := List.find?_eq_none.1 hf 31 (by simp)
    simp only [decide_eq_true_eq] at h31
    exact absurd h h31
  | some s =>
    have hs := List.find?_some hf
    have hmem := List.mem_of_find?_eq_some hf
    simp only [decide_eq_true_eq] at hs
    simp only [Option.getD_some]
    exact ⟨List.mem_range.1 hmem, hs⟩

/-- The constructor builds a well-formed wheel that holds no timeout. -/
theorem new_WF (msPerTick ticksPerWheel : Nat) (hms : msPerTick < U32)
    (h : ticksPerWheel ≤ 2 ^ 31) :
    WF (new msPerTick ticksPerWheel) ∧
      ∀ {α : Type} (st : TimeoutStore α), Covers st (new msPerTick ticksPerWheel) := by
  obtain ⟨hlt, _⟩ := calculateNormalizeShift_spec ticksPerWheel h
  refine ⟨⟨by norm_num [new, U64], hms, ?_, rfl, rfl, List.length_replicate _ _⟩, ?_⟩
  · simp only [new, U32]
    exact Nat.pow_lt_pow_right (by norm_num) hlt
  · intro α st b hb p hp
    rw [new] at hb
    rw [List.eq_of_mem_replicate hb] at hp
    exact absurd hp (List.not_mem_nil p)

/-- The rounds stored for a 32-bit tick count are not truncated. -/
theorem rounds_mod_U32 (ticks shift : Nat) (h : ticks < U32) :
    (ticks >>> shift) % U32 = ticks >>> shift := by
  apply Nat.mod_eq_of_lt
  rw [Nat.shiftRight_eq_div_pow]
  exact lt_of_le_of_lt (Nat.div_le_self _ _) h

/-- What `addTimeout` does when the tick count fits 32 bits, in one equation each for
the store and the buckets. -/
theorem addTimeout_eq {α : Type} (st : TimeoutStore α) (tm : HashedWheelTimer)
    (task : Task α) (expireMs : Nat) (hwf : WF tm) (hms : 0 < tm.msPerTick)
    (hticks : expireMs ⌈/⌉ tm.msPerTick < U32) :
    (addTimeout st tm task expireMs).timeout = st.length ∧
    (addTimeout st tm task expireMs).store = st ++
      [{ state := HashedWheelTimeout.ST_INIT,
         remainingRounds := (expireMs ⌈/⌉ tm.msPerTick) >>> tm.normalizeShift,
         deadline := expireMs ⌈/⌉ tm.msPerTick,
         task := task }] ∧
    (addTimeout st tm task expireMs).timer = { tm with
      buckets := tm.buckets.set (addIndex tm (expireMs ⌈/⌉ tm.msPerTick))
        ((tm.buckets.getD (addIndex tm (expireMs ⌈/⌉ tm.msPerTick)) ⟨[]⟩).addTimeout
          st.length) } := by
  have hconv := convertExpireMsToTicks_eq_ceilDiv tm expireMs hms hwf.2.1 hticks
  simp only [addTimeout, hconv, rounds_mod_U32 _ _ hticks, HashedWheelTimeout.new]
  exact ⟨trivial, trivial, trivial⟩

/-- C1: on a wheel as the constructor builds it (`mask = W - 1`, `shift = log2 W`, `W`
buckets) with `msPerTick > 0`, for every `expireMs` whose tick count
`ticks = ceil(expireMs / msPerTick)` is below `2^32`, `addTimeout` allocates one new
timeout in state INIT with remaining rounds `ticks >> shift` (and deadline `ticks`, and
the given task), appends it at the tail of bucket `(ticks + (ticked & mask)) & mask`,
and changes no other bucket, no existing timeout and no other field of the wheel. -/
theorem addTimeout_schedule {α : Type} (st : TimeoutStore α) (tm : HashedWheelTimer)
    (task : Task α) (expireMs : Nat) (hwf : WF tm) (hms : 0 < tm.msPerTick)
    (hticks : expireMs ⌈/⌉ tm.msPerTick < U32) :
    (addTimeout st tm task expireMs).timeout = st.length ∧
    (addTimeout st tm task expireMs).store = st ++
      [{ state := HashedWheelTimeout.ST_INIT,
         remainingRounds := (expireMs ⌈/⌉ tm.msPerTick) >>> tm.normalizeShift,
         deadline := expireMs ⌈/⌉ tm.msPerTick,
         task := task }] ∧
    (∀ p, p < st.length → (addTimeout st tm task expireMs).store[p]? = st[p]?) ∧
    (∃ b, tm.buckets[(expireMs ⌈/⌉ tm.msPerTick + (tm.ticked &&& tm.mask)) &&& tm.mask]?
        = some b ∧
      (addTimeout st tm task expireMs).timer.buckets[
          (expireMs ⌈/⌉ tm.msPerTick + (tm.ticked &&& tm.mask)) &&& tm.mask]?
        = some { timeoutList := b.timeoutList ++ [st.length] }) ∧
    (∀ j, j ≠ (expireMs ⌈/⌉ tm.msPerTick + (tm.ticked &&& tm.mask)) &&& tm.mask →
      (addTimeout st tm task expireMs).timer.buckets[j]? = tm.buckets[j]?) ∧
    (addTimeout st tm task expireMs).timer.buckets.length = tm.buckets.length ∧
    (addTimeout st tm task expireMs).timer = { tm with
      buckets := (addTimeout st tm task expireMs).timer.buckets } := by
  have hconv := convertExpireMsToTicks_eq_ceilDiv tm expireMs hms hwf.2.1 hticks
  obtain ⟨hidx, _, hlt⟩ := addIndex_eq tm hwf (expireMs ⌈/⌉ tm.msPerTick)
  rw [← hidx]
  simp only [addTimeout, hconv, rounds_mod_U32 _ _ hticks, HashedWheelTimeout.new]
  refine ⟨trivial, trivial, ?_, ?_, ?_, ?_, trivial⟩
  · intro p hp
    rw [List.getElem?_append_left hp]
  · refine ⟨tm.buckets[addIndex tm (expireMs ⌈/⌉ tm.msPerTick)], ?_, ?_⟩
    · exact List.getElem?_eq_getElem hlt
    · rw [List.getElem?_set_self hlt, List.getD_eq_getElem _ _ hlt]
      rfl
  · intro j hj
    exact List.getElem?_set_ne (Ne.symm hj)
  · exact List.length_set _ _ _

/-- Witness for C1: 1234 ms on the eight-bucket wheel at tick 13 is 13 ticks, one round,
bucket `(13 + 5) & 7 = 2`, behind the timeout already there. -/
theorem addTimeout_schedule_witness :
    WF wheel8 ∧ 0 < wheel8.msPerTick ∧ 1234 ⌈/⌉ wheel8.msPerTick < U32 ∧
    (addTimeout [HashedWheelTimeout.new 0 2 (Task.fn 1)] wheel8 (Task.fn 2) 1234).store =
      [HashedWheelTimeout.new 0 2 (Task.fn 1),
       { state := HashedWheelTimeout.ST_INIT, remainingRounds := 1, deadline := 13,
         task := Task.fn 2 }] ∧
    (addTimeout [HashedWheelTimeout.new 0 2 (Task.fn 1)] wheel8 (Task.fn 2) 1234).timer.buckets
      = [⟨[]⟩, ⟨[]⟩, ⟨[0, 1]⟩, ⟨[]⟩, ⟨[]⟩, ⟨[]⟩, ⟨[]⟩, ⟨[]⟩] := by
  have h1 : WF wheel8 := by decide
  have h2 : 0 < wheel8.msPerTick := by decide
  have h3 : 1234 ⌈/⌉ wheel8.msPerTick < U32 := by decide
  have h := addTimeout_schedule [HashedWheelTimeout.new 0 2 (Task.fn 1)] wheel8 (Task.fn 2)
    1234 h1 h2 h3
  refine ⟨h1, h2, h3, ?_, ?_⟩
  · rw [h.2.1]
    rfl
  · rfl

/-- C3 as stated fails: on the two-bucket wheel with a 1 ms tick, `expireMs = 2^32` is
within `msPerTick x ticksPerWheel x (2^32 - 1)`, its tick count `ceil(2^32 / 1) = 2^32`
does not fit the `uint32_t` that `convertExpireMsToTicks` returns, and `addTimeout`
stores 0 ticks and 0 rounds instead of `2^32` ticks and `2^31` rounds. -/
theorem ticks_exact_below_rounds_bound_counterexample :
    WF wheel2 ∧ 0 < wheel2.msPerTick ∧
    4294967296 ≤ wheel2.msPerTick * wheel2.ticksPerWheel * (U32 - 1) ∧
    convertExpireMsToTicks wheel2 4294967296 ≠ 4294967296 ⌈/⌉ wheel2.msPerTick ∧
    convertExpireMsToTicks wheel2 4294967296 = 0 ∧
    4294967296 ⌈/⌉ wheel2.msPerTick = 4294967296 ∧
    (addTimeout [] wheel2 (Task.fn 1) 4294967296).store =
      [{ state := HashedWheelTimeout.ST_INIT, remainingRounds := 0, deadline := 0,
         task := Task.fn 1 }] ∧
    (4294967296 ⌈/⌉ wheel2.msPerTick) >>> wheel2.normalizeShift = 2147483648 := by
  decide

/-- C3 (amended): for every `expireMs <= msPerTick x (2^32 - 1)` the tick count computed
by `addTimeout` equals `ceil(expireMs / msPerTick)` exactly, it is below `2^32`, and the
rounds stored in the new timeout equal that value `>> shift`: neither is truncated by
its 32-bit field. -/
theorem ticks_exact_below_u32_bound {α : Type} (st : TimeoutStore α) (tm : HashedWheelTimer)
    (task : Task α) (expireMs : Nat) (hwf : WF tm) (hms : 0 < tm.msPerTick)
    (hbound : expireMs ≤ tm.msPerTick * (U32 - 1)) :
    convertExpireMsToTicks tm expireMs = expireMs ⌈/⌉ tm.msPerTick ∧
    expireMs ⌈/⌉ tm.msPerTick < U32 ∧
    ∃ t, (addTimeout st tm task expireMs).store[(addTimeout st tm task expireMs).timeout]?
        = some t ∧
      t.remainingRounds = (expireMs ⌈/⌉ tm.msPerTick) >>> tm.normalizeShift ∧
      t.remainingRounds < U32 ∧ t.deadline = expireMs ⌈/⌉ tm.msPerTick := by
  have hticks : expireMs ⌈/⌉ tm.msPerTick < U32 := by
    rw [Nat.ceilDiv_eq_add_pred_div, Nat.div_lt_iff_lt_mul hms]
    simp only [U32] at hbound ⊢
    omega
  have hconv := convertExpireMsToTicks_eq_ceilDiv tm expireMs hms hwf.2.1 hticks
  refine ⟨hconv, hticks, ?_⟩
  simp only [addTimeout, hconv, rounds_mod_U32 _ _ hticks, HashedWheelTimeout.new]
  refine ⟨_, List.getElem?_concat_length _ _, rfl, ?_, rfl⟩
  rw [Nat.shiftRight_eq_div_pow]
  exact lt_of_le_of_lt (Nat.div_le_self _ _) hticks

/-- Witness for C3 (amended): the largest admitted `expireMs` on the two-bucket wheel. -/
theorem ticks_exact_below_u32_bound_witness :
    WF wheel2 ∧ 0 < wheel2.msPerTick ∧ 4294967295 ≤ wheel2.msPerTick * (U32 - 1) ∧
    convertExpireMsToTicks wheel2 4294967295 = 4294967295 ⌈/⌉ wheel2.msPerTick ∧
    4294967295 ⌈/⌉ wheel2.msPerTick < U32 :=
  ⟨by decide, by decide, by decide,
    (ticks_exact_below_u32_bound ([] : TimeoutStore Nat) wheel2 (Task.fn 1) 4294967295
      (by decide) (by decide) (by decide)).1,
    (ticks_exact_below_u32_bound ([] : TimeoutStore Nat) wheel2 (Task.fn 1) 4294967295
      (by decide) (by decide) (by decide)).2.1⟩

end HashedWheelTimer

/-! ## The bucket walk -/

namespace HashedWheelBucket

open HashedWheelTimeout

theorem lt_length_of_getElem? {β : Type} {l : List β} {i : Nat} {a : β}
    (h : l[i]? = some a) : i < l.length := by
  by_contra hcon
  rw [List.getElem?_eq_none (Nat.le_of_not_lt hcon)] at h
  exact Option.noConfusion h

theorem decreaseRounds_of_pos {α : Type} (t : HashedWheelTimeout α)
    (hpos : 0 < t.remainingRounds) (hlt : t.remainingRounds < U32) :
    t.decreaseRounds = { t with remainingRounds := t.remainingRounds - 1 } := by
  have h : (t.remainingRounds + U32 - 1) % U32 = t.remainingRounds - 1 := by
    have e : t.remainingRounds + U32 - 1 = (t.remainingRounds - 1) + U32 := by omega
    rw [e, Nat.add_mod_right, Nat.mod_eq_of_lt (by omega)]
  simp only [decreaseRounds, h]

/-- The walk allocates nothing. -/
theorem walkTimeouts_length {α : Type} (ps : List TimeoutPtr) :
    ∀ st : TimeoutStore α, (walkTimeouts st ps).store.length = st.length := by
  induction ps with
  | nil => intro st; rfl
  | cons q qs ih =>
    intro st
    rw [walkTimeouts]
    split
    · exact ih st
    · split_ifs
      · exact ih st
      · simp [ih]
      · simp [ih]

/-- The walk touches only the timeouts of the bucket: a timeout that is not in the list
is not changed, not kept and not invoked. -/
theorem walkTimeouts_frame {α : Type} (p : TimeoutPtr) (ps : List TimeoutPtr) :
    p ∉ ps → ∀ st : TimeoutStore α,
      (walkTimeouts st ps).store[p]? = st[p]? ∧ p ∉ (walkTimeouts st ps).kept ∧
        (walkTimeouts st ps).fired.filter (fun e => decide (e.1 = p)) = [] := by
  induction ps with
  | nil => intro _ st; simp [walkTimeouts]
  | cons q qs ih =>
    intro hp st
    have hq : p ≠ q := fun h => hp (h ▸ List.mem_cons_self _ _)
    have hqs : p ∉ qs := fun h => hp (List.mem_cons_of_mem _ h)
    rw [walkTimeouts]
    split
    · obtain ⟨h1, h2, h3⟩ := ih hqs st
      exact ⟨h1, by simp [hq, h2], h3⟩
    · rename_i t _
      split_ifs
      · exact ih hqs st
      · obtain ⟨h1, h2, h3⟩ := ih hqs (st.set q t.expire.1)
        refine ⟨?_, h2, ?_⟩
        · rw [h1, List.getElem?_set_ne (Ne.symm hq)]
        · rw [List.filter_append, h3, List.append_nil, List.filter_eq_nil_iff]
          intro e he
          obtain ⟨k, _, rfl⟩ := List.mem_map.1 he
          simpa using Ne.symm hq
      · obtain ⟨h1, h2, h3⟩ := ih hqs (st.set q t.decreaseRounds)
        refine ⟨?_, by simp [hq, h2], h3⟩
        rw [h1, List.getElem?_set_ne (Ne.symm hq)]

/-- Walking a bucket that holds a pending timeout with rounds to go: the timeout stays in
the bucket with one round less and is not invoked. -/
theorem walkTimeouts_decrement {α : Type} (p : TimeoutPtr) (ps : List TimeoutPtr) :
    ps.count p = 1 → ∀ (st : TimeoutStore α) (t : HashedWheelTimeout α), st[p]? = some t →
      t.state = ST_INIT → 0 < t.remainingRounds → t.remainingRounds < U32 →
      (walkTimeouts st ps).store[p]? = some { t with remainingRounds := t.remainingRounds - 1 } ∧
        (walkTimeouts st ps).kept.count p = 1 ∧
        (walkTimeouts st ps).fired.filter (fun e => decide (e.1 = p)) = [] := by
  induction ps with
  | nil => intro h; simp at h
  | cons q qs ih =>
    intro hc st t hst hinit hpos hlt
    rw [walkTimeouts]
    by_cases hq : q = p
    · subst hq
      have hqs : q ∉ qs := by
        rw [List.count_cons_self] at hc
        exact List.count_eq_zero.1 (by omega)
      have hnc : (t.isCancelled || t.isExpired) = false := by
        simp [isCancelled, isExpired, hinit, ST_INIT, ST_CANCELLED, ST_EXPIRED]
      have hne : ¬ t.getRemainingRounds = 0 := by
        simp only [getRemainingRounds]; omega
      simp only [hst, hnc, hne, Bool.false_eq_true, if_false]
      have hlen : q < st.length := lt_length_of_getElem? hst
      obtain ⟨h1, h2, h3⟩ := walkTimeouts_frame q qs hqs (st.set q t.decreaseRounds)
      refine ⟨?_, ?_, h3⟩
      · rw [h1, List.getElem?_set_self hlen, decreaseRounds_of_pos t hpos hlt]
      · rw [List.count_cons_self, List.count_eq_zero.2 h2]
    · have hcq : qs.count p = 1 := by
        rw [List.count_cons_of_ne (Ne.symm hq)] at hc
        exact hc
      split
      · obtain ⟨h1, h2, h3⟩ := ih hcq st t hst hinit hpos hlt
        exact ⟨h1, by rw [List.count_cons_of_ne (Ne.symm hq)]; exact h2, h3⟩
      · rename_i u _
        split_ifs
        · exact ih hcq st t hst hinit hpos hlt
        · have hst2 : (st.set q u.expire.1)[p]? = some t := by
            rw [List.getElem?_set_ne hq]; exact hst
          obtain ⟨h1, h2, h3⟩ := ih hcq _ t hst2 hinit hpos hlt
          refine ⟨h1, h2, ?_⟩
          rw [List.filter_append, h3, List.append_nil, List.filter_eq_nil_iff]
          intro e he
          obtain ⟨k, _, rfl⟩ := List.mem_map.1 he
          simpa using hq
        · have hst2 : (st.set q u.decreaseRounds)[p]? = some t := by
            rw [List.getElem?_set_ne hq]; exact hst
          obtain ⟨h1, h2, h3⟩ := ih hcq _ t hst2 hinit hpos hlt
          exact ⟨h1, by rw [List.count_cons_of_ne (Ne.symm hq)]; exact h2, h3⟩

/-- Walking a bucket that holds a pending timeout with no rounds to go: `expire()` is
called on it, so its task is invoked (once, if it is callable), its state becomes
EXPIRED, and it is removed from the bucket. -/
theorem walkTimeouts_fire {α : Type} (p : TimeoutPtr) (ps : List TimeoutPtr) :
    ps.count p = 1 → ∀ (st : TimeoutStore α) (t : HashedWheelTimeout α), st[p]? = some t →
      t.state = ST_INIT → t.remainingRounds = 0 →
      (walkTimeouts st ps).store[p]? = some { t with state := ST_EXPIRED } ∧
        p ∉ (walkTimeouts st ps).kept ∧
        (walkTimeouts st ps).fired.filter (fun e => decide (e.1 = p))
          = if t.task.callable then [(p, t.task)] else [] := by
  induction ps with
  | nil => intro h; simp at h
  | cons q qs ih =>
    intro hc st t hst hinit hzero
    rw [walkTimeouts]
    by_cases hq : q = p
    · subst hq
      have hqs : q ∉ qs := by
        rw [List.count_cons_self] at hc
        exact List.count_eq_zero.1 (by omega)
      have hnc : (t.isCancelled || t.isExpired) = false := by
        simp [isCancelled, isExpired, hinit, ST_INIT, ST_CANCELLED, ST_EXPIRED]
      have hne : t.getRemainingRounds = 0 := hzero
      simp only [hst, hnc, hne, Bool.false_eq_true, if_false, if_true]
      have hlen : q < st.length := lt_length_of_getElem? hst
      obtain ⟨h1, h2, h3⟩ := walkTimeouts_frame q qs hqs (st.set q t.expire.1)
      refine ⟨?_, h2, ?_⟩
      · rw [h1, List.getElem?_set_self hlen]
        by_cases hcall : t.task.callable = true <;> simp [expire, hinit, hcall]
      · rw [List.filter_append, h3, List.append_nil]
        by_cases hcall : t.task.callable = true <;> simp [expire, hinit, hcall]
    · have hcq : qs.count p = 1 := by
        rw [List.count_cons_of_ne (Ne.symm hq)] at hc
        exact hc
      split
      · obtain ⟨h1, h2, h3⟩ := ih hcq st t hst hinit hzero
        exact ⟨h1, by simp [Ne.symm hq, h2], h3⟩
      · rename_i u _
        by_cases hcu : (u.isCancelled || u.isExpired) = true
        · rw [if_pos hcu]
          exact ih hcq st t hst hinit hzero
        rw [if_neg hcu]
        by_cases hru : u.getRemainingRounds = 0
        · rw [if_pos hru]
          have hst2 : (st.set q u.expire.1)[p]? = some t := by
            rw [List.getElem?_set_ne hq]; exact hst
          obtain ⟨h1, h2, h3⟩ := ih hcq _ t hst2 hinit hzero
          refine ⟨h1, h2, ?_⟩
          rw [List.filter_append, h3]
          have hnil : List.filter (fun e => decide (e.1 = p))
              (List.map (fun k => (q, k)) u.expire.2) = [] := by
            rw [List.filter_eq_nil_iff]
            intro e he
            obtain ⟨k, _, rfl⟩ := List.mem_map.1 he
            simpa using hq
          rw [hnil, List.nil_append]
        · rw [if_neg hru]
          have hst2 : (st.set q u.decreaseRounds)[p]? = some t := by
            rw [List.getElem?_set_ne hq]; exact hst
          obtain ⟨h1, h2, h3⟩ := ih hcq _ t hst2 hinit hzero
          exact ⟨h1, by simp [Ne.symm hq, h2], h3⟩

end HashedWheelBucket

/-! ## The timing wheel bound -/

namespace Wheel

open HashedWheelTimeout HashedWheelBucket HashedWheelTimer

theorem add_mod_eq_self_iff (a d W : Nat) : (a + d) % W = a % W ↔ W ∣ d := by
  have h := Nat.modEq_iff_dvd' (Nat.le_add_right a d) (n := W)
  rw [Nat.add_sub_cancel_left] at h
  rw [← h]
  exact ⟨fun e => e.symm, fun e => e.symm⟩

theorem pow_shift_dvd_U64 {tm : HashedWheelTimer} (hwf : WF tm) :
    2 ^ tm.normalizeShift ∣ U64 := by
  rw [U64]
  exact Nat.pow_dvd_pow 2 (by have := hwf.shift_lt; omega)

/-- The bucket of `tick()` on a well-formed wheel is the counter modulo the wheel size. -/
theorem tickIndex_eq {tm : HashedWheelTimer} (hwf : WF tm) :
    tickIndex tm = tm.ticked % 2 ^ tm.normalizeShift ∧ tickIndex tm < tm.buckets.length := by
  have hpos : 0 < 2 ^ tm.normalizeShift := Nat.pow_pos (by norm_num)
  have hlen : tm.buckets.length = 2 ^ tm.normalizeShift := by
    obtain ⟨_, _, _, h4, _, h6⟩ := hwf
    omega
  rw [tickIndex, hwf.and_mask, hlen]
  exact ⟨rfl, Nat.mod_lt _ hpos⟩

/-- Incrementing the 64-bit counter moves every due bucket one tick closer. -/
theorem wrapped_succ_add_mod {tm : HashedWheelTimer} (hwf : WF tm) (d : Nat) :
    ((tm.ticked + 1) % U64 + d) % 2 ^ tm.normalizeShift
      = (tm.ticked + (d + 1)) % 2 ^ tm.normalizeShift := by
  rw [Nat.add_mod, Nat.mod_mod_of_dvd _ (pow_shift_dvd_U64 hwf), ← Nat.add_mod]
  congr 1
  omega

theorem WF.update {tm : HashedWheelTimer} (hwf : WF tm) (c : Nat) (hc : c < U64)
    (bs : List HashedWheelBucket) (hbs : bs.length = tm.buckets.length) :
    WF { tm with ticked := c, buckets := bs } := by
  obtain ⟨_, h2, h3, h4, h5, h6⟩ := hwf
  exact ⟨hc, h2, h3, h4, h5, hbs.trans h6⟩

theorem wrapped_lt (c : Nat) : (c + 1) % U64 < U64 :=
  Nat.mod_lt _ (by norm_num [U64])

/-- A `tick()` while the timeout is due in `d + 1` ticks leaves it pending, due in `d`
ticks, and does not invoke it. -/
theorem Pending.tick_succ {α : Type} {p : TimeoutPtr} {task : Task α} {deadline d : Nat}
    {w : Wheel α} (h : Pending p task deadline (d + 1) w) :
    Pending p task deadline d (w.step TimerOp.tick).1 ∧
      (w.step TimerOp.tick).2.filter (fun e => decide (e.1 = p)) = [] := by
  obtain ⟨hwf, hd, hst, hb⟩ := h
  obtain ⟨hi, hilt⟩ := tickIndex_eq hwf
  have hpos : 0 < 2 ^ w.timer.normalizeShift := Nat.pow_pos (by norm_num)
  have hgetD : w.timer.buckets.getD (tickIndex w.timer) ⟨[]⟩
      = w.timer.buckets[tickIndex w.timer] := List.getD_eq_getElem _ _ hilt
  have hcount := hb _ _ (List.getElem?_eq_getElem hilt)
  have hdue : (tickIndex w.timer = (w.timer.ticked + (d + 1)) % 2 ^ w.timer.normalizeShift)
      ↔ 2 ^ w.timer.normalizeShift ∣ d + 1 := by
    rw [hi]
    constructor
    · intro e; exact (add_mod_eq_self_iff _ _ _).1 e.symm
    · intro e; exact ((add_mod_eq_self_iff _ _ _).2 e).symm
  have hdiv := Nat.succ_div d (2 ^ w.timer.normalizeShift)
  simp only [step, HashedWheelTimer.tick, expireTimeouts, hgetD]
  by_cases hv : 2 ^ w.timer.normalizeShift ∣ d + 1
  · -- the bucket of the timeout is visited: one round less
    rw [if_pos (hdue.2 hv)] at hcount
    rw [if_pos hv] at hdiv
    have hr : 0 < (d + 1) / 2 ^ w.timer.normalizeShift := by
      rw [hdiv]
      exact Nat.succ_pos _
    have hrlt : (d + 1) / 2 ^ w.timer.normalizeShift < U32 :=
      lt_of_le_of_lt (Nat.div_le_self _ _) hd
    obtain ⟨h1, h2, h3⟩ := walkTimeouts_decrement p _ hcount w.store _ hst rfl hr hrlt
    refine ⟨⟨WF.update hwf _ (wrapped_lt _) _ (List.length_set _ _ _), by omega, ?_, ?_⟩, h3⟩
    · rw [h1, hdiv]
      rfl
    · intro j b hj
      simp only [wrapped_succ_add_mod hwf]
      by_cases hji : j = tickIndex w.timer
      · subst hji
        rw [List.getElem?_set_self hilt] at hj
        cases hj
        rw [if_pos (hdue.2 hv)]
        exact h2
      · rw [List.getElem?_set_ne (Ne.symm hji)] at hj
        exact hb j b hj
  · -- another bucket is visited: the timeout is untouched
    rw [if_neg (fun e => hv (hdue.1 e))] at hcount
    rw [if_neg hv] at hdiv
    obtain ⟨h1, h2, h3⟩ := walkTimeouts_frame p _ (List.count_eq_zero.1 hcount) w.store
    refine ⟨⟨WF.update hwf _ (wrapped_lt _) _ (List.length_set _ _ _), by omega, ?_, ?_⟩, h3⟩
    · rw [h1, hst, hdiv, Nat.add_zero]
    · intro j b hj
      simp only [wrapped_succ_add_mod hwf]
      by_cases hji : j = tickIndex w.timer
      · subst hji
        rw [List.getElem?_set_self hilt] at hj
        cases hj
        rw [if_neg (fun e => hv (hdue.1 e))]
        exact List.count_eq_zero.2 h2
      · rw [List.getElem?_set_ne (Ne.symm hji)] at hj
        exact hb j b hj

/-- The `tick()` at which the timeout is due calls `expire()` on it: its task is invoked
(once, if it is callable), its state becomes EXPIRED, and no bucket holds it any more. -/
theorem Pending.tick_zero {α : Type} {p : TimeoutPtr} {task : Task α} {deadline : Nat}
    {w : Wheel α} (h : Pending p task deadline 0 w) :
    (w.step TimerOp.tick).1.store[p]?
        = some { state := ST_EXPIRED, remainingRounds := 0, deadline := deadline, task := task } ∧
      (∀ (j : Nat) (b : HashedWheelBucket),
        (w.step TimerOp.tick).1.timer.buckets[j]? = some b → p ∉ b.timeoutList) ∧
      (w.step TimerOp.tick).2.filter (fun e => decide (e.1 = p))
        = if task.callable then [(p, task)] else [] := by
  obtain ⟨hwf, _, hst, hb⟩ := h
  obtain ⟨hi, hilt⟩ := tickIndex_eq hwf
  have hgetD : w.timer.buckets.getD (tickIndex w.timer) ⟨[]⟩
      = w.timer.buckets[tickIndex w.timer] := List.getD_eq_getElem _ _ hilt
  have hcount := hb _ _ (List.getElem?_eq_getElem hilt)
  rw [Nat.add_zero, if_pos hi] at hcount
  rw [Nat.zero_div] at hst
  obtain ⟨h1, h2, h3⟩ := walkTimeouts_fire p _ hcount w.store _ hst rfl rfl
  simp only [step, HashedWheelTimer.tick, expireTimeouts, hgetD]
  refine ⟨h1, ?_, h3⟩
  intro j b hj
  by_cases hji : j = tickIndex w.timer
  · subst hji
    rw [List.getElem?_set_self hilt] at hj
    cases hj
    exact h2
  · rw [List.getElem?_set_ne (Ne.symm hji)] at hj
    have hc := hb j b hj
    rw [Nat.add_zero, ← hi, if_neg hji] at hc
    exact List.count_eq_zero.1 hc

/-- Scheduling another timeout leaves a pending timeout as it is. -/
theorem Pending.addTimeout {α : Type} {p : TimeoutPtr} {task : Task α} {deadline d : Nat}
    {w : Wheel α} (h : Pending p task deadline d w) (task2 : Task α) (expireMs : Nat) :
    Pending p task deadline d (w.step (TimerOp.addTimeout task2 expireMs)).1 := by
  obtain ⟨hwf, hd, hst, hb⟩ := h
  have hp := lt_length_of_getElem? hst
  obtain ⟨_, _, hlt⟩ := addIndex_eq w.timer hwf (convertExpireMsToTicks w.timer expireMs)
  simp only [step, HashedWheelTimer.addTimeout]
  refine ⟨WF.update hwf _ hwf.1 _ (List.length_set _ _ _), hd, ?_, ?_⟩
  · rw [List.getElem?_append_left hp]
    exact hst
  · intro j b hj
    by_cases hji : j = addIndex w.timer (convertExpireMsToTicks w.timer expireMs)
    · subst hji
      rw [List.getElem?_set_self hlt, List.getD_eq_getElem _ _ hlt] at hj
      cases hj
      have hc := hb _ _ (List.getElem?_eq_getElem hlt)
      simp only [HashedWheelBucket.addTimeout, List.count_append]
      rw [hc, List.count_singleton]
      have hne : ¬ (w.store.length == p) = true := by
        simp only [beq_iff_eq]
        omega
      rw [if_neg hne, Nat.add_zero]
    · rw [List.getElem?_set_ne (Ne.symm hji)] at hj
      exact hb j b hj

/-- Cancelling another timeout leaves a pending timeout as it is. -/
theorem Pending.cancel {α : Type} {p q : TimeoutPtr} {task : Task α} {deadline d : Nat}
    {w : Wheel α} (h : Pending p task deadline d w) (hq : q ≠ p) :
    Pending p task deadline d (w.step (TimerOp.cancel q)).1 := by
  obtain ⟨hwf, hd, hst, hb⟩ := h
  refine ⟨hwf, hd, ?_, hb⟩
  simp only [step, cancelAt]
  split
  · exact hst
  · rw [List.getElem?_set_ne hq]
    exact hst

/-- As long as fewer ticks have passed than the timeout was scheduled for, and nobody
cancels it, the timeout stays pending and is not invoked. -/
theorem Pending.run {α : Type} {p : TimeoutPtr} {task : Task α} {deadline : Nat}
    (ops : List (TimerOp α)) : ∀ (d : Nat) (w : Wheel α), Pending p task deadline d w →
      neverCancels p ops = true → ticks ops ≤ d →
      Pending p task deadline (d - ticks ops) (w.run ops).1 ∧
        (w.run ops).2.filter (fun e => decide (e.1 = p)) = [] := by
  induction ops with
  | nil => intro d w h _ _; exact ⟨h, rfl⟩
  | cons op ops ih =>
    intro d w h hnc ht
    cases op with
    | tick =>
      simp only [ticks] at ht
      simp only [neverCancels] at hnc
      obtain ⟨d, rfl⟩ : ∃ e, d = e + 1 := ⟨d - 1, by omega⟩
      obtain ⟨h1, h2⟩ := Pending.tick_succ h
      obtain ⟨h3, h4⟩ := ih d _ h1 hnc (by omega)
      simp only [Wheel.run, ticks, List.filter_append, h2, h4, List.append_nil]
      rw [Nat.add_sub_add_right]
      exact ⟨h3, trivial⟩
    | addTimeout task2 expireMs =>
      simp only [ticks] at ht
      simp only [neverCancels] at hnc
      obtain ⟨h3, h4⟩ := ih d _ (Pending.addTimeout h task2 expireMs) hnc ht
      simp only [Wheel.run, ticks, List.filter_append, h4, List.append_nil]
      exact ⟨h3, rfl⟩
    | cancel q =>
      simp only [ticks] at ht
      simp only [neverCancels, Bool.and_eq_true, decide_eq_true_eq] at hnc
      obtain ⟨h3, h4⟩ := ih d _ (Pending.cancel h hnc.1) hnc.2 ht
      simp only [Wheel.run, ticks, List.filter_append, h4, List.append_nil]
      exact ⟨h3, rfl⟩

/-- The counter after a sequence of operations: one more, modulo `2^64`, per `tick()`. -/
theorem run_ticked {α : Type} (ops : List (TimerOp α)) : ∀ w : Wheel α,
    w.timer.ticked < U64 → (w.run ops).1.timer.ticked = (w.timer.ticked + ticks ops) % U64 := by
  induction ops with
  | nil => intro w h; exact (Nat.mod_eq_of_lt h).symm
  | cons op ops ih =>
    intro w h
    cases op with
    | tick =>
      rw [Wheel.run, ih _ (wrapped_lt _)]
      simp only [step, HashedWheelTimer.tick, ticks, Nat.mod_add_mod]
      congr 1
      omega
    | addTimeout task2 expireMs => exact ih _ h
    | cancel q => exact ih _ h

/-- No operation changes the shift of the wheel. -/
theorem run_normalizeShift {α : Type} (ops : List (TimerOp α)) : ∀ w : Wheel α,
    (w.run ops).1.timer.normalizeShift = w.timer.normalizeShift := by
  induction ops with
  | nil => intro w; rfl
  | cons op ops ih =>
    intro w
    cases op with
    | tick => exact ih _
    | addTimeout task2 expireMs => exact ih _
    | cancel q => exact ih _

/-- Right after `addTimeout`, the new timeout is pending and due in its tick count. -/
theorem Pending.init {α : Type} (st : TimeoutStore α) (tm : HashedWheelTimer)
    (task : Task α) (expireMs : Nat) (hwf : WF tm) (hcov : Covers st tm)
    (hms : 0 < tm.msPerTick) (hticks : expireMs ⌈/⌉ tm.msPerTick < U32) :
    Pending st.length task (expireMs ⌈/⌉ tm.msPerTick) (expireMs ⌈/⌉ tm.msPerTick)
      (ofAdd (HashedWheelTimer.addTimeout st tm task expireMs)) := by
  obtain ⟨_, hstore, htimer⟩ := addTimeout_eq st tm task expireMs hwf hms hticks
  obtain ⟨_, hidx, hlt⟩ := addIndex_eq tm hwf (expireMs ⌈/⌉ tm.msPerTick)
  have hfresh : ∀ b ∈ tm.buckets, b.timeoutList.count st.length = 0 := by
    intro b hb
    rw [List.count_eq_zero]
    intro hmem
    exact Nat.lt_irrefl _ (hcov b hb _ hmem)
  simp only [ofAdd, Pending, hstore, htimer]
  refine ⟨WF.update hwf _ hwf.1 _ (List.length_set _ _ _), hticks, ?_, ?_⟩
  · rw [List.getElem?_concat_length, Nat.shiftRight_eq_div_pow]
  · intro j b hj
    rw [← hidx]
    by_cases hji : j = addIndex tm (expireMs ⌈/⌉ tm.msPerTick)
    · subst hji
      rw [List.getElem?_set_self hlt, List.getD_eq_getElem _ _ hlt] at hj
      cases hj
      simp only [HashedWheelBucket.addTimeout, List.count_append, List.count_singleton,
        beq_self_eq_true, if_true]
      rw [hfresh _ (List.getElem_mem hlt)]
    · rw [List.getElem?_set_ne (Ne.symm hji)] at hj
      rw [if_neg hji]
      exact hfresh b (List.getElem?_mem hj)

/-- Among the counters `t0, ..., t0 + n - 1`, exactly `n / W` are congruent to `t0 + n`
modulo `W`. -/
theorem visits_before (W t0 n : Nat) : ∀ k, k ≤ n →
    ((List.range k).filter (fun i => decide ((t0 + i) % W = (t0 + n) % W))).length
      = n / W - (n - k) / W := by
  intro k
  induction k with
  | zero => intro _; simp
  | succ k ih =>
    intro hk
    have hdiv := Nat.succ_div (n - (k + 1)) W
    have hsub : n - (k + 1) + 1 = n - k := by omega
    rw [hsub] at hdiv
    have hmono : (n - k) / W ≤ n / W := Nat.div_le_div_right (Nat.sub_le n k)
    have hiff : ((t0 + k) % W = (t0 + n) % W) ↔ W ∣ n - k := by
      have h := Nat.modEq_iff_dvd' (Nat.add_le_add_left (Nat.le_of_succ_le hk) t0) (n := W)
      rw [Nat.add_sub_add_left] at h
      exact h
    rw [List.range_succ, List.filter_append, List.length_append, ih (Nat.le_of_succ_le hk)]
    by_cases hv : W ∣ n - k
    · rw [if_pos hv] at hdiv
      simp only [List.filter_cons, hiff.2 hv, decide_True, if_true, List.filter_nil,
        List.length_singleton]
      omega
    · rw [if_neg hv] at hdiv
      have hne : ¬ ((t0 + k) % W = (t0 + n) % W) := fun e => hv (hiff.1 e)
      simp only [List.filter_cons, hne, decide_False, Bool.false_eq_true, if_false,
        List.filter_nil, List.length_nil]
      omega

/-- The bucket `tick()` visits when the counter, wrapped to 64 bits, is `c`. -/
theorem tickIndex_wrapped {tm : HashedWheelTimer} (hwf : WF tm) (c : Nat) :
    tickIndex { tm with ticked := c % U64 } = c % 2 ^ tm.normalizeShift := by
  rw [tickIndex]
  simp only
  rw [hwf.and_mask, Nat.mod_mod_of_dvd _ (pow_shift_dvd_U64 hwf)]

/-- C2 (timing wheel bound): let a timeout be scheduled by `addTimeout` with
`expireMs = M` on a well-formed wheel at counter `t0`, with `n = ceil(M / msPerTick)`
below `2^32`.  It is put into bucket `(n + (t0 & mask)) & mask`.  `tick()` visits that
bucket exactly `n >> shift` (its rounds) times while the counter runs through
`t0, ..., t0 + n - 1`, and visits it again at counter `t0 + n` (counters modulo `2^64`).
Under the advance walk of spec 4.5, in every run of `tick()`, `addTimeout` and `cancel()`
calls that never cancels this timeout: as long as at most `n` ticks have been made the
timeout is in state INIT, with `(n - ticks) >> shift` rounds left, and has not been
invoked; and the `tick()` made after exactly `n` ticks, at counter `t0 + n`, invokes its
task (once, if it is callable) and leaves it EXPIRED. -/
theorem timing_wheel_bound {α : Type} (st : TimeoutStore α) (tm : HashedWheelTimer)
    (task : Task α) (expireMs : Nat) (hwf : WF tm) (hcov : Covers st tm)
    (hms : 0 < tm.msPerTick) (hticks : expireMs ⌈/⌉ tm.msPerTick < U32) :
    (∃ b, (HashedWheelTimer.addTimeout st tm task expireMs).timer.buckets[
        (expireMs ⌈/⌉ tm.msPerTick + (tm.ticked &&& tm.mask)) &&& tm.mask]? = some b ∧
      b.timeoutList.count (HashedWheelTimer.addTimeout st tm task expireMs).timeout = 1) ∧
    ((List.range (expireMs ⌈/⌉ tm.msPerTick)).filter (fun k =>
        decide (tickIndex { tm with ticked := (tm.ticked + k) % U64 }
          = (expireMs ⌈/⌉ tm.msPerTick + (tm.ticked &&& tm.mask)) &&& tm.mask))).length
      = (expireMs ⌈/⌉ tm.msPerTick) >>> tm.normalizeShift ∧
    tickIndex { tm with ticked := (tm.ticked + expireMs ⌈/⌉ tm.msPerTick) % U64 }
      = (expireMs ⌈/⌉ tm.msPerTick + (tm.ticked &&& tm.mask)) &&& tm.mask ∧
    (∀ ops : List (TimerOp α),
      neverCancels (HashedWheelTimer.addTimeout st tm task expireMs).timeout ops = true →
      ticks ops ≤ expireMs ⌈/⌉ tm.msPerTick →
      ((ofAdd (HashedWheelTimer.addTimeout st tm task expireMs)).run ops).1.timer.ticked
        = (tm.ticked + ticks ops) % U64 ∧
      ((ofAdd (HashedWheelTimer.addTimeout st tm task expireMs)).run ops).1.store[
          (HashedWheelTimer.addTimeout st tm task expireMs).timeout]?
        = some { state := ST_INIT,
                 remainingRounds := (expireMs ⌈/⌉ tm.msPerTick - ticks ops) >>> tm.normalizeShift,
                 deadline := expireMs ⌈/⌉ tm.msPerTick, task := task } ∧
      ((ofAdd (HashedWheelTimer.addTimeout st tm task expireMs)).run ops).2.filter
          (fun e => decide (e.1 = (HashedWheelTimer.addTimeout st tm task expireMs).timeout))
        = []) ∧
    (∀ ops : List (TimerOp α),
      neverCancels (HashedWheelTimer.addTimeout st tm task expireMs).timeout ops = true →
      ticks ops = expireMs ⌈/⌉ tm.msPerTick →
      ((ofAdd (HashedWheelTimer.addTimeout st tm task expireMs)).run ops).1.timer.ticked
        = (tm.ticked + expireMs ⌈/⌉ tm.msPerTick) % U64 ∧
      ((((ofAdd (HashedWheelTimer.addTimeout st tm task expireMs)).run ops).1.step
            TimerOp.tick).2.filter
          (fun e => decide (e.1 = (HashedWheelTimer.addTimeout st tm task expireMs).timeout))
        = if task.callable
          then [((HashedWheelTimer.addTimeout st tm task expireMs).timeout, task)] else []) ∧
      (((ofAdd (HashedWheelTimer.addTimeout st tm task expireMs)).run ops).1.step
            TimerOp.tick).1.store[(HashedWheelTimer.addTimeout st tm task expireMs).timeout]?
        = some { state := ST_EXPIRED, remainingRounds := 0,
                 deadline := expireMs ⌈/⌉ tm.msPerTick, task := task }) := by
  have hinit := Pending.init st tm task expireMs hwf hcov hms hticks
  obtain ⟨hidx, hidx2, hlt⟩ := addIndex_eq tm hwf (expireMs ⌈/⌉ tm.msPerTick)
  have hp : (HashedWheelTimer.addTimeout st tm task expireMs).timeout = st.length := rfl
  have ht0 : (ofAdd (HashedWheelTimer.addTimeout st tm task expireMs)).timer.ticked = tm.ticked :=
    rfl
  have hsh : (ofAdd (HashedWheelTimer.addTimeout st tm task expireMs)).timer.normalizeShift
      = tm.normalizeShift := rfl
  have hlen : (ofAdd (HashedWheelTimer.addTimeout st tm task expireMs)).timer.buckets.length
      = tm.buckets.length := List.length_set _ _ _
  rw [hp, ← hidx]
  refine ⟨?_, ?_, ?_, ?_, ?_⟩
  · have hlt2 : addIndex tm (expireMs ⌈/⌉ tm.msPerTick)
        < (ofAdd (HashedWheelTimer.addTimeout st tm task expireMs)).timer.buckets.length := by
      rw [hlen]; exact hlt
    refine ⟨_, List.getElem?_eq_getElem hlt2, ?_⟩
    have hc := hinit.2.2.2 _ _ (List.getElem?_eq_getElem hlt2)
    rw [ht0, hsh, ← hidx2, if_pos rfl] at hc
    exact hc
  · simp only [tickIndex_wrapped hwf, hidx2]
    rw [visits_before _ _ _ _ (Nat.le_refl _), Nat.sub_self, Nat.zero_div, Nat.sub_zero,
      Nat.shiftRight_eq_div_pow]
  · rw [tickIndex_wrapped hwf, hidx2]
  · intro ops hnc hle
    obtain ⟨h1, h2⟩ := Pending.run ops _ _ hinit hnc hle
    refine ⟨?_, ?_, h2⟩
    · rw [run_ticked ops _ hwf.1, ht0]
    · rw [h1.2.2.1, Nat.shiftRight_eq_div_pow]
      rw [run_normalizeShift ops, hsh]
  · intro ops hnc heq
    obtain ⟨h1, _⟩ := Pending.run ops _ _ hinit hnc (Nat.le_of_eq heq)
    rw [heq, Nat.sub_self] at h1
    obtain ⟨h3, _, h5⟩ := Pending.tick_zero h1
    refine ⟨?_, h5, h3⟩
    rw [run_ticked ops _ hwf.1, ht0, heq]

/-- Witness for C2: 1234 ms on the eight-bucket wheel at tick 13 is 13 ticks.  After 13
ticks, with another timeout scheduled and the older one cancelled on the way, the next
`tick()` invokes the task. -/
theorem timing_wheel_bound_witness :
    WF wheel8 ∧ Covers store8 wheel8 ∧ 0 < wheel8.msPerTick ∧
    1234 ⌈/⌉ wheel8.msPerTick < U32 ∧
    neverCancels 1 (TimerOp.addTimeout (Task.fn 3) 250 :: TimerOp.cancel 0 ::
      List.replicate 13 (TimerOp.tick : TimerOp Nat)) = true ∧
    ticks (TimerOp.addTimeout (Task.fn 3) 250 :: TimerOp.cancel 0 ::
      List.replicate 13 (TimerOp.tick : TimerOp Nat)) = 1234 ⌈/⌉ wheel8.msPerTick ∧
    ((((ofAdd (HashedWheelTimer.addTimeout store8 wheel8 (Task.fn 2) 1234)).run
        (TimerOp.addTimeout (Task.fn 3) 250 :: TimerOp.cancel 0 ::
          List.replicate 13 TimerOp.tick)).1.step TimerOp.tick).2.filter
      (fun e => decide (e.1 = 1))) = [(1, Task.fn 2)] :=
  ⟨by decide, by decide, by decide, by decide, by decide, by decide,
    ((timing_wheel_bound store8 wheel8 (Task.fn 2) 1234 (by decide) (by decide) (by decide)
      (by decide)).2.2.2.2 _ (by decide) (by decide)).2.1⟩

end Wheel

/-! ## The session registry -/

namespace StdMap

/-- After `erase(k)` no entry is left under the key `k`. -/
theorem equalRange_erase_self {V : Type} (k : Nat) (m : StdMap V) :
    equalRange k (erase k m) = [] := by
  induction m with
  | nil => rfl
  | cons e rest ih =>
    simp only [equalRange, erase, List.map_eq_nil_iff] at ih ⊢
    by_cases h : e.1 = k
    · simp only [List.filter_cons, h, bne_self_eq_false, Bool.false_eq_true, if_false]
      exact ih
    · have h1 : (e.1 != k) = true := by simp [h]
      have h2 : (e.1 == k) = false := by simp [h]
      simp only [List.filter_cons, h1, h2, if_true, Bool.false_eq_true, if_false]
      exact ih

/-- After `erase(k)` a lookup of `k` finds nothing. -/
theorem find_erase_self {V : Type} (k : Nat) (m : StdMap V) : find k (erase k m) = none := by
  induction m with
  | nil => rfl
  | cons e rest ih =>
    simp only [find, erase, Option.map_eq_none'] at ih ⊢
    by_cases h : e.1 = k
    · simp only [List.filter_cons, h, bne_self_eq_false, Bool.false_eq_true, if_false]
      exact ih
    · have h1 : (e.1 != k) = true := by simp [h]
      have h2 : (e.1 == k) = false := by simp [h]
      simp only [List.filter_cons, h1, if_true, List.find?_cons, h2]
      exact ih

end StdMap

namespace SessionManager

/-- What `removeSession` does, for every registry: it empties the whole uin of the session
in `_uinMap`, removes its cid from `_cidMap`, and touches neither the sessions nor the
timeouts nor the timer. -/
theorem removeSession_effect (r : Registry) (sp : SessionPtr) (s : Session)
    (h : r.sessions[sp]? = some s) :
    StdMap.equalRange s.uin (removeSession r sp).mgr.uinMap = [] ∧
      findSessionByCid (removeSession r sp) s.cid = none ∧
      (removeSession r sp).timeouts = r.timeouts ∧
      (removeSession r sp).sessions = r.sessions ∧
      (removeSession r sp).mgr.timer = r.mgr.timer := by
  simp only [removeSession, h, findSessionByCid]
  exact ⟨StdMap.equalRange_erase_self _ _, StdMap.find_erase_self _ _, trivial, trivial, trivial⟩


/-- C7 (the code at the failing inputs): after `addSession` of sessions 0 and 1, which
share uin 7, `removeSession(0)` erases every `_uinMap` entry under uin 7, so session 1 is
still referenced from `_cidMap` but no longer from `_uinMap`; and after `addSession` of
sessions 0 and 2, which share cid 1, `map::insert` has kept the entry of session 0, so
session 2 is referenced from `_uinMap` but not from `_cidMap`. -/
theorem registry_maps_diverge :
    (1 ∈ cidRefs (removeSession (addSession (addSession registry0 0 5) 1 6) 0) ∧
      1 ∉ uinRefs (removeSession (addSession (addSession registry0 0 5) 1 6) 0)) ∧
    (2 ∈ uinRefs (addSession (addSession registry0 0 5) 2 6) ∧
      2 ∉ cidRefs (addSession (addSession registry0 0 5) 2 6)) ∧
    cidRefs registry0 = [] ∧ uinRefs registry0 = [] := by
  decide

/-- C8 (the code at the failing inputs): after the same session 0 is added twice it
appears twice among the `_uinMap` entries for its uin; and after session 2, with the cid
of session 0, is added second, the registry holds session 2 (in `_uinMap`) while
`_cidMap` under its cid is session 0. -/
theorem session_not_exclusive :
    (StdMap.equalRange 7 (addSession (addSession registry0 0 5) 0 6).mgr.uinMap = [0, 0] ∧
      findSessionByCid (addSession (addSession registry0 0 5) 0 6) 1 = some 0) ∧
    (StdMap.equalRange 8 (addSession (addSession registry0 0 5) 2 6).mgr.uinMap = [2] ∧
      ((addSession (addSession registry0 0 5) 2 6).sessions[2]?).map Session.cid = some 1 ∧
      findSessionByCid (addSession (addSession registry0 0 5) 2 6) 1 = some 0) := by
  decide

/-- C9 (the code at the failing input): with sessions 0 and 1 in the registry, of the same
uin 7 and of the cids 1 and 2, `removeSession(0)` leaves session 1 in `_cidMap` under its
cid but removes it from `_uinMap`: no entry is left under uin 7. -/
theorem removeSession_erases_whole_uin :
    (addSession (addSession registry0 0 5) 1 6).mgr.cidMap = [(1, 0), (2, 1)] ∧
    (addSession (addSession registry0 0 5) 1 6).mgr.uinMap = [(7, 0), (7, 1)] ∧
    (removeSession (addSession (addSession registry0 0 5) 1 6) 0).mgr.cidMap = [(2, 1)] ∧
    (removeSession (addSession (addSession registry0 0 5) 1 6) 0).mgr.uinMap = [] ∧
    StdMap.equalRange 7 (removeSession (addSession (addSession registry0 0 5) 1 6) 0).mgr.uinMap
      = [] := by
  decide

/-- C10 (the code at the failing input): after `addSession(0)` session 0 holds timeout 0,
in state INIT; after `removeSession(0)` that timeout is still in state INIT, still the
session's timeout and still in its bucket, and the eleventh `tick()` from then invokes
its task, the bound `removeSession` of session 0. -/
theorem removeSession_leaves_timeout_pending :
    ((addSession registry0 0 5).sessions[0]?).map Session.timeout = some (some 0) ∧
    ((addSession registry0 0 5).timeouts[0]?).map HashedWheelTimeout.state
      = some HashedWheelTimeout.ST_INIT ∧
    removeSession (addSession registry0 0 5) 0 =
      { addSession registry0 0 5 with
        mgr := { (addSession registry0 0 5).mgr with cidMap := [], uinMap := [] } } ∧
    ((removeSession (addSession registry0 0 5) 0).timeouts[0]?).map HashedWheelTimeout.state
      = some HashedWheelTimeout.ST_INIT ∧
    ((removeSession (addSession registry0 0 5) 0).timeouts[0]?).map HashedWheelTimeout.isCancelled
      = some false ∧
    (Wheel.run { store := (removeSession (addSession registry0 0 5) 0).timeouts,
                 timer := (removeSession (addSession registry0 0 5) 0).mgr.timer }
        (List.replicate 11 TimerOp.tick)).2 = [(0, Task.fn 0)] := by
  decide

end SessionManager

/-! ## Sessions: connection id and timestamps -/

namespace Session

/-- The connection id of a 32-bit ip and a port below `2^32` is `ip * 2^32 + port`. -/
theorem genConnectId_eq (ip port : Nat) (hip : ip < 2 ^ 32) (hport : port < 2 ^ 32) :
    genConnectId ip port = ip * 2 ^ 32 + port ∧ genConnectId ip port = (ip <<< 32) ||| port := by
  have h64 : ip * 2 ^ 32 < U64 := by
    rw [U64]
    omega
  have hp : port % U64 = port := Nat.mod_eq_of_lt (by rw [U64]; omega)
  have hi : ip % U64 = ip := Nat.mod_eq_of_lt (by rw [U64]; omega)
  have hs : (ip <<< 32) % U64 = ip <<< 32 := by
    rw [Nat.shiftLeft_eq]
    exact Nat.mod_eq_of_lt h64
  rw [genConnectId, hp, hi, hs]
  refine ⟨?_, rfl⟩
  rw [Nat.shiftLeft_eq, Nat.mul_comm, ← Nat.mul_add_lt_is_or hport]

/-- C14: for every 32-bit ip and 16-bit port `genConnectId` returns `(ip << 32) | port`,
which is `ip * 2^32 + port`: its high 32 bits are the ip, its low 32 bits are the port, it
fits 64 bits, and two sources get the same cid if and only if they have the same ip and
the same port. -/
theorem genConnectId_injective (ip port : Nat) (hip : ip < 2 ^ 32) (hport : port < 2 ^ 16) :
    genConnectId ip port = (ip <<< 32) ||| port ∧
    genConnectId ip port >>> 32 = ip ∧
    genConnectId ip port % 2 ^ 32 = port ∧
    genConnectId ip port < U64 ∧
    ∀ ip2 port2 : Nat, ip2 < 2 ^ 32 → port2 < 2 ^ 16 →
      (genConnectId ip port = genConnectId ip2 port2 ↔ ip = ip2 ∧ port = port2) := by
  have hport32 : port < 2 ^ 32 := by omega
  obtain ⟨h1, h2⟩ := genConnectId_eq ip port hip hport32
  refine ⟨h2, ?_, ?_, ?_, ?_⟩
  · rw [h1, Nat.shiftRight_eq_div_pow]
    omega
  · rw [h1]
    omega
  · rw [h1, U64]
    omega
  · intro ip2 port2 hip2 hport2
    have hport232 : port2 < 2 ^ 32 := by omega
    rw [h1, (genConnectId_eq ip2 port2 hip2 hport232).1]
    constructor
    · intro h
      omega
    · rintro ⟨rfl, rfl⟩
      rfl

/-- Witness for C14: ip 10.0.0.1 and port 3001. -/
theorem genConnectId_injective_witness :
    167772161 < 2 ^ 32 ∧ 3001 < 2 ^ 16 ∧
    genConnectId 167772161 3001 = 720575944674249657 ∧
    genConnectId 167772161 3001 >>> 32 = 167772161 ∧
    genConnectId 167772161 3001 % 2 ^ 32 = 3001 :=
  ⟨by decide, by decide, by decide,
    (genConnectId_injective 167772161 3001 (by decide) (by decide)).2.1,
    (genConnectId_injective 167772161 3001 (by decide) (by decide)).2.2.1⟩

/-- A touch changes the update time only. -/
theorem touchAll_eq (times : List Nat) : ∀ s : Session,
    (touchAll s times).tsUpdate = (times.getLast?.map (fun t => t % U64)).getD s.tsUpdate ∧
      touchAll s times = { s with tsUpdate := (touchAll s times).tsUpdate } := by
  induction times with
  | nil => intro s; exact ⟨rfl, rfl⟩
  | cons t ts ih =>
    intro s
    obtain ⟨h1, h2⟩ := ih (s.touch (t % U64))
    have e : touchAll s (t :: ts) = touchAll (s.touch (t % U64)) ts := rfl
    rw [e]
    refine ⟨?_, ?_⟩
    · rw [h1]
      cases ts with
      | nil => rfl
      | cons u us =>
        obtain ⟨v, hv⟩ : ∃ v, (u :: us).getLast? = some v :=
          ⟨_, List.getLast?_eq_getLast _ (List.cons_ne_nil u us)⟩
        rw [List.getLast?_cons_cons, hv]
        rfl
    · rw [h2]
      rfl

/-- The order of the two timestamps after a sequence of touches, for any session. -/
theorem touchAll_order (s : Session) (times : List Nat) :
    (touchAll s times).createTime = s.tsCreate ∧
    (touchAll s times).lastUpdateTime
      = (times.getLast?.map (fun t => t % U64)).getD s.tsUpdate ∧
    ((touchAll s times).createTime ≤ (touchAll s times).lastUpdateTime
      ↔ (times = [] → s.tsCreate ≤ s.tsUpdate) ∧
        ∀ t, times.getLast? = some t → s.tsCreate ≤ t % U64) := by
  obtain ⟨h1, h2⟩ := touchAll_eq times s
  have hc : (touchAll s times).createTime = s.tsCreate := by
    rw [h2]
    rfl
  have hu : (touchAll s times).lastUpdateTime
      = (times.getLast?.map (fun t => t % U64)).getD s.tsUpdate := h1
  refine ⟨hc, hu, ?_⟩
  rw [hc, hu]
  cases hl : times.getLast? with
  | none =>
    have hnil : times = [] := List.getLast?_eq_none_iff.mp hl
    simp [hnil]
  | some t =>
    have hne : times ≠ [] := by
      intro h
      rw [h] at hl
      exact Option.noConfusion hl
    simp [hne]

/-- C15 as stated fails: a session created at time 100 and touched with
`touch(updateTime)` for `updateTime = 50` has `lastUpdateTime() = 50`, below
`createTime() = 100`. -/
theorem lastUpdate_ge_create_counterexample :
    ¬ ((touchAll (new 7 11 100 167772161 3001) [50]).createTime
        ≤ (touchAll (new 7 11 100 167772161 3001) [50]).lastUpdateTime) := by
  decide

/-- The constructor narrows `createTime` to 32 bits: a session constructed with the
millisecond time 1793404800000 has `createTime() = 2403437568`, and after
`touch(3000000000)` its `lastUpdateTime()` is not below it. -/
theorem createTime_narrowed_example :
    (new 7 11 1793404800000 167772161 3001).createTime = 2403437568 ∧
    (touchAll (new 7 11 1793404800000 167772161 3001) [3000000000]).createTime = 2403437568 ∧
    (touchAll (new 7 11 1793404800000 167772161 3001) [3000000000]).lastUpdateTime
      = 3000000000 ∧
    (touchAll (new 7 11 1793404800000 167772161 3001) [3000000000]).createTime
      ≤ (touchAll (new 7 11 1793404800000 167772161 3001) [3000000000]).lastUpdateTime := by
  decide

/-- C15 (amended): immediately after any constructor `lastUpdateTime() = createTime()`,
where `createTime()` is the argument `createTime` narrowed to 32 bits, or the reading of
the clock for the constructors without that argument; after any sequence of `touch()` and
`touch(updateTime)` calls `createTime()` is unchanged and `lastUpdateTime()` is the time
of the last call, so `lastUpdateTime() >= createTime()` holds if and only if there was no
call or the time of the last call is not before `createTime()`. -/
theorem lastUpdate_ge_create_iff (uin sessKey created now ip port : Nat) (times : List Nat) :
    (new uin sessKey created ip port).createTime = created % U32 ∧
    (new uin sessKey created ip port).lastUpdateTime
      = (new uin sessKey created ip port).createTime ∧
    (touchAll (new uin sessKey created ip port) times).createTime = created % U32 ∧
    (touchAll (new uin sessKey created ip port) times).lastUpdateTime
      = (times.getLast?.map (fun t => t % U64)).getD (created % U32) ∧
    ((touchAll (new uin sessKey created ip port) times).createTime
        ≤ (touchAll (new uin sessKey created ip port) times).lastUpdateTime
      ↔ ∀ t, times.getLast? = some t → created % U32 ≤ t % U64) ∧
    (newNow uin sessKey now ip port).createTime = now % U64 ∧
    (newNow uin sessKey now ip port).lastUpdateTime
      = (newNow uin sessKey now ip port).createTime ∧
    (touchAll (newNow uin sessKey now ip port) times).createTime = now % U64 ∧
    (touchAll (newNow uin sessKey now ip port) times).lastUpdateTime
      = (times.getLast?.map (fun t => t % U64)).getD (now % U64) ∧
    ((touchAll (newNow uin sessKey now ip port) times).createTime
        ≤ (touchAll (newNow uin sessKey now ip port) times).lastUpdateTime
      ↔ ∀ t, times.getLast? = some t → now % U64 ≤ t % U64) := by
  obtain ⟨a1, a2, a3⟩ := touchAll_order (new uin sessKey created ip port) times
  obtain ⟨b1, b2, b3⟩ := touchAll_order (newNow uin sessKey now ip port) times
  refine ⟨rfl, rfl, a1, a2, ?_, rfl, rfl, b1, b2, ?_⟩
  · rw [a3]
    constructor
    · intro h
      exact h.2
    · intro h
      exact ⟨fun _ => Nat.le_refl _, h⟩
  · rw [b3]
    constructor
    · intro h
      exact h.2
    · intro h
      exact ⟨fun _ => Nat.le_refl _, h⟩

end Session

/-! ## The session registry: lookup, touch and eviction -/

namespace StdMap

/-- A lookup of a key that no entry has finds nothing. -/
theorem find_of_not_key {V : Type} (k : Nat) (m : StdMap V) (h : ∀ e ∈ m, e.1 ≠ k) :
    find k m = none := by
  simp only [find, Option.map_eq_none', List.find?_eq_none, beq_iff_eq]
  exact h

/-- After `insert` of a key that no entry has, a lookup of the key finds the value. -/
theorem find_insert_of_not_key {V : Type} (k : Nat) (v : V) (m : StdMap V)
    (h : ∀ e ∈ m, e.1 ≠ k) : find k (insert k v m) = some v := by
  induction m with
  | nil => simp [insert, find]
  | cons e rest ih =>
    have he : e.1 ≠ k := h e (List.mem_cons_self _ _)
    have hrest : ∀ x ∈ rest, x.1 ≠ k := fun x hx => h x (List.mem_cons_of_mem _ hx)
    rw [insert]
    by_cases hlt : k < e.1
    · rw [if_pos hlt]
      simp [find]
    · rw [if_neg hlt, if_neg (Ne.symm he)]
      have hb : (e.1 == k) = false := by simp [he]
      have ih2 := ih hrest
      simp only [find, List.find?_cons, hb] at ih2 ⊢
      exact ih2

end StdMap

namespace SessionManager

open HashedWheelTimeout HashedWheelTimer

/-- What `touchSession` does to a session that exists, in one equation. -/
theorem touchSession_eq (r : Registry) (sp : SessionPtr) (s : Session) (now : Nat)
    (hs : r.sessions[sp]? = some s) :
    touchSession r sp now =
      { sessions := r.sessions.set sp { s with timeout := some r.timeouts.length, tsUpdate := now },
        timeouts := (s.resetTimeout (HashedWheelTimer.addTimeout r.timeouts r.mgr.timer
          (Task.fn sp) r.mgr.expireMS).store (some r.timeouts.length)).1,
        mgr := { r.mgr with timer := (HashedWheelTimer.addTimeout r.timeouts r.mgr.timer
          (Task.fn sp) r.mgr.expireMS).timer } } := by
  simp only [touchSession, hs, TimerWrap.addTimeout]
  cases hT : s.timeout <;> simp [Session.resetTimeout, hT, Session.touch, HashedWheelTimer.addTimeout]

/-- Neither `touchSession` nor the timer touches the two maps. -/
theorem touchSession_maps (r : Registry) (sp : SessionPtr) (now : Nat) :
    (touchSession r sp now).mgr.cidMap = r.mgr.cidMap ∧
      (touchSession r sp now).mgr.uinMap = r.mgr.uinMap := by
  unfold touchSession
  split <;> exact ⟨rfl, rfl⟩

/-- The call `addSession` of a session that exists: the two inserts, then `touchSession`. -/
theorem addSession_eq (r : Registry) (sp : SessionPtr) (s : Session) (now : Nat)
    (hs : r.sessions[sp]? = some s) :
    addSession r sp now = touchSession ⟨r.sessions, r.timeouts, ⟨r.mgr.expireMS,
      StdMap.insertMulti s.uin sp r.mgr.uinMap, StdMap.insert s.cid sp r.mgr.cidMap,
      r.mgr.timer⟩⟩ sp now := by
  simp only [addSession, hs]

/-- The maps after `addSession` of a session that exists. -/
theorem addSession_maps (r : Registry) (sp : SessionPtr) (s : Session) (now : Nat)
    (hs : r.sessions[sp]? = some s) :
    (addSession r sp now).mgr.cidMap = StdMap.insert s.cid sp r.mgr.cidMap ∧
      (addSession r sp now).mgr.uinMap = StdMap.insertMulti s.uin sp r.mgr.uinMap := by
  simp only [addSession, hs]
  exact touchSession_maps _ sp now

/-- C12: for every registry and every session S whose cid is not yet a key of `_cidMap`,
after `addSession(S)` the lookup `findSessionByCid(S.cid)` returns S; for every cid that
is not a key of `_cidMap` the lookup returns null; and the lookup leaves the registry,
with both maps, as it was. -/
theorem findSessionByCid_spec (r : Registry) (sp : SessionPtr) (s : Session) (now : Nat)
    (hs : r.sessions[sp]? = some s) (hkey : ∀ e ∈ r.mgr.cidMap, e.1 ≠ s.cid) :
    findSessionByCid (addSession r sp now) s.cid = some sp ∧
    ((addSession r sp now).sessions[sp]?).map Session.cid = some s.cid ∧
    (∀ cid : Nat, (∀ e ∈ r.mgr.cidMap, e.1 ≠ cid) → findSessionByCid r cid = none) ∧
    (∀ cid : Nat, (lookupByCid r cid).1 = r ∧ (lookupByCid r cid).2 = findSessionByCid r cid) := by
  refine ⟨?_, ?_, ?_, ?_⟩
  · rw [findSessionByCid, (addSession_maps r sp s now hs).1]
    exact StdMap.find_insert_of_not_key _ _ _ hkey
  · have hlt := HashedWheelBucket.lt_length_of_getElem? hs
    have key : ∀ r2 : Registry, r2.sessions = r.sessions →
        ((touchSession r2 sp now).sessions[sp]?).map Session.cid = some s.cid := by
      intro r2 h2
      have hs2 : r2.sessions[sp]? = some s := by rw [h2]; exact hs
      rw [touchSession_eq r2 sp s now hs2, h2]
      simp only [List.getElem?_set_self hlt, Option.map_some']
    rw [addSession_eq r sp s now hs]
    exact key _ rfl
  · intro cid h
    exact StdMap.find_of_not_key _ _ h
  · intro cid
    exact ⟨rfl, rfl⟩

/-- Witness for C12: session 1 (cid 2) is added to the registry that holds session 0
(cid 1). -/
theorem findSessionByCid_spec_witness :
    (addSession registry0 0 5).sessions[1]? = some (freshSession 2 7 12 0) ∧
    (∀ e ∈ (addSession registry0 0 5).mgr.cidMap, e.1 ≠ (freshSession 2 7 12 0).cid) ∧
    findSessionByCid (addSession (addSession registry0 0 5) 1 6) 2 = some 1 :=
  ⟨by decide, by decide,
    (findSessionByCid_spec (addSession registry0 0 5) 1 (freshSession 2 7 12 0) 6
      (by decide) (by decide)).1⟩

end SessionManager

namespace SessionManager

open HashedWheelTimeout HashedWheelTimer

/-- Cancelling through a pointer changes that timeout only. -/
theorem cancelAt_getElem? {α : Type} (st : TimeoutStore α) (old p : TimeoutPtr) :
    (Wheel.cancelAt st old).length = st.length ∧
    (p ≠ old → (Wheel.cancelAt st old)[p]? = st[p]?) ∧
    (∀ t, st[old]? = some t → (Wheel.cancelAt st old)[old]? = some t.cancel) := by
  unfold Wheel.cancelAt
  split
  · rename_i hnone
    refine ⟨rfl, fun _ => rfl, ?_⟩
    intro t ht
    rw [hnone] at ht
    exact Option.noConfusion ht
  · rename_i u hsome
    refine ⟨List.length_set _ _ _, fun hne => List.getElem?_set_ne (Ne.symm hne), ?_⟩
    intro t ht
    rw [hsome] at ht
    cases ht
    exact List.getElem?_set_self (HashedWheelBucket.lt_length_of_getElem? hsome)

/-- Allocating a timeout and then cancelling an older one through its pointer. -/
theorem cancelAt_append {α : Type} (st : TimeoutStore α) (nt : HashedWheelTimeout α)
    (old : TimeoutPtr) (hold : old < st.length) :
    (Wheel.cancelAt (st ++ [nt]) old).length = st.length + 1 ∧
    (Wheel.cancelAt (st ++ [nt]) old)[st.length]? = some nt ∧
    (∀ p, p ≠ old → p < st.length → (Wheel.cancelAt (st ++ [nt]) old)[p]? = st[p]?) ∧
    (∀ t, st[old]? = some t → (Wheel.cancelAt (st ++ [nt]) old)[old]? = some t.cancel) := by
  refine ⟨?_, ?_, ?_, ?_⟩
  · rw [(cancelAt_getElem? _ old 0).1]
    simp
  · rw [(cancelAt_getElem? _ old st.length).2.1 (Nat.ne_of_gt hold)]
    exact List.getElem?_concat_length _ _
  · intro p hne hp
    rw [(cancelAt_getElem? _ old p).2.1 hne]
    exact List.getElem?_append_left hp
  · intro t ht
    apply (cancelAt_getElem? _ old 0).2.2
    rw [List.getElem?_append_left hold]
    exact ht

/-- What `touchSession` does to a session that exists and whose timeout pointer, if it
has one, points into the store: one timeout is allocated and scheduled, the old one is
cancelled, the session holds the new one and has the clock reading as update time. -/
theorem touchSession_effect (r : Registry) (sp : SessionPtr) (s : Session) (now : Nat)
    (hs : r.sessions[sp]? = some s)
    (hvalid : ∀ T, s.timeout = some T → T < r.timeouts.length)
    (hwf : WF r.mgr.timer) (hms : 0 < r.mgr.timer.msPerTick)
    (hticks : r.mgr.expireMS ⌈/⌉ r.mgr.timer.msPerTick < U32) :
    (touchSession r sp now).timeouts.length = r.timeouts.length + 1 ∧
    (touchSession r sp now).timeouts[r.timeouts.length]?
      = some { state := ST_INIT,
               remainingRounds := (r.mgr.expireMS ⌈/⌉ r.mgr.timer.msPerTick)
                 >>> r.mgr.timer.normalizeShift,
               deadline := r.mgr.expireMS ⌈/⌉ r.mgr.timer.msPerTick, task := Task.fn sp } ∧
    (∀ p, s.timeout ≠ some p → p < r.timeouts.length →
      (touchSession r sp now).timeouts[p]? = r.timeouts[p]?) ∧
    (∀ T t, s.timeout = some T → r.timeouts[T]? = some t →
      (touchSession r sp now).timeouts[T]? = some t.cancel) ∧
    (touchSession r sp now).sessions
      = r.sessions.set sp { s with timeout := some r.timeouts.length, tsUpdate := now } ∧
    (touchSession r sp now).mgr = { r.mgr with timer := { r.mgr.timer with
      buckets := r.mgr.timer.buckets.set
        (addIndex r.mgr.timer (r.mgr.expireMS ⌈/⌉ r.mgr.timer.msPerTick))
        ((r.mgr.timer.buckets.getD
          (addIndex r.mgr.timer (r.mgr.expireMS ⌈/⌉ r.mgr.timer.msPerTick)) ⟨[]⟩).addTimeout
            r.timeouts.length) } } := by
  obtain ⟨_, hstore, htimer⟩ :=
    addTimeout_eq r.timeouts r.mgr.timer (Task.fn sp) r.mgr.expireMS hwf hms hticks
  rw [touchSession_eq r sp s now hs, hstore, htimer]
  simp only
  cases hT : s.timeout with
  | none =>
    simp only [Session.resetTimeout, hT]
    refine ⟨by simp, List.getElem?_concat_length _ _, ?_, ?_, trivial, trivial⟩
    · intro p _ hp
      exact List.getElem?_append_left hp
    · intro T t h
      exact Option.noConfusion h
  | some old =>
    have hold : old < r.timeouts.length := hvalid old hT
    simp only [Session.resetTimeout, hT]
    obtain ⟨h1, h2, h3, h4⟩ := cancelAt_append r.timeouts
      (⟨ST_INIT, (r.mgr.expireMS ⌈/⌉ r.mgr.timer.msPerTick) >>> r.mgr.timer.normalizeShift,
        r.mgr.expireMS ⌈/⌉ r.mgr.timer.msPerTick, Task.fn sp⟩ : HashedWheelTimeout SessionPtr)
      old hold
    refine ⟨h1, h2, ?_, ?_, trivial, trivial⟩
    · intro p hne hp
      exact h3 p (fun e => hne (by rw [e])) hp
    · intro T t h ht
      cases h
      exact h4 t ht

/-- After `resetTimeout` on the store with the new timeout appended, a timeout in state
INIT is either the new one or an old one that the session did not hold. -/
theorem resetTimeout_init {α : Type} (st : TimeoutStore α) (nt : HashedWheelTimeout α)
    (s : Session) (x : Option TimeoutPtr) (hv : ∀ T, s.timeout = some T → T < st.length) :
    (s.resetTimeout (st ++ [nt]) x).1.length = st.length + 1 ∧
    ∀ p u, (s.resetTimeout (st ++ [nt]) x).1[p]? = some u → u.state = ST_INIT →
      (p = st.length ∧ u = nt) ∨ (p < st.length ∧ st[p]? = some u ∧ s.timeout ≠ some p) := by
  cases hT : s.timeout with
  | none =>
    simp only [Session.resetTimeout, hT]
    refine ⟨by simp, ?_⟩
    intro p u hp _
    have hlt := HashedWheelBucket.lt_length_of_getElem? hp
    rw [List.length_append, List.length_singleton] at hlt
    by_cases hpl : p < st.length
    · rw [List.getElem?_append_left hpl] at hp
      exact Or.inr ⟨hpl, hp, fun e => Option.noConfusion e⟩
    · have hpe : p = st.length := by omega
      subst hpe
      rw [List.getElem?_concat_length] at hp
      cases hp
      exact Or.inl ⟨rfl, rfl⟩
  | some old =>
    have hold : old < st.length := hv old hT
    obtain ⟨h1, h2, h3, h4⟩ := cancelAt_append st nt old hold
    simp only [Session.resetTimeout, hT]
    refine ⟨h1, ?_⟩
    intro p u hp hinit
    have hlt := HashedWheelBucket.lt_length_of_getElem? hp
    rw [h1] at hlt
    by_cases hpl : p < st.length
    · by_cases hpo : p = old
      · subst hpo
        rw [h4 _ (List.getElem?_eq_getElem hold)] at hp
        cases hp
        simp [cancel, ST_CANCELLED, ST_INIT] at hinit
      · rw [h3 p hpo hpl] at hp
        refine Or.inr ⟨hpl, hp, ?_⟩
        intro e
        cases e
        exact hpo rfl
    · have hpe : p = st.length := by omega
      subst hpe
      rw [h2] at hp
      cases hp
      exact Or.inl ⟨rfl, rfl⟩

/-- The invariant looks at the sessions and the timeouts only. -/
theorem SingleInit.congr {r r2 : Registry} (h : SingleInit r) (hs : r2.sessions = r.sessions)
    (ht : r2.timeouts = r.timeouts) : SingleInit r2 := by
  unfold SingleInit at h ⊢
  rw [hs, ht]
  exact h

/-- The call `touchSession` keeps every session at no more than one timeout in state INIT. -/
theorem SingleInit.touchSession {r : Registry} (h : SingleInit r) (sp : SessionPtr)
    (now : Nat) : SingleInit (touchSession r sp now) := by
  cases hs : r.sessions[sp]? with
  | none =>
    have e : SessionManager.touchSession r sp now = r := by
      simp only [SessionManager.touchSession, hs]
    rw [e]
    exact h
  | some s =>
    have hlt := HashedWheelBucket.lt_length_of_getElem? hs
    have hv : ∀ T, s.timeout = some T → T < r.timeouts.length := fun T hT => h.1 sp s T hs hT
    obtain ⟨hlen, hcases⟩ := resetTimeout_init r.timeouts
      (HashedWheelTimeout.new
        ((convertExpireMsToTicks r.mgr.timer r.mgr.expireMS >>> r.mgr.timer.normalizeShift) % U32)
        (convertExpireMsToTicks r.mgr.timer r.mgr.expireMS) (Task.fn sp))
      s (some r.timeouts.length) hv
    rw [touchSession_eq r sp s now hs]
    refine ⟨?_, ?_⟩
    · intro sp2 s2 p hs2 hp
      simp only at hs2 ⊢
      have hl : (s.resetTimeout (HashedWheelTimer.addTimeout r.timeouts r.mgr.timer
          (Task.fn sp) r.mgr.expireMS).store (some r.timeouts.length)).1.length
          = r.timeouts.length + 1 := hlen
      rw [hl]
      by_cases hsp : sp2 = sp
      · subst hsp
        rw [List.getElem?_set_self hlt] at hs2
        cases hs2
        cases hp
        exact Nat.lt_succ_self _
      · rw [List.getElem?_set_ne (Ne.symm hsp)] at hs2
        exact Nat.lt_succ_of_lt (h.1 sp2 s2 p hs2 hp)
    · intro sp2 s2 p u hs2 hp htask hinit
      simp only at hs2 hp
      rcases hcases p u hp hinit with ⟨hpe, hu⟩ | ⟨hpl, hpold, hne⟩
      · subst hu
        have hsp : sp2 = sp := by
          simp only [HashedWheelTimeout.new, Task.fn.injEq] at htask
          exact htask.symm
        subst hsp
        rw [List.getElem?_set_self hlt] at hs2
        cases hs2
        rw [hpe]
      · by_cases hsp : sp2 = sp
        · subst hsp
          exact absurd (h.2 sp2 s p u hs hpold htask hinit) hne
        · rw [List.getElem?_set_ne (Ne.symm hsp)] at hs2
          exact h.2 sp2 s2 p u hs2 hpold htask hinit

/-- Every call keeps every session at no more than one timeout in state INIT. -/
theorem SingleInit.calls (cs : List Call) : ∀ r : Registry, SingleInit r →
    SingleInit (calls r cs) := by
  induction cs with
  | nil => intro r h; exact h
  | cons c cs ih =>
    intro r h
    apply ih
    cases c with
    | addSession sp now =>
      cases hs : r.sessions[sp]? with
      | none =>
        have e : call r (Call.addSession sp now) = r := by
          simp only [call, addSession, hs]
        rw [e]
        exact h
      | some s =>
        have e : call r (Call.addSession sp now) = addSession r sp now := rfl
        rw [e, addSession_eq r sp s now hs]
        apply SingleInit.touchSession
        exact SingleInit.congr h rfl rfl
    | touchSession sp now => exact SingleInit.touchSession h sp now
    | removeSession sp =>
      apply SingleInit.congr h
      · simp only [call, removeSession]
        split <;> rfl
      · simp only [call, removeSession]
        split <;> rfl

/-- The bucket of the wheel that `touchSession` appends the new timeout to. -/
theorem touchSession_bucket (r : Registry) (sp : SessionPtr) (s : Session) (now : Nat)
    (hs : r.sessions[sp]? = some s)
    (hvalid : ∀ T, s.timeout = some T → T < r.timeouts.length)
    (hwf : WF r.mgr.timer) (hms : 0 < r.mgr.timer.msPerTick)
    (hticks : r.mgr.expireMS ⌈/⌉ r.mgr.timer.msPerTick < U32) :
    (∃ b, r.mgr.timer.buckets[(r.mgr.expireMS ⌈/⌉ r.mgr.timer.msPerTick
          + (r.mgr.timer.ticked &&& r.mgr.timer.mask)) &&& r.mgr.timer.mask]? = some b ∧
      (touchSession r sp now).mgr.timer.buckets[(r.mgr.expireMS ⌈/⌉ r.mgr.timer.msPerTick
          + (r.mgr.timer.ticked &&& r.mgr.timer.mask)) &&& r.mgr.timer.mask]?
        = some { timeoutList := b.timeoutList ++ [r.timeouts.length] }) ∧
    (∀ j, j ≠ (r.mgr.expireMS ⌈/⌉ r.mgr.timer.msPerTick
          + (r.mgr.timer.ticked &&& r.mgr.timer.mask)) &&& r.mgr.timer.mask →
      (touchSession r sp now).mgr.timer.buckets[j]? = r.mgr.timer.buckets[j]?) := by
  obtain ⟨hidx, _, hlt⟩ := addIndex_eq r.mgr.timer hwf (r.mgr.expireMS ⌈/⌉ r.mgr.timer.msPerTick)
  rw [(touchSession_effect r sp s now hs hvalid hwf hms hticks).2.2.2.2.2, ← hidx]
  refine ⟨⟨_, List.getElem?_eq_getElem hlt, ?_⟩, ?_⟩
  · simp only
    rw [List.getElem?_set_self hlt, List.getD_eq_getElem _ _ hlt]
    rfl
  · intro j hj
    exact List.getElem?_set_ne (Ne.symm hj)

/-- C11: for every session S whose current timeout T is in state INIT, after
`touchSession(S)` T is CANCELLED; the timeout store has grown by exactly one timeout T',
which is in state INIT, carries the bound `removeSession(S)` and the tick count of
`expireMS`, and is appended to its bucket of the wheel while no other bucket and no other
timeout changes; T' is the timeout S holds; and `lastUpdateTime()` of S is the clock
reading.  Consequently, if no session has a second timeout in state INIT before, none has
one after the call nor after any further `addSession`, `touchSession` and
`removeSession` calls. -/
theorem touchSession_replaces_timeout (r : Registry) (sp : SessionPtr) (s : Session)
    (T : TimeoutPtr) (t : HashedWheelTimeout SessionPtr) (now : Nat)
    (hs : r.sessions[sp]? = some s) (hT : s.timeout = some T)
    (ht : r.timeouts[T]? = some t) (_hinit : t.state = ST_INIT)
    (hwf : WF r.mgr.timer) (hms : 0 < r.mgr.timer.msPerTick)
    (hticks : r.mgr.expireMS ⌈/⌉ r.mgr.timer.msPerTick < U32) :
    ((touchSession r sp now).timeouts[T]?).map HashedWheelTimeout.state = some ST_CANCELLED ∧
    (touchSession r sp now).timeouts.length = r.timeouts.length + 1 ∧
    (∀ p, p ≠ T → p < r.timeouts.length →
      (touchSession r sp now).timeouts[p]? = r.timeouts[p]?) ∧
    (touchSession r sp now).timeouts[r.timeouts.length]?
      = some { state := ST_INIT,
               remainingRounds := (r.mgr.expireMS ⌈/⌉ r.mgr.timer.msPerTick)
                 >>> r.mgr.timer.normalizeShift,
               deadline := r.mgr.expireMS ⌈/⌉ r.mgr.timer.msPerTick, task := Task.fn sp } ∧
    (∃ b, r.mgr.timer.buckets[(r.mgr.expireMS ⌈/⌉ r.mgr.timer.msPerTick
          + (r.mgr.timer.ticked &&& r.mgr.timer.mask)) &&& r.mgr.timer.mask]? = some b ∧
      (touchSession r sp now).mgr.timer.buckets[(r.mgr.expireMS ⌈/⌉ r.mgr.timer.msPerTick
          + (r.mgr.timer.ticked &&& r.mgr.timer.mask)) &&& r.mgr.timer.mask]?
        = some { timeoutList := b.timeoutList ++ [r.timeouts.length] }) ∧
    (∀ j, j ≠ (r.mgr.expireMS ⌈/⌉ r.mgr.timer.msPerTick
          + (r.mgr.timer.ticked &&& r.mgr.timer.mask)) &&& r.mgr.timer.mask →
      (touchSession r sp now).mgr.timer.buckets[j]? = r.mgr.timer.buckets[j]?) ∧
    (touchSession r sp now).sessions[sp]?
      = some { s with timeout := some r.timeouts.length, tsUpdate := now } ∧
    ((touchSession r sp now).sessions[sp]?).map Session.lastUpdateTime = some now ∧
    (SingleInit r → ∀ cs : List Call, SingleInit (calls (touchSession r sp now) cs)) := by
  have hvalid : ∀ T2, s.timeout = some T2 → T2 < r.timeouts.length := by
    intro T2 h2
    rw [hT] at h2
    cases h2
    exact HashedWheelBucket.lt_length_of_getElem? ht
  have hlt := HashedWheelBucket.lt_length_of_getElem? hs
  obtain ⟨h1, h2, h3, h4, h5, _⟩ := touchSession_effect r sp s now hs hvalid hwf hms hticks
  obtain ⟨hb1, hb2⟩ := touchSession_bucket r sp s now hs hvalid hwf hms hticks
  refine ⟨?_, h1, ?_, h2, hb1, hb2, ?_, ?_, ?_⟩
  · rw [h4 T t hT ht]
    rfl
  · intro p hne hp
    exact h3 p (fun e => hne (by rw [hT] at e; cases e; rfl)) hp
  · rw [h5, List.getElem?_set_self hlt]
  · rw [h5, List.getElem?_set_self hlt]
    rfl
  · intro hsi cs
    exact SingleInit.calls cs _ (SingleInit.touchSession hsi sp now)

/-- Witness for C11: session 0 of the registry, added at time 5 and holding timeout 0, is
touched at time 9. -/
theorem touchSession_replaces_timeout_witness :
    (addSession registry0 0 5).sessions[0]?
      = some { freshSession 1 7 11 0 with timeout := some 0, tsUpdate := 5 } ∧
    (addSession registry0 0 5).timeouts[0]? = some (HashedWheelTimeout.new 0 10 (Task.fn 0)) ∧
    WF (addSession registry0 0 5).mgr.timer ∧
    ((touchSession (addSession registry0 0 5) 0 9).timeouts[0]?).map HashedWheelTimeout.state
      = some ST_CANCELLED ∧
    (touchSession (addSession registry0 0 5) 0 9).timeouts[1]?
      = some (HashedWheelTimeout.new 0 10 (Task.fn 0)) ∧
    (touchSession (addSession registry0 0 5) 0 9).sessions[0]?
      = some { freshSession 1 7 11 0 with timeout := some 1, tsUpdate := 9 } := by
  have h := touchSession_replaces_timeout (addSession registry0 0 5) 0
    { freshSession 1 7 11 0 with timeout := some 0, tsUpdate := 5 } 0
    (HashedWheelTimeout.new 0 10 (Task.fn 0)) 9 (by decide) rfl (by decide) rfl (by decide)
    (by decide) (by decide)
  exact ⟨by decide, by decide, by decide, h.1, h.2.2.2.1, h.2.2.2.2.2.2.1⟩

end SessionManager

namespace StdMap

/-- After `erase(k)` every entry left was there before and has another key. -/
theorem mem_erase {V : Type} (k : Nat) (m : StdMap V) (e : Nat × V) (h : e ∈ erase k m) :
    e ∈ m ∧ e.1 ≠ k := by
  simp only [erase, List.mem_filter, bne_iff_ne, ne_eq] at h
  exact h

end StdMap

namespace SessionManager

open HashedWheelTimeout HashedWheelTimer

/-- The timer, the timeouts and the sessions after `addSession` are those after
`touchSession`: the two inserts touch the maps only. -/
theorem addSession_as_touch (r : Registry) (sp : SessionPtr) (s : Session) (now : Nat)
    (hs : r.sessions[sp]? = some s) :
    (addSession r sp now).timeouts = (touchSession r sp now).timeouts ∧
    (addSession r sp now).sessions = (touchSession r sp now).sessions ∧
    (addSession r sp now).mgr.timer = (touchSession r sp now).mgr.timer := by
  rw [addSession_eq r sp s now hs, touchSession_eq r sp s now hs,
    touchSession_eq ⟨r.sessions, r.timeouts, ⟨r.mgr.expireMS,
      StdMap.insertMulti s.uin sp r.mgr.uinMap, StdMap.insert s.cid sp r.mgr.cidMap,
      r.mgr.timer⟩⟩ sp s now hs]
  exact ⟨rfl, rfl, rfl⟩

/-- C13 (idle eviction): on a registry whose wheel ticks every `TimerInterval = 100` ms,
the timeout that `touchSession` and `addSession` register for session S is in state
INIT, carries the tick count `ceil(expireMS / 100)` (with the rounds and in the bucket
of the wheel that belong to it), is the timeout S holds, and its task is the bound
`removeSession(S)`.  When that task runs, on whatever the registry then is, it removes S
from both maps: afterwards `findSessionByCid(S.cid)` returns null and `_uinMap` has no
entry under the uin of S, so none for S. -/
theorem idle_eviction (r : Registry) (sp : SessionPtr) (s : Session) (now : Nat)
    (hs : r.sessions[sp]? = some s)
    (hvalid : ∀ T, s.timeout = some T → T < r.timeouts.length)
    (hwf : WF r.mgr.timer) (htick : r.mgr.timer.msPerTick = TimerInterval)
    (hexp : r.mgr.expireMS < U32) :
    (touchSession r sp now).timeouts[r.timeouts.length]?
      = some { state := ST_INIT,
               remainingRounds := (r.mgr.expireMS ⌈/⌉ 100) >>> r.mgr.timer.normalizeShift,
               deadline := r.mgr.expireMS ⌈/⌉ 100, task := Task.fn sp } ∧
    ((touchSession r sp now).sessions[sp]?).map Session.timeout
      = some (some r.timeouts.length) ∧
    (∃ b, (touchSession r sp now).mgr.timer.buckets[(r.mgr.expireMS ⌈/⌉ 100
          + (r.mgr.timer.ticked &&& r.mgr.timer.mask)) &&& r.mgr.timer.mask]? = some b ∧
      r.timeouts.length ∈ b.timeoutList) ∧
    ((addSession r sp now).timeouts = (touchSession r sp now).timeouts ∧
      (addSession r sp now).sessions = (touchSession r sp now).sessions ∧
      (addSession r sp now).mgr.timer = (touchSession r sp now).mgr.timer) ∧
    (∀ (r2 : Registry) (s2 : Session), r2.sessions[sp]? = some s2 →
      findSessionByCid (runTask r2 (Task.fn sp)) s2.cid = none ∧
      StdMap.equalRange s2.uin (runTask r2 (Task.fn sp)).mgr.uinMap = [] ∧
      (∀ e ∈ (runTask r2 (Task.fn sp)).mgr.uinMap, e.1 ≠ s2.uin) ∧
      (∀ e ∈ (runTask r2 (Task.fn sp)).mgr.cidMap, e.1 ≠ s2.cid) ∧
      ((∀ e ∈ r2.mgr.uinMap, e.2 = sp → e.1 = s2.uin) →
        sp ∉ uinRefs (runTask r2 (Task.fn sp))) ∧
      ((∀ e ∈ r2.mgr.cidMap, e.2 = sp → e.1 = s2.cid) →
        sp ∉ cidRefs (runTask r2 (Task.fn sp)))) := by
  have h100 : r.mgr.timer.msPerTick = 100 := htick
  have hms : 0 < r.mgr.timer.msPerTick := by omega
  have hticks : r.mgr.expireMS ⌈/⌉ r.mgr.timer.msPerTick < U32 := by
    rw [h100, Nat.ceilDiv_eq_add_pred_div]
    omega
  have hlt := HashedWheelBucket.lt_length_of_getElem? hs
  obtain ⟨_, h2, _, _, h5, _⟩ := touchSession_effect r sp s now hs hvalid hwf hms hticks
  obtain ⟨⟨b, _, hb⟩, _⟩ := touchSession_bucket r sp s now hs hvalid hwf hms hticks
  rw [h100] at h2 hb
  refine ⟨h2, ?_, ⟨_, hb, by simp⟩, addSession_as_touch r sp s now hs, ?_⟩
  · rw [h5, List.getElem?_set_self hlt]
    rfl
  · intro r2 s2 hs2
    have hrun : runTask r2 (Task.fn sp) = removeSession r2 sp := rfl
    have hmaps : (removeSession r2 sp).mgr.uinMap = StdMap.erase s2.uin r2.mgr.uinMap ∧
        (removeSession r2 sp).mgr.cidMap = StdMap.erase s2.cid r2.mgr.cidMap := by
      simp only [removeSession, hs2]
      exact ⟨trivial, trivial⟩
    obtain ⟨e1, e2, _⟩ := removeSession_effect r2 sp s2 hs2
    rw [hrun]
    refine ⟨e2, e1, ?_, ?_, ?_, ?_⟩
    · intro e he
      rw [hmaps.1] at he
      exact (StdMap.mem_erase _ _ e he).2
    · intro e he
      rw [hmaps.2] at he
      exact (StdMap.mem_erase _ _ e he).2
    · intro hcons hmem
      simp only [uinRefs, List.mem_map] at hmem
      obtain ⟨e, he, hsnd⟩ := hmem
      rw [hmaps.1] at he
      obtain ⟨hin, hne⟩ := StdMap.mem_erase _ _ e he
      exact hne (hcons e hin hsnd)
    · intro hcons hmem
      simp only [cidRefs, List.mem_map] at hmem
      obtain ⟨e, he, hsnd⟩ := hmem
      rw [hmaps.2] at he
      obtain ⟨hin, hne⟩ := StdMap.mem_erase _ _ e he
      exact hne (hcons e hin hsnd)

/-- The registry that the constructor builds meets what C13 asks of the wheel: it is
well formed and ticks every 100 ms. -/
theorem new_timer_ready (expireMS : Nat) (h : expireMS < U32) :
    WF (SessionManager.new expireMS).timer ∧
      (SessionManager.new expireMS).timer.msPerTick = TimerInterval ∧
      (SessionManager.new expireMS).expireMS = expireMS := by
  refine ⟨(new_WF TimerInterval (expireMS / TimerInterval) (by decide) ?_).1, rfl, rfl⟩
  rw [U32] at h
  rw [TimerInterval]
  omega

/-- Witness for C13: session 0 is added to the new registry with `expireMS = 1000`; its
timeout carries 10 ticks, and running its task on the registry that also holds session 1
removes session 0 from both maps. -/
theorem idle_eviction_witness :
    registry0.sessions[0]? = some (freshSession 1 7 11 0) ∧
    WF registry0.mgr.timer ∧ registry0.mgr.timer.msPerTick = TimerInterval ∧
    registry0.mgr.expireMS < U32 ∧
    (addSession registry0 0 5).timeouts = (touchSession registry0 0 5).timeouts ∧
    (touchSession registry0 0 5).timeouts[0]? = some (HashedWheelTimeout.new 0 10 (Task.fn 0)) ∧
    findSessionByCid (runTask (addSession (addSession registry0 0 5) 1 6) (Task.fn 0)) 1
      = none := by
  have h := idle_eviction registry0 0 (freshSession 1 7 11 0) 5 (by decide)
    (by intro T hT; exact Option.noConfusion hT) (by decide) (by decide) (by decide)
  refine ⟨by decide, by decide, by decide, by decide, h.2.2.2.1.1, h.1, ?_⟩
  exact (h.2.2.2.2 (addSession (addSession registry0 0 5) 1 6)
    { freshSession 1 7 11 0 with timeout := some 0, tsUpdate := 5 } (by decide)).1

end SessionManager

/-! ## TcpConnection: the read path -/

namespace VecBuffer

theorem writtableSize_new (n : Nat) : (new n).writtableSize = n := by
  simp [writtableSize, capacity, new]

theorem readableSize_new (n : Nat) : (new n).readableSize = 0 := by
  simp [readableSize, new]

theorem WF_new (n : Nat) : WF (new n) := by
  simp [WF, new, capacity]

/-- Storing bytes that fit the writable region changes neither a cursor nor the
capacity. -/
theorem fill_sizes (b : VecBuffer) (data : List Nat) (hwf : WF b)
    (hfit : data.length ≤ b.writtableSize) :
    (b.fill data).readPos = b.readPos ∧ (b.fill data).writePos = b.writePos ∧
      (b.fill data).capacity = b.capacity := by
  refine ⟨rfl, rfl, ?_⟩
  have h1 := hwf.2
  simp only [writtableSize, capacity] at hfit h1
  simp only [fill, capacity, List.length_append, List.length_take, List.length_drop]
  omega

end VecBuffer

namespace TcpConnection

/-- What the merge step of `handleRead` does to the readable size: a result that fits the
writable region of the receive buffer adds its size; a larger one adds the size of the
writable region only, because the write cursor is not advanced after the `memcpy` of the
overflow. -/
theorem mergeRead_readableSize (b : VecBuffer) (readed : Nat) (data : List Nat)
    (hwf : b.WF) :
    (readed ≤ b.writtableSize →
      (mergeRead b readed data).readableSize = b.readableSize + readed) ∧
    (b.writtableSize < readed →
      (mergeRead b readed data).readableSize = b.readableSize + b.writtableSize ∧
      (mergeRead b readed data).writePos = b.capacity ∧
      (mergeRead b readed data).writtableSize = readed - b.writtableSize) := by
  have hfit : (data.take b.writtableSize).length ≤ b.writtableSize := by
    rw [List.length_take]
    exact Nat.min_le_left _ _
  obtain ⟨hr, hw, hc⟩ := VecBuffer.fill_sizes b (data.take b.writtableSize) hwf hfit
  have hws : (b.fill (data.take b.writtableSize)).writtableSize = b.writtableSize := by
    show (b.fill (data.take b.writtableSize)).capacity
      - (b.fill (data.take b.writtableSize)).writePos = b.capacity - b.writePos
    rw [hw, hc]
  obtain ⟨h1, h2⟩ := hwf
  constructor
  · intro hle
    have hp : ¬ ((readed : Int) - (b.writtableSize : Int) > 0) := by omega
    simp only [mergeRead, hp, if_false]
    simp only [VecBuffer.readableSize, VecBuffer.markWrite, hw, hr]
    omega
  · intro hlt
    have hp : (readed : Int) - (b.writtableSize : Int) > 0 := by omega
    have hpn : ((readed : Int) - (b.writtableSize : Int)).toNat = readed - b.writtableSize := by
      omega
    simp only [mergeRead, hp, if_true, hws, hpn]
    simp only [VecBuffer.writtableSize, VecBuffer.capacity] at hlt h2 ⊢
    simp only [VecBuffer.readableSize, VecBuffer.writtableSize, VecBuffer.capacity,
      VecBuffer.fill, VecBuffer.enlarge, VecBuffer.markWrite, List.length_append,
      List.length_take, List.length_drop, List.length_replicate]
    omega

/-- C16 (the code at the failing input): on a new connection (receive buffer of 1024
bytes, nothing readable) a `readv` result of 1500 bytes leaves, after the merge step, a
readable size of 1024: grown by the writable size, not by 1500.  On a buffer with four
writable bytes and a result of six bytes, the six bytes are in the region but the write
cursor stands at 4, so the readable bytes are the first four. -/
theorem handleRead_overflow_not_counted :
    (VecBuffer.new predMsgLen).readableSize = 0 ∧
    (VecBuffer.new predMsgLen).writtableSize = 1024 ∧
    (mergeRead (VecBuffer.new predMsgLen) 1500 (List.replicate 1500 1)).readableSize = 1024 ∧
    mergeRead (VecBuffer.new 4) 6 [1, 2, 3, 4, 5, 6]
      = { bytes := [1, 2, 3, 4, 5, 6], readPos := 0, writePos := 4 } ∧
    (mergeRead (VecBuffer.new 4) 6 [1, 2, 3, 4, 5, 6]).readable = [1, 2, 3, 4] ∧
    (mergeRead (VecBuffer.new 4) 6 [1, 2, 3, 4, 5, 6]).readableSize = 4 := by
  have hw : (VecBuffer.new predMsgLen).writtableSize = 1024 := VecBuffer.writtableSize_new _
  have hr : (VecBuffer.new predMsgLen).readableSize = 0 := VecBuffer.readableSize_new _
  have h := (mergeRead_readableSize (VecBuffer.new predMsgLen) 1500 (List.replicate 1500 1)
    (VecBuffer.WF_new _)).2 (by rw [hw]; decide)
  refine ⟨hr, hw, ?_, by decide, by decide, by decide⟩
  rw [h.1, hr, hw]

/-- Messages handed to the owner are no close. -/
theorem closes_newMessage {Msg : Type} (msgs : List Msg) :
    closes (msgs.map ConnEvent.newMessage) = 0 := by
  induction msgs with
  | nil => rfl
  | cons m ms ih => simpa [closes] using ih

/-- C17: in a pass of `handleRead`, a `readv` result of 0 invokes `on_close(conn, 0)` and
stops reading; a negative result with `errno` outside EAGAIN and EINTR invokes
`on_close(conn, errno)` and stops; a negative result with `errno` EAGAIN or EINTR stops
without invoking `on_close`; and a positive result invokes `on_close` not at all, only
the message handler.  In the three stopping cases no further `readv` result is used and
the connection is unchanged. -/
theorem handleRead_close_delivery {Msg : Type} (codec : Codec Msg) (fuel : Nat)
    (c : TcpConnection) (res : ReadvResult) (rest : List ReadvResult) :
    (res.readed = 0 → handleRead codec fuel c (res :: rest) = (c, [ConnEvent.closed 0])) ∧
    (res.readed < 0 → res.errno ≠ EAGAIN → res.errno ≠ EINTR →
      handleRead codec fuel c (res :: rest) = (c, [ConnEvent.closed res.errno])) ∧
    (res.readed < 0 → (res.errno = EAGAIN ∨ res.errno = EINTR) →
      handleRead codec fuel c (res :: rest) = (c, [])) ∧
    (0 < res.readed →
      closes (handleReadPass codec fuel c res).events = 0 ∧
      (handleReadPass codec fuel c res).events
        = (procLoop codec fuel (mergeRead c.rcvBuf res.readed.toNat res.data)).2.map
            ConnEvent.newMessage) := by
  refine ⟨?_, ?_, ?_, ?_⟩
  · intro h0
    have hp : handleReadPass codec fuel c res
        = { conn := c, events := [ConnEvent.closed 0], again := false } := by
      simp [handleReadPass, h0]
    simp only [handleRead, hp, Bool.false_eq_true, if_false]
  · intro hneg h1 h2
    have hp : handleReadPass codec fuel c res
        = { conn := c, events := [ConnEvent.closed res.errno], again := false } := by
      have hn : ¬ res.readed > 0 := by omega
      simp [handleReadPass, hn, hneg, Ne.symm h1, Ne.symm h2]
    simp only [handleRead, hp, Bool.false_eq_true, if_false]
  · intro hneg herr
    have hp : handleReadPass codec fuel c res
        = { conn := c, events := [], again := false } := by
      have hn : ¬ res.readed > 0 := by omega
      have hc : ¬ (EAGAIN ≠ res.errno ∧ EINTR ≠ res.errno) := by
        rcases herr with e | e
        · exact fun h => h.1 e.symm
        · exact fun h => h.2 e.symm
      simp only [handleReadPass, hn, hneg, hc, if_false, if_true]
    simp only [handleRead, hp, Bool.false_eq_true, if_false]
  · intro hpos
    have hp : res.readed > 0 := hpos
    have he : (handleReadPass codec fuel c res).events
        = (procLoop codec fuel (mergeRead c.rcvBuf res.readed.toNat res.data)).2.map
            ConnEvent.newMessage := by
      simp only [handleReadPass, hp, if_true]
    exact ⟨by rw [he]; exact closes_newMessage _, he⟩

end TcpConnection

/-! ## TcpConnection: the write path and the close callback -/

namespace TcpConnection

theorem closes_append {Msg : Type} (a b : List (ConnEvent Msg)) :
    closes (a ++ b) = closes a + closes b := by
  induction a with
  | nil => exact (Nat.zero_add _).symm
  | cons e a ih =>
    cases e with
    | closed err =>
      show closes (a ++ b) + 1 = closes a + 1 + closes b
      rw [ih]
      omega
    | newMessage msg => exact ih
    | writev iovecs => exact ih
    | sockClose => exact ih

/-- A pass of `handleRead` invokes the close callback at most once, and not at all when
the loop goes on. -/
theorem handleReadPass_closes {Msg : Type} (codec : Codec Msg) (fuel : Nat)
    (c : TcpConnection) (res : ReadvResult) :
    closes (handleReadPass codec fuel c res).events ≤ 1 ∧
      ((handleReadPass codec fuel c res).again = true →
        closes (handleReadPass codec fuel c res).events = 0) := by
  unfold handleReadPass
  by_cases hp : res.readed > 0
  · simp only [hp, if_true]
    rw [closes_newMessage]
    exact ⟨Nat.zero_le _, fun _ => rfl⟩
  · simp only [hp, if_false]
    by_cases hn : res.readed < 0
    · simp only [hn, if_true]
      by_cases he : EAGAIN ≠ res.errno ∧ EINTR ≠ res.errno
      · rw [if_pos he]
        exact ⟨Nat.le_refl _, fun h => Bool.noConfusion h⟩
      · rw [if_neg he]
        exact ⟨Nat.zero_le _, fun _ => rfl⟩
    · simp only [hn, if_false]
      exact ⟨Nat.le_refl _, fun h => Bool.noConfusion h⟩

/-- One call of `handleRead` invokes the close callback at most once. -/
theorem handleRead_closes {Msg : Type} (codec : Codec Msg) (fuel : Nat)
    (results : List ReadvResult) : ∀ c : TcpConnection,
    closes (handleRead codec fuel c results).2 ≤ 1 := by
  induction results with
  | nil => intro c; exact Nat.zero_le _
  | cons res rest ih =>
    intro c
    obtain ⟨h1, h2⟩ := handleReadPass_closes codec fuel c res
    rw [handleRead]
    by_cases ha : (handleReadPass codec fuel c res).again = true
    · rw [if_pos ha]
      simp only [closes_append, h2 ha, Nat.zero_add]
      exact ih _
    · rw [if_neg ha]
      exact h1

/-- One call of `sendInternal` invokes the close callback at most once. -/
theorem sendInternal_closes {Msg : Type} (results : List WritevResult) :
    ∀ (c c2 : TcpConnection) (tr : List (ConnEvent Msg)),
      sendInternal c results = some (c2, tr) → closes tr ≤ 1 := by
  induction results with
  | nil =>
    intro c c2 tr h
    simp only [sendInternal, Option.some.injEq, Prod.mk.injEq] at h
    rw [← h.2]
    exact Nat.zero_le _
  | cons res rest ih =>
    intro c c2 tr h
    rw [sendInternal] at h
    by_cases hempty : c.sndBufList.isEmpty = true
    · rw [if_pos hempty] at h
      simp only [Option.some.injEq, Prod.mk.injEq] at h
      rw [← h.2]
      exact Nat.zero_le _
    · rw [if_neg hempty] at h
      simp only at h
      by_cases hs : toSize res.ret > 0
      · rw [if_pos hs] at h
        cases hm : markSended (toSize res.ret) c.sndBufList with
        | none =>
          rw [hm] at h
          exact Option.noConfusion h
        | some l =>
          rw [hm] at h
          simp only at h
          cases hrec : @sendInternal Msg { c with sndBufList := l } rest with
          | none =>
            rw [hrec] at h
            exact Option.noConfusion h
          | some r =>
            obtain ⟨c3, tr3⟩ := r
            rw [hrec] at h
            simp only [Option.some.injEq, Prod.mk.injEq] at h
            rw [← h.2]
            simp only [closes]
            exact ih _ _ _ hrec
      · rw [if_neg hs] at h
        by_cases he : EAGAIN = res.errno ∨ EINTR = res.errno
        · rw [if_pos he] at h
          simp only [Option.some.injEq, Prod.mk.injEq] at h
          rw [← h.2]
          exact Nat.zero_le _
        · rw [if_neg he] at h
          simp only [Option.some.injEq, Prod.mk.injEq] at h
          rw [← h.2]
          exact Nat.le_refl _

/-- One reactor event invokes the close callback at most once. -/
theorem deliver_closes {Msg : Type} (codec : Codec Msg) (c c2 : TcpConnection)
    (ev : ReactorEvent) (tr : List (ConnEvent Msg)) (h : deliver codec c ev = some (c2, tr)) :
    closes tr ≤ 1 := by
  cases ev with
  | handleRead fuel results =>
    simp only [deliver, Option.some.injEq] at h
    have hle := handleRead_closes codec fuel results c
    rw [h] at hle
    exact hle
  | handleWrite results => exact sendInternal_closes results c c2 tr h
  | handleClose errno =>
    simp only [deliver, handleClose, Option.some.injEq, Prod.mk.injEq] at h
    rw [← h.2]
    exact Nat.le_refl _

/-- A sequence of reactor events invokes the close callback at most once per event. -/
theorem deliverAll_closes {Msg : Type} (codec : Codec Msg) (evs : List ReactorEvent) :
    ∀ (c c2 : TcpConnection) (tr : List (ConnEvent Msg)),
      deliverAll codec c evs = some (c2, tr) → closes tr ≤ evs.length := by
  induction evs with
  | nil =>
    intro c c2 tr h
    simp only [deliverAll, Option.some.injEq, Prod.mk.injEq] at h
    rw [← h.2]
    exact Nat.zero_le _
  | cons ev evs ih =>
    intro c c2 tr h
    rw [deliverAll] at h
    cases hd : deliver codec c ev with
    | none =>
      rw [hd] at h
      exact Option.noConfusion h
    | some r =>
      obtain ⟨c1, tr1⟩ := r
      rw [hd] at h
      simp only at h
      cases hrest : deliverAll codec c1 evs with
      | none =>
        rw [hrest] at h
        exact Option.noConfusion h
      | some r2 =>
        obtain ⟨c3, tr3⟩ := r2
        rw [hrest] at h
        simp only [Option.some.injEq, Prod.mk.injEq] at h
        rw [← h.2, closes_append, List.length_cons]
        have h1 := deliver_closes codec c c1 ev tr1 hd
        have h2 := ih c1 c3 tr3 hrest
        omega

/-- Handling one more event after a sequence of events. -/
theorem deliverAll_concat {Msg : Type} (codec : Codec Msg) (evs : List ReactorEvent)
    (ev : ReactorEvent) : ∀ (c c1 c2 : TcpConnection) (tr1 tr2 : List (ConnEvent Msg)),
      deliverAll codec c evs = some (c1, tr1) → deliver codec c1 ev = some (c2, tr2) →
      deliverAll codec c (evs ++ [ev]) = some (c2, tr1 ++ tr2) := by
  induction evs with
  | nil =>
    intro c c1 c2 tr1 tr2 h1 h2
    simp only [deliverAll, Option.some.injEq, Prod.mk.injEq] at h1
    obtain ⟨rfl, rfl⟩ := h1
    simp only [List.nil_append, deliverAll, h2, List.append_nil]
  | cons e evs ih =>
    intro c c1 c2 tr1 tr2 h1 h2
    rw [deliverAll] at h1
    cases hd : deliver codec c e with
    | none =>
      rw [hd] at h1
      exact Option.noConfusion h1
    | some r =>
      obtain ⟨c0, tr0⟩ := r
      rw [hd] at h1
      simp only at h1
      cases hrest : deliverAll codec c0 evs with
      | none =>
        rw [hrest] at h1
        exact Option.noConfusion h1
      | some r2 =>
        obtain ⟨c3, tr3⟩ := r2
        rw [hrest] at h1
        simp only [Option.some.injEq, Prod.mk.injEq] at h1
        obtain ⟨rfl, rfl⟩ := h1
        have h3 := ih c0 c3 c2 tr3 tr2 hrest h2
        show deliverAll codec c (e :: (evs ++ [ev])) = some (c2, tr0 ++ tr3 ++ tr2)
        rw [deliverAll, hd]
        simp only [h3, List.append_assoc]

end TcpConnection

namespace TcpConnection

/-- Witness for C17: the peer closes (`readv` returns 0); the second result is not used. -/
theorem handleRead_close_delivery_witness :
    handleRead silentCodec 0 conn0 [⟨0, 0, []⟩, ⟨2, 0, [1, 2]⟩]
      = (conn0, [ConnEvent.closed 0]) :=
  (handleRead_close_delivery silentCodec 0 conn0 ⟨0, 0, []⟩ [⟨2, 0, [1, 2]⟩]).1 rfl

/-- C18 as stated fails: the peer has closed and the reactor delivers two read events; in
each `readv` returns 0 and `handleRead` invokes `on_close(conn, 0)`, twice in total. -/
theorem on_close_at_most_once_counterexample :
    (deliverAll silentCodec conn0
        [ReactorEvent.handleRead 0 [⟨0, 0, []⟩], ReactorEvent.handleRead 0 [⟨0, 0, []⟩]]).map
      Prod.snd = some [ConnEvent.closed 0, ConnEvent.closed 0] ∧
    ¬ (closes ([ConnEvent.closed 0, ConnEvent.closed 0] : List (ConnEvent Unit)) ≤ 1) := by
  decide

/-- C18 (amended): every reactor event delivered to a connection (one `handleRead`, one
`handleWrite`/`sendInternal` or one `handleClose` call, with arbitrary system call
results) invokes `on_close` at most once; so a sequence of `k` events invokes it at most
`k` times, and at most once in total when no event before the last one has invoked it. -/
theorem on_close_once_per_event {Msg : Type} (codec : Codec Msg) (c : TcpConnection) :
    (∀ (ev : ReactorEvent) (c2 : TcpConnection) (tr : List (ConnEvent Msg)),
      deliver codec c ev = some (c2, tr) → closes tr ≤ 1) ∧
    (∀ (evs : List ReactorEvent) (c2 : TcpConnection) (tr : List (ConnEvent Msg)),
      deliverAll codec c evs = some (c2, tr) → closes tr ≤ evs.length) ∧
    (∀ (evs : List ReactorEvent) (ev : ReactorEvent) (c1 c2 : TcpConnection)
        (tr1 tr2 : List (ConnEvent Msg)),
      deliverAll codec c evs = some (c1, tr1) → closes tr1 = 0 →
      deliver codec c1 ev = some (c2, tr2) →
      deliverAll codec c (evs ++ [ev]) = some (c2, tr1 ++ tr2) ∧ closes (tr1 ++ tr2) ≤ 1) := by
  refine ⟨?_, ?_, ?_⟩
  · intro ev c2 tr h
    exact deliver_closes codec c c2 ev tr h
  · intro evs c2 tr h
    exact deliverAll_closes codec evs c c2 tr h
  · intro evs ev c1 c2 tr1 tr2 h1 h0 h2
    refine ⟨deliverAll_concat codec evs ev c c1 c2 tr1 tr2 h1 h2, ?_⟩
    rw [closes_append, h0, Nat.zero_add]
    exact deliver_closes codec c1 c2 ev tr2 h2

/-- With a queue that is not empty, the `writev` that a pass of `sendInternal` issues is
given no iovec at all. -/
theorem sendInternal_issues_nothing {Msg : Type} (c c2 : TcpConnection)
    (res : WritevResult) (rest : List WritevResult) (tr : List (ConnEvent Msg))
    (hq : c.sndBufList.isEmpty = false) (h : sendInternal c (res :: rest) = some (c2, tr)) :
    tr.head? = some (ConnEvent.writev []) := by
  rw [sendInternal, hq] at h
  simp only [Bool.false_eq_true, if_false, writevCount, List.take_zero] at h
  by_cases hs : toSize res.ret > 0
  · rw [if_pos hs] at h
    cases hm : markSended (toSize res.ret) c.sndBufList with
    | none =>
      rw [hm] at h
      exact Option.noConfusion h
    | some l =>
      rw [hm] at h
      simp only at h
      cases hrec : @sendInternal Msg { c with sndBufList := l } rest with
      | none =>
        rw [hrec] at h
        exact Option.noConfusion h
      | some r =>
        rw [hrec] at h
        simp only [Option.some.injEq, Prod.mk.injEq] at h
        rw [← h.2]
        rfl
  · rw [if_neg hs] at h
    by_cases he : EAGAIN = res.errno ∨ EINTR = res.errno
    · rw [if_pos he] at h
      simp only [Option.some.injEq, Prod.mk.injEq] at h
      rw [← h.2]
      rfl
    · rw [if_neg he] at h
      simp only [Option.some.injEq, Prod.mk.injEq] at h
      rw [← h.2]
      rfl

/-- C19 (the code at the failing input): with two buffers queued, of 3 and 2 readable
bytes, the loop of `sendInternal` fills `min(2, 50) = 2` iovecs, one per buffer in FIFO
order, but the `writev` it issues is given none of them: the count it passes is 0.  The
`writev` then returns 0, and with a stale `errno` of 0 the socket is closed and
`on_close(conn, 0)` is invoked; with a stale `errno` of EAGAIN the WRITE bit is set. -/
theorem sendInternal_submits_no_iovec :
    filledIovecs [bufferOf [1, 2, 3], bufferOf [4, 5]]
      = [{ buffer := 0, base := 0, len := 3 }, { buffer := 1, base := 0, len := 2 }] ∧
    min ([bufferOf [1, 2, 3], bufferOf [4, 5]] : List VecBuffer).length vecMax = 2 ∧
    (sendInternal { conn0 with sndBufList := [bufferOf [1, 2, 3], bufferOf [4, 5]] }
        [⟨0, 0⟩]).map Prod.snd
      = some [(ConnEvent.writev [] : ConnEvent Unit), ConnEvent.sockClose, ConnEvent.closed 0] ∧
    (sendInternal { conn0 with sndBufList := [bufferOf [1, 2, 3], bufferOf [4, 5]] }
        [⟨0, EAGAIN⟩]).map Prod.snd
      = some [(ConnEvent.writev [] : ConnEvent Unit)] ∧
    (@sendInternal Unit { conn0 with sndBufList := [bufferOf [1, 2, 3], bufferOf [4, 5]] }
        [⟨0, EAGAIN⟩]).map (fun r => r.1.sndBufList)
      = some [bufferOf [1, 2, 3], bufferOf [4, 5]] := by
  decide

/-- C20 (the code at the failing inputs): with buffers of the bytes `[1, 2]` and
`[3, 4, 5, 6, 7]` queued, `markSended(5)` removes the first buffer and then subtracts the
readable size of the second (5) instead of the first (2): it stops with the second buffer
untouched, so 5 bytes stay queued where `[6, 7]` should.  `markSended(3)` on the single
buffer `[1, 2, 3]` removes it and then reads the readable size through `end()`; so does
`markSended(2)` on the two buffers, after the subtraction has wrapped around.  Only a
size below the readable size of the head buffer is handled as meant. -/
theorem markSended_miscounts :
    (markSended 5 [bufferOf [1, 2], bufferOf [3, 4, 5, 6, 7]]).map
        (fun l => l.map VecBuffer.readable) = some [[3, 4, 5, 6, 7]] ∧
    ([1, 2] ++ [3, 4, 5, 6, 7]).drop 5 = [6, 7] ∧
    markSended 3 [bufferOf [1, 2, 3]] = none ∧
    markSended 2 [bufferOf [1, 2], bufferOf [3, 4, 5, 6, 7]] = none ∧
    (markSended 1 [bufferOf [1, 2, 3]]).map (fun l => l.map VecBuffer.readable)
      = some [[2, 3]] := by
  decide

end TcpConnection


/-! ## PeerMessage -/

namespace GenericLenFieldHeader

theorem ntoh16_hton16 (x : Nat) (h : x < 65536) :
    ntoh16 (hton16 x).1 (hton16 x).2 = x := by
  simp only [ntoh16, hton16]
  omega

theorem ntoh32_hton32 (x : Nat) (h : x < U32) :
    ntoh32 (hton32 x).1 (hton32 x).2.1 (hton32 x).2.2.1 (hton32 x).2.2.2 = x := by
  have h2 : x < 4294967296 := h
  simp only [ntoh32, hton32]
  omega

theorem encode_length (info : PMInfo) (conLen : Nat) (buf : List Nat) :
    (encode info conLen buf).length = buf.length := by
  simp [encode]

theorem encode_getD (info : PMInfo) (conLen : Nat) (buf : List Nat) (h : 12 ≤ buf.length) :
    (encode info conLen buf).getD 0 0 = info.proto % 256 ∧
    (encode info conLen buf).getD 1 0 = info.version % 256 ∧
    (encode info conLen buf).getD 2 0 = (hton16 (((conLen + headerSize) % U64) % 65536)).1 ∧
    (encode info conLen buf).getD 3 0 = (hton16 (((conLen + headerSize) % U64) % 65536)).2 ∧
    (encode info conLen buf).getD 4 0 = (hton16 (info.seq % 65536)).1 ∧
    (encode info conLen buf).getD 5 0 = (hton16 (info.seq % 65536)).2 ∧
    (encode info conLen buf).getD 8 0 = (hton32 (info.cmd % U32)).1 ∧
    (encode info conLen buf).getD 9 0 = (hton32 (info.cmd % U32)).2.1 ∧
    (encode info conLen buf).getD 10 0 = (hton32 (info.cmd % U32)).2.2.1 ∧
    (encode info conLen buf).getD 11 0 = (hton32 (info.cmd % U32)).2.2.2 := by
  have h0 : 0 < buf.length := by omega
  have h1 : 1 < buf.length := by omega
  have h2 : 2 < buf.length := by omega
  have h3 : 3 < buf.length := by omega
  have h4 : 4 < buf.length := by omega
  have h5 : 5 < buf.length := by omega
  have h8 : 8 < buf.length := by omega
  have h9 : 9 < buf.length := by omega
  have h10 : 10 < buf.length := by omega
  have h11 : 11 < buf.length := by omega
  simp [encode, List.getD_eq_getElem?_getD, List.getElem?_set, h0, h1, h2, h3, h4, h5, h8, h9,
    h10, h11]

theorem encode_untouched (info : PMInfo) (conLen : Nat) (buf : List Nat) (i : Nat)
    (h : i = 6 ∨ i = 7 ∨ 12 ≤ i) :
    (encode info conLen buf)[i]? = buf[i]? := by
  simp only [encode]
  rw [List.getElem?_set_ne (by omega), List.getElem?_set_ne (by omega),
    List.getElem?_set_ne (by omega), List.getElem?_set_ne (by omega),
    List.getElem?_set_ne (by omega), List.getElem?_set_ne (by omega),
    List.getElem?_set_ne (by omega), List.getElem?_set_ne (by omega),
    List.getElem?_set_ne (by omega), List.getElem?_set_ne (by omega)]

end GenericLenFieldHeader

namespace GenericLenFieldHeader

/-- C25: header round trip.  For a buffer of at least 12 bytes, `decode` applied to what
`encode` wrote gives back `cmd` for every 32-bit value, `proto` and `version` when they
fit in 8 bits and `seq` when it fits in 16 bits, whatever the content length; so a
`PMInfo` within these ranges is read back whole.  `encode` keeps the length of the
buffer and leaves the reserved bytes 6 and 7 and everything after the header alone. -/
theorem decode_encode (info old : PMInfo) (conLen : Nat) (buf : List Nat)
    (hlen : headerSize ≤ buf.length) (hcmd : info.cmd < U32) :
    (decode old (encode info conLen buf)).cmd = info.cmd ∧
    (info.proto < 256 → (decode old (encode info conLen buf)).proto = info.proto) ∧
    (info.version < 256 → (decode old (encode info conLen buf)).version = info.version) ∧
    (info.seq < 65536 → (decode old (encode info conLen buf)).seq = info.seq) ∧
    (info.proto < 256 → info.version < 256 → info.seq < 65536 →
      decode old (encode info conLen buf) = info) ∧
    (encode info conLen buf).length = buf.length ∧
    (∀ i : Nat, i = 6 ∨ i = 7 ∨ headerSize ≤ i → (encode info conLen buf)[i]? = buf[i]?) := by
  obtain ⟨e0, e1, _, _, e4, e5, e8, e9, e10, e11⟩ := encode_getD info conLen buf hlen
  have hc : (decode old (encode info conLen buf)).cmd = info.cmd := by
    simp only [decode, e8, e9, e10, e11]
    rw [Nat.mod_eq_of_lt hcmd]
    exact ntoh32_hton32 _ hcmd
  have hp : info.proto < 256 → (decode old (encode info conLen buf)).proto = info.proto := by
    intro h
    simp only [decode, e0]
    exact Nat.mod_eq_of_lt h
  have hv : info.version < 256 →
      (decode old (encode info conLen buf)).version = info.version := by
    intro h
    simp only [decode, e1]
    exact Nat.mod_eq_of_lt h
  have hs : info.seq < 65536 → (decode old (encode info conLen buf)).seq = info.seq := by
    intro h
    simp only [decode, e4, e5]
    rw [ntoh16_hton16 _ (Nat.mod_lt _ (by decide)), Nat.mod_eq_of_lt h]
  refine ⟨hc, hp, hv, hs, ?_, encode_length info conLen buf, ?_⟩
  · intro h1 h2 h3
    have a := hp h1
    have b := hv h2
    have c := hs h3
    cases hd : decode old (encode info conLen buf) with
    | mk p v c2 s =>
      rw [hd] at a b c hc
      cases info
      simp only at a b c hc
      subst a b c hc
      rfl
  · intro i hi
    exact encode_untouched info conLen buf i hi

theorem decode_encode_witness :
    headerSize ≤ (List.replicate 12 255).length ∧
    (⟨0x10, 1, 0xDEADBEEF, 0xFFFE⟩ : PMInfo).cmd < U32 ∧
    decode ⟨0, 0, 0, 0⟩ (encode ⟨0x10, 1, 0xDEADBEEF, 0xFFFE⟩ 70000 (List.replicate 12 255)) =
      ⟨0x10, 1, 0xDEADBEEF, 0xFFFE⟩ :=
  ⟨by decide, by decide,
    (decode_encode ⟨0x10, 1, 0xDEADBEEF, 0xFFFE⟩ ⟨0, 0, 0, 0⟩ 70000 (List.replicate 12 255)
      (by decide) (by decide)).2.2.2.2.1 (by decide) (by decide) (by decide)⟩

/-- C26 (counterexample): for a content of 65530 bytes the header written by `encode`
makes `getPackLen` return 6, not 65542: the length field has 16 bits. -/
theorem getPackLen_encode_counterexample :
    getPackLen (encode ⟨0x10, 1, 7, 1⟩ 65530 (List.replicate 12 0)) = 6 ∧
    getPackLen (encode ⟨0x10, 1, 7, 1⟩ 65530 (List.replicate 12 0)) ≠ ((65530 + 12 : Nat) : Int) := by
  decide

/-- C26 (amended): for a buffer of at least 12 bytes and every content length,
`getPackLen` applied to the header written by `encode` returns the total length
`conLen + 12` reduced modulo 2^16, a value that is not negative and below 65536; it is
`conLen + 12` itself exactly when `conLen + 12` fits in 16 bits. -/
theorem getPackLen_encode (info : PMInfo) (conLen : Nat) (buf : List Nat)
    (hlen : headerSize ≤ buf.length) :
    getPackLen (encode info conLen buf) = (((conLen + 12) % 65536 : Nat) : Int) ∧
    0 ≤ getPackLen (encode info conLen buf) ∧
    getPackLen (encode info conLen buf) < 65536 ∧
    (getPackLen (encode info conLen buf) = ((conLen + 12 : Nat) : Int) ↔ conLen + 12 < 65536) := by
  obtain ⟨_, _, e2, e3, _⟩ := encode_getD info conLen buf hlen
  have hdvd : (65536 : Nat) ∣ U64 := by decide
  have key : getPackLen (encode info conLen buf) = (((conLen + 12) % 65536 : Nat) : Int) := by
    simp only [getPackLen, e2, e3]
    rw [ntoh16_hton16 _ (Nat.mod_lt _ (by decide))]
    simp only [headerSize]
    rw [Nat.mod_mod_of_dvd _ hdvd]
  have hlt : (conLen + 12) % 65536 < 65536 := Nat.mod_lt _ (by decide)
  refine ⟨key, ?_, ?_, ?_⟩
  · rw [key]
    exact Int.natCast_nonneg _
  · rw [key]
    exact_mod_cast hlt
  · rw [key]
    constructor
    · intro h
      have h2 : (conLen + 12) % 65536 = conLen + 12 := by exact_mod_cast h
      omega
    · intro h
      rw [Nat.mod_eq_of_lt h]

theorem getPackLen_encode_witness :
    headerSize ≤ (List.replicate 16 0).length ∧
    getPackLen (encode ⟨0x11, 2, 3, 4⟩ 100 (List.replicate 16 0)) = (((100 + 12) % 65536 : Nat) : Int) :=
  ⟨by decide,
    (getPackLen_encode ⟨0x11, 2, 3, 4⟩ 100 (List.replicate 16 0) (by decide)).1⟩

end GenericLenFieldHeader

namespace PMInfo

theorem majorCmd_eq (info : PMInfo) (h : info.cmd < U32) : info.majorCmd = info.cmd / 65536 := by
  simp only [majorCmd, Nat.shiftRight_eq_div_pow]
  have h2 : info.cmd < 4294967296 := h
  have h3 : info.cmd / 2 ^ 16 = info.cmd / 65536 := by norm_num
  rw [h3]
  exact Nat.mod_eq_of_lt (by omega)

theorem minorCmd_eq (info : PMInfo) : info.minorCmd = info.cmd % 65536 := by
  simp only [minorCmd]
  have : (0xFFFF : Nat) = 2 ^ 16 - 1 := by norm_num
  rw [this, Nat.and_pow_two_sub_one_eq_mod]
  norm_num

/-- C27: for every 32-bit `cmd`, `majorCmd()` is the high 16 bits and `minorCmd()` the
low 16 bits, both below 65536, `cmd = majorCmd() * 65536 + minorCmd()`, and two 32-bit
command ids with the same major and minor halves are equal. -/
theorem cmd_split (info : PMInfo) (h : info.cmd < U32) :
    info.majorCmd = info.cmd / 65536 ∧ info.minorCmd = info.cmd % 65536 ∧
    info.majorCmd < 65536 ∧ info.minorCmd < 65536 ∧
    info.cmd = info.majorCmd * 65536 + info.minorCmd ∧
    (∀ other : PMInfo, other.cmd < U32 → other.majorCmd = info.majorCmd →
      other.minorCmd = info.minorCmd → other.cmd = info.cmd) := by
  have h2 : info.cmd < 4294967296 := h
  have a := majorCmd_eq info h
  have b := minorCmd_eq info
  refine ⟨a, b, ?_, ?_, ?_, ?_⟩
  · rw [a]
    omega
  · rw [b]
    omega
  · rw [a, b]
    omega
  · intro other ho h1 h2
    rw [majorCmd_eq other ho, a] at h1
    rw [minorCmd_eq other, b] at h2
    omega

theorem cmd_split_witness :
    (⟨0x10, 1, 0x00120034, 0⟩ : PMInfo).cmd < U32 ∧
    (⟨0x10, 1, 0x00120034, 0⟩ : PMInfo).majorCmd = 0x00120034 / 65536 :=
  ⟨by decide, (cmd_split ⟨0x10, 1, 0x00120034, 0⟩ (by decide)).1⟩

end PMInfo


/-! ## Logger -/

namespace Logger

theorem levelMask_setLogLevel (lg : Logger) (L : Nat) (hL : L ≤ LEVEL_MAX) :
    (setLogLevel lg L).levelMask = 2 ^ (L + 1) - 1 := by
  have h6 : L ≤ 6 := hL
  simp only [setLogLevel, Nat.shiftLeft_eq, Nat.one_mul]
  apply Nat.mod_eq_of_lt
  have : 2 ^ (L + 1) ≤ 2 ^ 7 := Nat.pow_le_pow_right (by decide) (by omega)
  have h7 : (2 : Nat) ^ 7 = 128 := by norm_num
  have hU : U32 = 4294967296 := rfl
  omega

theorem passesFilter_iff (lg : Logger) (L l : Nat) (hL : L ≤ LEVEL_MAX) :
    passesFilter (setLogLevel lg L) l = true ↔ l ≤ L := by
  simp only [passesFilter, levelMask_setLogLevel lg L hL, Nat.shiftLeft_eq, Nat.one_mul,
    Bool.not_eq_true', decide_eq_false_iff_not]
  have key : (2 ^ (L + 1) - 1) &&& 2 ^ l = if l < L + 1 then 2 ^ l else 0 := by
    apply Nat.eq_of_testBit_eq
    intro i
    rw [Nat.testBit_and, Nat.testBit_two_pow_sub_one, Nat.testBit_two_pow]
    by_cases hl : l < L + 1
    · rw [if_pos hl, Nat.testBit_two_pow]
      by_cases hi : l = i
      · subst hi
        simp [hl]
      · simp [hi]
    · rw [if_neg hl, Nat.zero_testBit]
      by_cases hi : l = i
      · subst hi
        simp [hl]
      · simp [hi]
  rw [key]
  by_cases hl : l < L + 1
  · rw [if_pos hl]
    have : 0 < 2 ^ l := Nat.pow_pos (by decide)
    constructor
    · intro _
      omega
    · intro _ h0
      omega
  · rw [if_neg hl]
    constructor
    · intro h
      exact absurd rfl h
    · intro h
      omega

/-- C28: log level filtering.  After `setLogLevel(L)`, `L` any value of the enum, a call
`printLogLn(l, ...)` with `l < LEVEL_MAX` passes the level filter exactly when `l <= L`,
and then appends exactly when the text formats to a positive length; a freshly
constructed `Logger` passes every level below `LEVEL_MAX`; and a level from `LEVEL_MAX`
on never appends, whatever the mask. -/
theorem level_filter (lg : Logger) (L : Nat) (hL : L ≤ LEVEL_MAX) :
    (∀ l : Nat, l < LEVEL_MAX → (passesFilter (setLogLevel lg L) l = true ↔ l ≤ L)) ∧
    (∀ (l : Nat) (ret : Int), l < LEVEL_MAX →
      (printLogLn (setLogLevel lg L) l ret = LogAction.append ↔ l ≤ L ∧ 0 < ret)) ∧
    (∀ l : Nat, l < LEVEL_MAX → passesFilter Logger.new l = true) ∧
    (∀ (any : Logger) (l : Nat) (ret : Int), LEVEL_MAX ≤ l →
      printLogLn any l ret ≠ LogAction.append) := by
  refine ⟨?_, ?_, ?_, ?_⟩
  · intro l _
    exact passesFilter_iff lg L l hL
  · intro l ret hl
    have hp := passesFilter_iff lg L l hL
    simp only [printLogLn]
    rw [if_pos hl]
    by_cases hle : l ≤ L
    · have ht : passesFilter (setLogLevel lg L) l = true := hp.2 hle
      rw [ht]
      by_cases hr : ret > 0
      · simp [hr, hle]
      · simp [hr, hle]
    · have hf : passesFilter (setLogLevel lg L) l = false := by
        cases h : passesFilter (setLogLevel lg L) l with
        | false => rfl
        | true => exact absurd (hp.1 h) hle
      rw [hf]
      simp [hle]
  · intro l hl
    have h5 : l ≤ LEVEL_VERBOSE := by
      have : l < 6 := hl
      show l ≤ 5
      omega
    exact (passesFilter_iff { levelMask := 0 } LEVEL_VERBOSE l (by decide)).2 h5
  · intro any l ret hl
    simp only [printLogLn]
    rw [if_neg (Nat.not_lt.mpr hl)]
    decide

theorem level_filter_witness :
    LEVEL_INFO ≤ LEVEL_MAX ∧
    (passesFilter (setLogLevel Logger.new LEVEL_INFO) LEVEL_WARRING = true ↔
      LEVEL_WARRING ≤ LEVEL_INFO) ∧
    (passesFilter (setLogLevel Logger.new LEVEL_INFO) LEVEL_DEBUG = true ↔
      LEVEL_DEBUG ≤ LEVEL_INFO) :=
  ⟨by decide, (level_filter Logger.new LEVEL_INFO (by decide)).1 LEVEL_WARRING (by decide),
    (level_filter Logger.new LEVEL_INFO (by decide)).1 LEVEL_DEBUG (by decide)⟩

end Logger


/-! ## TcpConnection: sends and the drain -/

namespace TcpConnection

/-- A negative result of `writev`, converted to `size_t`, is positive. -/
theorem toSize_pos_of_neg (ret : Int) (h1 : -(U64 : Int) < ret) (h2 : ret < 0) :
    toSize ret > 0 := by
  simp only [toSize, U64] at h1 ⊢
  omega

/-- The method `markSended` never empties a queue that was not empty. -/
theorem markSended_ne_nil : ∀ (l : List VecBuffer) (sended : Nat) (l2 : List VecBuffer),
    markSended sended l = some l2 → l ≠ [] → l2 ≠ [] := by
  intro l
  induction l with
  | nil =>
    intro sended l2 _ h
    exact absurd rfl h
  | cons b rest ih =>
    intro sended l2 h _
    cases rest with
    | nil =>
      simp only [markSended] at h
      by_cases hs : sended ≥ b.readableSize
      · rw [if_pos hs] at h
        exact Option.noConfusion h
      · rw [if_neg hs] at h
        simp only [Option.some.injEq] at h
        rw [← h]
        exact List.cons_ne_nil _ _
    | cons next rest2 =>
      simp only [markSended] at h
      by_cases hs : sended ≥ b.readableSize
      · rw [if_pos hs] at h
        by_cases hz : (sended + U64 - next.readableSize % U64) % U64 = 0
        · rw [if_pos hz] at h
          simp only [Option.some.injEq] at h
          rw [← h]
          exact List.cons_ne_nil _ _
        · rw [if_neg hz] at h
          exact ih _ _ h (List.cons_ne_nil _ _)
      · rw [if_neg hs] at h
        simp only [Option.some.injEq] at h
        rw [← h]
        exact List.cons_ne_nil _ _

/-- What `sendInternal` may change of a connection: the send queue, which it never
empties, and at the end either nothing else, or the WRITE bit, which it sets, or the
descriptor, which it closes. -/
theorem sendInternal_effect {Msg : Type} (results : List WritevResult) :
    ∀ (c c2 : TcpConnection) (tr : List (ConnEvent Msg)),
      sendInternal c results = some (c2, tr) →
      c2.rcvBuf = c.rcvBuf ∧
      (c2.channel = c.channel ∨ c2.channel = c.channel.enableWrite true true) ∧
      (c.sndBufList ≠ [] → c2.sndBufList ≠ []) := by
  induction results with
  | nil =>
    intro c c2 tr h
    simp only [sendInternal, Option.some.injEq, Prod.mk.injEq] at h
    rw [← h.1]
    exact ⟨rfl, Or.inl rfl, fun hne => hne⟩
  | cons res rest ih =>
    intro c c2 tr h
    rw [sendInternal] at h
    by_cases hempty : c.sndBufList.isEmpty = true
    · rw [if_pos hempty] at h
      simp only [Option.some.injEq, Prod.mk.injEq] at h
      rw [← h.1]
      exact ⟨rfl, Or.inl rfl, fun hne => hne⟩
    · rw [if_neg hempty] at h
      simp only at h
      by_cases hs : toSize res.ret > 0
      · rw [if_pos hs] at h
        cases hm : markSended (toSize res.ret) c.sndBufList with
        | none =>
          rw [hm] at h
          exact Option.noConfusion h
        | some l =>
          rw [hm] at h
          simp only at h
          cases hrec : @sendInternal Msg { c with sndBufList := l } rest with
          | none =>
            rw [hrec] at h
            exact Option.noConfusion h
          | some r =>
            obtain ⟨c3, tr3⟩ := r
            rw [hrec] at h
            simp only [Option.some.injEq, Prod.mk.injEq] at h
            rw [← h.1]
            obtain ⟨a1, a2, a3⟩ := ih _ _ _ hrec
            refine ⟨a1, a2, fun hne => a3 ?_⟩
            exact markSended_ne_nil _ _ _ hm hne
      · rw [if_neg hs] at h
        by_cases he : EAGAIN = res.errno ∨ EINTR = res.errno
        · rw [if_pos he] at h
          simp only [Option.some.injEq, Prod.mk.injEq] at h
          rw [← h.1]
          exact ⟨rfl, Or.inr rfl, fun hne => hne⟩
        · rw [if_neg he] at h
          simp only [Option.some.injEq, Prod.mk.injEq] at h
          rw [← h.1]
          exact ⟨rfl, Or.inl rfl, fun hne => hne⟩

/-- On a queue that is not empty every defined run of `sendInternal` starts with a
gather-write. -/
theorem sendInternal_issues {Msg : Type} (c c2 : TcpConnection) (res : WritevResult)
    (rest : List WritevResult) (tr : List (ConnEvent Msg)) (hne : c.sndBufList ≠ [])
    (h : sendInternal c (res :: rest) = some (c2, tr)) :
    ∃ tr2, tr = ConnEvent.writev ((filledIovecs c.sndBufList).take (writevCount c.sndBufList))
      :: tr2 := by
  rw [sendInternal] at h
  have hempty : ¬ c.sndBufList.isEmpty = true := by
    intro he
    exact hne (List.isEmpty_iff.mp he)
  rw [if_neg hempty] at h
  simp only at h
  by_cases hs : toSize res.ret > 0
  · rw [if_pos hs] at h
    cases hm : markSended (toSize res.ret) c.sndBufList with
    | none =>
      rw [hm] at h
      exact Option.noConfusion h
    | some l =>
      rw [hm] at h
      simp only at h
      cases hrec : @sendInternal Msg { c with sndBufList := l } rest with
      | none =>
        rw [hrec] at h
        exact Option.noConfusion h
      | some r =>
        obtain ⟨c3, tr3⟩ := r
        rw [hrec] at h
        simp only [Option.some.injEq, Prod.mk.injEq] at h
        exact ⟨tr3, h.2.symm⟩
  · rw [if_neg hs] at h
    by_cases he : EAGAIN = res.errno ∨ EINTR = res.errno
    · rw [if_pos he] at h
      simp only [Option.some.injEq, Prod.mk.injEq] at h
      exact ⟨[], h.2.symm⟩
    · rw [if_neg he] at h
      simp only [Option.some.injEq, Prod.mk.injEq] at h
      exact ⟨_, h.2.symm⟩

/-- The fatal branch of `sendInternal`: a gather-write that returns 0 with an `errno`
other than `EAGAIN` and `EINTR` closes the socket and invokes the close callback. -/
theorem sendInternal_fatal {Msg : Type} (c : TcpConnection) (res : WritevResult)
    (rest : List WritevResult) (hne : c.sndBufList ≠ []) (h0 : toSize res.ret = 0)
    (he : ¬ (EAGAIN = res.errno ∨ EINTR = res.errno)) :
    @sendInternal Msg c (res :: rest) = some ({ c with fd := -1 },
      [ConnEvent.writev ((filledIovecs c.sndBufList).take (writevCount c.sndBufList)),
        ConnEvent.sockClose, ConnEvent.closed res.errno]) := by
  rw [sendInternal]
  have hempty : ¬ c.sndBufList.isEmpty = true := by
    intro h
    exact hne (List.isEmpty_iff.mp h)
  rw [if_neg hempty]
  simp only
  rw [if_neg (by omega), if_neg he]

end TcpConnection

namespace TcpConnection

/-- C21 (the code at the failing input): one buffer of 3 bytes is queued, the WRITE bit is
clear, and `writev` returns -1 with `errno` `EAGAIN` (or `EINTR`).  The result is stored
in `size_t sended` and becomes 2^64 - 1, so `sended > 0` holds and the code calls
`markSended(2^64 - 1)`, which removes the buffer and reads through `end()`: the queue is
not left as it was and the WRITE bit is not set.  The branch that sets it runs only when
`writev` returns 0, shown last. -/
theorem sendInternal_negative_result_not_deferred :
    toSize (-1) = U64 - 1 ∧
    markSended (toSize (-1)) [bufferOf [1, 2, 3]] = none ∧
    @sendInternal Unit connQueued [⟨-1, EAGAIN⟩] = none ∧
    @sendInternal Unit connQueued [⟨-1, EINTR⟩] = none ∧
    @sendInternal Unit connQueued [⟨0, EAGAIN⟩]
      = some ({ connQueued with channel := connQueued.channel.enableWrite true true },
          [ConnEvent.writev []]) ∧
    (connQueued.channel.enableWrite true true).writeEnabled = true := by
  decide

/-- C22 as stated fails: a connection as the constructor leaves it has an empty send
queue and the WRITE bit set; `sendInternal` finds the queue empty and returns with the
WRITE bit still set. -/
theorem sendInternal_clears_write_counterexample :
    conn0.sndBufList = [] ∧ conn0.channel.writeEnabled = true ∧
    (@sendInternal Unit conn0 [⟨0, 0⟩]).map (fun r => r.1.channel.writeEnabled) = some true ∧
    (@sendInternal Unit conn0 [⟨0, 0⟩]).map (fun r => r.2) = some [] := by
  decide

/-- C22 (amended): `sendInternal` never clears the WRITE bit.  When it finds the send
queue empty it returns at once, with no gather-write and the connection as it was; and
whatever the queue and the results of `writev`, a run that returns leaves the bits
`attached` and READ as they were and the WRITE bit set if it was set. -/
theorem sendInternal_never_clears_write {Msg : Type} (c : TcpConnection)
    (results : List WritevResult) :
    (c.sndBufList = [] → @sendInternal Msg c results = some (c, [])) ∧
    (∀ (c2 : TcpConnection) (tr : List (ConnEvent Msg)),
      sendInternal c results = some (c2, tr) →
      (c.channel.writeEnabled = true → c2.channel.writeEnabled = true) ∧
      c2.channel.attached = c.channel.attached ∧
      c2.channel.readEnabled = c.channel.readEnabled) := by
  constructor
  · intro h
    cases results with
    | nil => rfl
    | cons res rest =>
      rw [sendInternal, h]
      rfl
  · intro c2 tr h
    obtain ⟨_, hch, _⟩ := sendInternal_effect results c c2 tr h
    rcases hch with hch | hch
    · rw [hch]
      exact ⟨fun hw => hw, rfl, rfl⟩
    · rw [hch]
      exact ⟨fun _ => rfl, rfl, rfl⟩

/-- C23: sends append in FIFO order.  `send(b)` leaves the queue equal to the queue
before followed by `b`, `sendMultiple(bs)` leaves it equal to the queue before followed
by the buffers of `bs` in their order and leaves `bs` empty; each call posts exactly one
task, `sendInternal`, to the looper; the receive buffer, the descriptor and the channel
stay, and so does every read cursor of the queue. -/
theorem send_appends_fifo (c : TcpConnection) (b : VecBuffer) (bs : List VecBuffer) :
    (send c b).1.sndBufList = c.sndBufList ++ [b] ∧
    (send c b).2 = [Runnable.sendInternal] ∧
    (sendMultiple c bs).1.sndBufList = c.sndBufList ++ bs ∧
    (sendMultiple c bs).2.1 = [] ∧
    (sendMultiple c bs).2.2 = [Runnable.sendInternal] ∧
    (send c b).1 = { c with sndBufList := (send c b).1.sndBufList } ∧
    (sendMultiple c bs).1 = { c with sndBufList := (sendMultiple c bs).1.sndBufList } ∧
    (send c b).1.sndBufList.map VecBuffer.readPos
      = c.sndBufList.map VecBuffer.readPos ++ [b.readPos] ∧
    (sendMultiple c bs).1.sndBufList.map VecBuffer.readPos
      = c.sndBufList.map VecBuffer.readPos ++ bs.map VecBuffer.readPos := by
  refine ⟨rfl, rfl, rfl, rfl, rfl, rfl, rfl, ?_, ?_⟩
  · simp [send]
  · simp [sendMultiple]

/-- C24 as stated fails: one buffer is queued and `writev` returns 0 with `errno` 32,
so `sendInternal` closes the socket and invokes the close callback, the buffer staying
queued.  A later `send` is not dropped: it appends its buffer to the queue and posts a
drain task, and so does `sendMultiple`. -/
theorem send_on_closed_counterexample :
    @sendInternal Unit connQueued [⟨0, 32⟩]
      = some (connClosed, [ConnEvent.writev [], ConnEvent.sockClose, ConnEvent.closed 32]) ∧
    connClosed.fd = -1 ∧
    connClosed.sndBufList = [bufferOf [1, 2, 3]] ∧
    (send connClosed (bufferOf [9])).1.sndBufList = [bufferOf [1, 2, 3], bufferOf [9]] ∧
    (send connClosed (bufferOf [9])).1.sndBufList ≠ connClosed.sndBufList ∧
    (send connClosed (bufferOf [9])).2 = [Runnable.sendInternal] ∧
    (sendMultiple connClosed [bufferOf [8], bufferOf [9]]).1.sndBufList
      = [bufferOf [1, 2, 3], bufferOf [8], bufferOf [9]] ∧
    (sendMultiple connClosed [bufferOf [8], bufferOf [9]]).2.2 = [Runnable.sendInternal] := by
  decide

/-- C24 (amended): sends on a closed connection are not dropped.  On a connection whose
socket has been closed (the descriptor is -1, as after a fatal write error),
`send(buffer)` and `sendMultiple(buffers)` append to the send queue and post one drain
task, as on any connection: the queue grows by the buffers sent, the list handed to
`sendMultiple` is left empty, the descriptor stays -1 and nothing else changes. -/
theorem send_on_closed_appends (c : TcpConnection) (b : VecBuffer) (bs : List VecBuffer)
    (hclosed : c.fd = -1) :
    send c b = ({ c with sndBufList := c.sndBufList ++ [b] }, [Runnable.sendInternal]) ∧
    sendMultiple c bs
      = ({ c with sndBufList := c.sndBufList ++ bs }, [], [Runnable.sendInternal]) ∧
    (send c b).1.fd = -1 ∧
    (sendMultiple c bs).1.fd = -1 ∧
    (send c b).1.sndBufList ≠ c.sndBufList ∧
    (send c b).1.sndBufList.length = c.sndBufList.length + 1 ∧
    (sendMultiple c bs).1.sndBufList.length = c.sndBufList.length + bs.length ∧
    (bs ≠ [] → (sendMultiple c bs).1.sndBufList ≠ c.sndBufList) := by
  have h1 : (send c b).1.sndBufList.length = c.sndBufList.length + 1 := by
    show (c.sndBufList ++ [b]).length = c.sndBufList.length + 1
    simp
  have h2 : (sendMultiple c bs).1.sndBufList.length = c.sndBufList.length + bs.length := by
    show (c.sndBufList ++ bs).length = c.sndBufList.length + bs.length
    simp
  refine ⟨rfl, rfl, hclosed, hclosed, ?_, h1, h2, ?_⟩
  · intro h
    rw [h] at h1
    omega
  · intro hne h
    rw [h] at h2
    have hpos : 0 < bs.length := List.length_pos.mpr hne
    omega

theorem send_on_closed_appends_witness :
    connClosed.fd = -1 ∧
    send connClosed (bufferOf [9])
      = ({ connClosed with sndBufList := connClosed.sndBufList ++ [bufferOf [9]] },
          [Runnable.sendInternal]) :=
  ⟨rfl, (send_on_closed_appends connClosed (bufferOf [9]) [] rfl).1⟩

/-- C29 as stated fails: the receive buffer `drainedBuffer`, of capacity 1100 with both
cursors at 50, has no readable bytes and 1050 writable ones; after a failed parse `procRecvBuffer`
keeps it, capacity and cursors as they were, and does not replace it by a fresh buffer of
1024 bytes. -/
theorem procRecvBuffer_reset_counterexample :
    drainedBuffer.readableSize = 0 ∧
    (silentCodec.readMessage drainedBuffer).1 = none ∧
    (procRecvBuffer silentCodec drainedBuffer).2 = drainedBuffer ∧
    drainedBuffer.capacity = 1100 ∧
    (procRecvBuffer silentCodec drainedBuffer).2 ≠ VecBuffer.new predMsgLen := by
  have hw : drainedBuffer.writtableSize = 1050 := by
    simp only [VecBuffer.writtableSize, VecBuffer.capacity, drainedBuffer, List.length_replicate]
  have hn : ¬ (drainedBuffer.readableSize = 0 ∧ drainedBuffer.writtableSize < predMsgLen) := by
    intro hc
    rw [hw] at hc
    exact absurd hc.2 (by decide)
  have hp : procRecvBuffer silentCodec drainedBuffer = (none, drainedBuffer) := by
    simp only [procRecvBuffer, silentCodec]
    rw [if_neg hn, if_pos (by decide)]
    simp only [VecBuffer.ensure]
    rw [if_pos (by rw [hw]; decide)]
  refine ⟨rfl, rfl, ?_, ?_, ?_⟩
  · rw [hp]
  · simp only [VecBuffer.capacity, drainedBuffer, List.length_replicate]
  · rw [hp]
    intro h
    have h2 := congrArg VecBuffer.readPos h
    exact absurd h2 (by decide)

/-- C29 (amended): after a failed parse in `procRecvBuffer` (the codec returns no message
and leaves the buffer `buf`): if `buf` has no readable bytes and fewer than
`_predMsgLen` writable ones it is replaced by a fresh buffer of capacity 1024; otherwise,
also when it has no readable bytes but 1024 writable ones or more, the result is
`buf.ensure(e)`, with `e` the peek length of the codec when that is not negative and 1024
when it is negative.  After a successful parse the buffer is as the codec left it. -/
theorem procRecvBuffer_after_parse {Msg : Type} (codec : Codec Msg) (rcvBuf buf : VecBuffer)
    (h : codec.readMessage rcvBuf = (none, buf)) :
    (buf.readableSize = 0 → buf.writtableSize < predMsgLen →
      procRecvBuffer codec rcvBuf = (none, VecBuffer.new predMsgLen) ∧
      (VecBuffer.new predMsgLen).capacity = 1024 ∧
      (VecBuffer.new predMsgLen).readableSize = 0) ∧
    (¬ (buf.readableSize = 0 ∧ buf.writtableSize < predMsgLen) →
      0 ≤ codec.peekMessageLen buf →
      procRecvBuffer codec rcvBuf = (none, buf.ensure (codec.peekMessageLen buf).toNat)) ∧
    (¬ (buf.readableSize = 0 ∧ buf.writtableSize < predMsgLen) →
      codec.peekMessageLen buf < 0 →
      procRecvBuffer codec rcvBuf = (none, buf.ensure predMsgLen)) ∧
    (buf.readableSize = 0 → predMsgLen ≤ buf.writtableSize → codec.peekMessageLen buf < 0 →
      procRecvBuffer codec rcvBuf = (none, buf)) ∧
    (∀ (other : VecBuffer) (message : Msg) (left : VecBuffer),
      codec.readMessage other = (some message, left) →
      procRecvBuffer codec other = (some message, left)) := by
  refine ⟨?_, ?_, ?_, ?_, ?_⟩
  · intro h1 h2
    refine ⟨?_, ?_, ?_⟩
    · simp only [procRecvBuffer, h]
      rw [if_pos ⟨h1, h2⟩]
    · simp only [VecBuffer.new, VecBuffer.capacity, List.length_replicate]
      rfl
    · rfl
  · intro hn hp
    simp only [procRecvBuffer, h]
    rw [if_neg hn, if_neg (not_lt.mpr hp)]
  · intro hn hp
    simp only [procRecvBuffer, h]
    rw [if_neg hn, if_pos hp]
  · intro h1 h2 hp
    have hn : ¬ (buf.readableSize = 0 ∧ buf.writtableSize < predMsgLen) := by
      intro hc
      exact absurd hc.2 (not_lt.mpr h2)
    simp only [procRecvBuffer, h]
    rw [if_neg hn, if_pos hp]
    simp only [VecBuffer.ensure]
    rw [if_pos h2]
  · intro other message left hm
    simp only [procRecvBuffer, hm]

theorem procRecvBuffer_after_parse_witness :
    silentCodec.readMessage (bufferOf [1, 2, 3]) = (none, bufferOf [1, 2, 3]) ∧
    procRecvBuffer silentCodec (bufferOf [1, 2, 3])
      = (none, (bufferOf [1, 2, 3]).ensure predMsgLen) :=
  ⟨rfl, (procRecvBuffer_after_parse silentCodec (bufferOf [1, 2, 3]) (bufferOf [1, 2, 3]) rfl).2.2.1
    (by decide) (by decide)⟩

end TcpConnection

/-! ## TcpServer: removal of a connection -/

namespace TcpServer

/-- C30 (the code at the failing input): the map holds the only `shared_ptr` to an
attached connection under the key 7.  `removeConnByKeyInLoop(7)` erases the entry first,
which destroys the connection while its channel is attached, and then calls `detach()`
through the reference into the erased entry; also with a second owner alive the erasure
comes first and the call goes through that reference.  `removeConnInLoop` detaches first
and erases afterwards, so the connection is detached when its last owner lets go. -/
theorem removeConnByKeyInLoop_erases_before_detach :
    StdMap.find 7 server1.connMap = some (some 0) ∧
    removeConnByKeyInLoop server1 7
      = ⟨none, [ServerEvent.erase 7, ServerEvent.destroy 0 true]⟩ ∧
    removeConnByKeyInLoop server2 7 = ⟨none, [ServerEvent.erase 7]⟩ ∧
    removeConnInLoop server2 0
      = ⟨some ⟨[⟨7, false, 1, none⟩], []⟩, [ServerEvent.detach 0, ServerEvent.erase 7]⟩ ∧
    release [⟨7, false, 1, none⟩] 0
      = ([⟨7, false, 0, some false⟩], [ServerEvent.destroy 0 false]) := by
  decide

end TcpServer


/-! ## The bucket index under 32-bit wraparound -/

namespace HashedWheelTimer

/-- C31: the bucket index is the arrival tick modulo the wheel size, also when the
32-bit sum wraps.  For every counter `ticked`, every tick count `ticks` and every mask
`W - 1` with `W = 2 ^ k` at most `2 ^ 32`, the index that `addTimeout` computes is
`((ticks + (ticked & mask)) mod 2^32) & mask`, it equals `(ticked + ticks) mod W`, it is
below `W`, and it is the bucket `_ticked & _mask` that `tick()` visits once the 64-bit
counter has advanced by `ticks`. -/
theorem addIndex_wraparound (tm : HashedWheelTimer) (ticks k : Nat) (hk : k ≤ 32)
    (hmask : tm.mask = 2 ^ k - 1) :
    addIndex tm ticks = ((ticks + (tm.ticked &&& tm.mask)) % U32) &&& tm.mask ∧
    addIndex tm ticks = (tm.ticked + ticks) % 2 ^ k ∧
    addIndex tm ticks < 2 ^ k ∧
    tickIndex { tm with ticked := (tm.ticked + ticks) % U64 } = addIndex tm ticks := by
  have hand : ∀ x : Nat, x &&& tm.mask = x % 2 ^ k := by
    intro x
    rw [hmask, Nat.and_pow_two_sub_one_eq_mod]
  have hpos : 0 < 2 ^ k := Nat.pow_pos (by norm_num)
  have hle : 2 ^ k ≤ U32 := by
    rw [U32]
    exact Nat.pow_le_pow_right (by norm_num) hk
  have hdvd : 2 ^ k ∣ U32 := by
    rw [U32]
    exact Nat.pow_dvd_pow 2 hk
  have hdvd64 : 2 ^ k ∣ U64 := by
    rw [U64]
    exact Nat.pow_dvd_pow 2 (by omega)
  have ho : (tm.ticked % 2 ^ k) % U32 = tm.ticked % 2 ^ k :=
    Nat.mod_eq_of_lt (lt_of_lt_of_le (Nat.mod_lt _ hpos) hle)
  have e1 : addIndex tm ticks = (ticks + tm.ticked % 2 ^ k) % 2 ^ k := by
    simp only [addIndex, hand, ho]
    exact Nat.mod_mod_of_dvd _ hdvd
  refine ⟨?_, ?_, ?_, ?_⟩
  · rw [e1, hand, hand]
    exact (Nat.mod_mod_of_dvd _ hdvd).symm
  · rw [e1, Nat.add_mod_mod, Nat.add_comm]
  · rw [e1]
    exact Nat.mod_lt _ hpos
  · show ((tm.ticked + ticks) % U64) &&& tm.mask = addIndex tm ticks
    rw [hand, Nat.mod_mod_of_dvd _ hdvd64, e1, Nat.add_mod_mod, Nat.add_comm]

theorem addIndex_wraparound_witness :
    3 ≤ 32 ∧ wheel8.mask = 2 ^ 3 - 1 ∧
    addIndex wheel8 4294967295 = (wheel8.ticked + 4294967295) % 2 ^ 3 ∧
    addIndex wheel8 4294967295 = 4 :=
  ⟨by decide, rfl, (addIndex_wraparound wheel8 4294967295 3 (by decide) rfl).2.1, by decide⟩

end HashedWheelTimer

end netio
